import Mathlib

/-!
# The Pusher-protocol websocket server

A shallow embedding of `src/mod/subscription.go` (the per-shard
`SubscriptionManager`), of the routing, registration and publishing of
`src/hub.go`, of the shard bitmap of `src/module/client.go`, of
`IsValidChannelName` (`src/mod/internal/protocol/pusher.go`), of
`AuthenticateUser` (`src/auth.go`) and of the broker serialisation
(`src/broker.go`), together with the parts of `encoding/json`, `crypto/hmac`
and `crypto/sha256` that they rely on.

Modelling conventions.

* A `*Client` is a pointer; only its identity matters here, so a client is
  an address.
* Go maps whose keys are enumerated or counted (`map[*Client]bool`,
  `map[string]bool`, `map[string]Member`, `map[*Client]string`) are finite
  sets / finite maps; the two-level maps of the manager are functions into
  `Option`, `none` standing for an absent key.
* Effects are recorded in the state: `sent c` is the sequence of values
  handed to `c.Send`, `posted` the sequence of webhook notifications
  started by `WebhookManager.Notify`, `subscriptions` the
  `metrics.Subscriptions` counter.
* Text (`string`, `[]byte`, `json.RawMessage`) is a `String`.
-/

namespace Websocket

/-! ## Protocol constants (`internal/protocol/pusher.go`) -/

def EventSubscriptionSucceeded : String := "pusher_internal:subscription_succeeded"
def EventMemberAdded : String := "pusher_internal:member_added"
def EventMemberRemoved : String := "pusher_internal:member_removed"

def ChannelPrefixPrivate : String := "private-"
def ChannelPrefixPresence : String := "presence-"

/-- Go `strings.HasPrefix(s, p)`. -/
def hasPrefix (s p : String) : Bool := p.data.isPrefixOf s.data

/-- Go `strings.Trim(s, cutset)`: drop every leading and trailing character
that belongs to `cutset`. -/
def stringsTrim (s cutset : String) : String :=
  String.mk
    (((s.data.dropWhile (fun c => cutset.data.contains c)).reverse.dropWhile
      (fun c => cutset.data.contains c)).reverse)

/-! ## The part of `encoding/json` used by presence subscription

`json.Unmarshal` first validates the whole input against the JSON grammar
and then stores the members of the top-level object into the target
struct.  The scanner below follows the JSON grammar (RFC 8259) and, as the
scanner of `encoding/json` does, refuses input in which more than
`maxNestingDepth` arrays and objects are open at a time.  Object
keys are matched against the struct tags ignoring case, the last matching
member wins, `null` leaves a field as it is, and a `json.RawMessage` field
receives the text of the value as it stands in the input. -/

namespace Json

def isSpace (c : Char) : Bool := c == ' ' || c == '\t' || c == '\n' || c == '\r'

def isDigit (c : Char) : Bool := '0'.toNat ≤ c.toNat && c.toNat ≤ '9'.toNat

def isHex (c : Char) : Bool :=
  isDigit c || ('a'.toNat ≤ c.toNat && c.toNat ≤ 'f'.toNat)
    || ('A'.toNat ≤ c.toNat && c.toNat ≤ 'F'.toNat)

def hexVal (c : Char) : Nat :=
  if isDigit c then c.toNat - '0'.toNat
  else if 'a'.toNat ≤ c.toNat && c.toNat ≤ 'f'.toNat then c.toNat - 'a'.toNat + 10
  else c.toNat - 'A'.toNat + 10

def skipSpace (s : List Char) : List Char := s.dropWhile isSpace

/-- Scan the rest of a string literal whose opening quote has been read;
returns what follows the closing quote. -/
def scanString : List Char → Option (List Char)
  | [] => none
  | '"' :: r => some r
  | '\\' :: 'u' :: a :: b :: c :: d :: r =>
    if isHex a && isHex b && isHex c && isHex d then scanString r else none
  | '\\' :: e :: r =>
    if e == '"' || e == '\\' || e == '/' || e == 'b' || e == 'f' || e == 'n'
        || e == 'r' || e == 't' then scanString r
    else none
  | c :: r => if c.toNat < 0x20 || c == '\\' then none else scanString r

/-- Digits `[0-9]+`: at least one digit, returns the rest. -/
def scanDigits (s : List Char) : Option (List Char) :=
  match s with
  | c :: r => if isDigit c then some (r.dropWhile isDigit) else none
  | [] => none

/-- Optional exponent part of a number. -/
def scanExp (s : List Char) : Option (List Char) :=
  match s with
  | 'e' :: '+' :: r => scanDigits r
  | 'e' :: '-' :: r => scanDigits r
  | 'e' :: r => scanDigits r
  | 'E' :: '+' :: r => scanDigits r
  | 'E' :: '-' :: r => scanDigits r
  | 'E' :: r => scanDigits r
  | _ => some s

/-- Optional fraction part followed by the optional exponent. -/
def scanFrac (s : List Char) : Option (List Char) :=
  match s with
  | '.' :: r => (scanDigits r).bind scanExp
  | _ => scanExp s

/-- Integer part (after an optional minus sign), then fraction and exponent. -/
def scanInt (s : List Char) : Option (List Char) :=
  match s with
  | '0' :: r => scanFrac r
  | c :: r => if isDigit c then scanFrac (r.dropWhile isDigit) else none
  | [] => none

def scanNumber (s : List Char) : Option (List Char) :=
  match s with
  | '-' :: r => scanInt r
  | _ => scanInt s

/-- An enclosing composite value that is still open. -/
inductive Open where
  | arr
  | obj
  deriving DecidableEq, Repr

/-- The constant `maxNestingDepth` of the scanner: the number of arrays and
objects that may be open at a time. -/
def maxNestingDepth : Nat := 10000

mutual

/-- Scan one JSON value at the head of the input (no leading space).
`stack` lists the arrays and objects opened so far and not yet closed (the
`parseState` of the scanner); the scan is over, and the rest of the input
returned, when a value is complete with an empty stack.  An opening bracket
or brace is an error when `limit` composite values are open already
(`pushParseState`: `exceeded max depth`); `limit` is `maxNestingDepth` in
`encoding/json`. -/
def scanValueAux (limit : Nat) : Nat → List Open → List Char → Option (List Char)
  | 0, _, _ => none
  | n + 1, stack, s =>
    match s with
    | '"' :: r => (scanString r).bind (scanAfterAux limit n stack)
    | 't' :: 'r' :: 'u' :: 'e' :: r => scanAfterAux limit n stack r
    | 'f' :: 'a' :: 'l' :: 's' :: 'e' :: r => scanAfterAux limit n stack r
    | 'n' :: 'u' :: 'l' :: 'l' :: r => scanAfterAux limit n stack r
    | '[' :: r =>
      if stack.length ≥ limit then none
      else
        match skipSpace r with
        | ']' :: r1 => scanAfterAux limit n stack r1
        | r1 => scanValueAux limit n (Open.arr :: stack) r1
    | '{' :: r =>
      if stack.length ≥ limit then none
      else
        match skipSpace r with
        | '}' :: r1 => scanAfterAux limit n stack r1
        | '"' :: r1 =>
          match (scanString r1).map skipSpace with
          | some (':' :: r2) => scanValueAux limit n (Open.obj :: stack) (skipSpace r2)
          | _ => none
        | _ => none
    | _ => (scanNumber s).bind (scanAfterAux limit n stack)

/-- A value has just been completed with `stack` still open: read the
separator or the closing bracket that must follow. -/
def scanAfterAux (limit : Nat) : Nat → List Open → List Char → Option (List Char)
  | 0, _, _ => none
  | _ + 1, [], r => some r
  | n + 1, Open.arr :: up, r =>
    match skipSpace r with
    | ',' :: r1 => scanValueAux limit n (Open.arr :: up) (skipSpace r1)
    | ']' :: r1 => scanAfterAux limit n up r1
    | _ => none
  | n + 1, Open.obj :: up, r =>
    match skipSpace r with
    | ',' :: r1 =>
      match skipSpace r1 with
      | '"' :: r2 =>
        match (scanString r2).map skipSpace with
        | some (':' :: r3) => scanValueAux limit n (Open.obj :: up) (skipSpace r3)
        | _ => none
      | _ => none
    | '}' :: r1 => scanAfterAux limit n up r1
    | _ => none

end

/-- Scan one JSON value in which at most `limit` arrays and objects are open
at a time; the fuel is twice the length of the input plus two (each character
is visited by at most one call of each function). -/
def scanValueWithin (limit : Nat) (s : List Char) : Option (List Char) :=
  scanValueAux limit (2 * s.length + 2) [] s

/-- Scan one JSON value as the scanner of `encoding/json` does. -/
def scanValue (s : List Char) : Option (List Char) := scanValueWithin maxNestingDepth s

/-- Value of four hexadecimal digits. -/
def hex4 (a b c d : Char) : Nat :=
  ((hexVal a * 16 + hexVal b) * 16 + hexVal c) * 16 + hexVal d

/-- The character of an escape `\e` other than `\u`. -/
def escapeChar (e : Char) : Char :=
  if e == 'b' then Char.ofNat 8
  else if e == 'f' then Char.ofNat 12
  else if e == 'n' then '\n'
  else if e == 'r' then '\r'
  else if e == 't' then '\t'
  else e

/-- Decode the body of a string literal whose opening quote has been read,
up to its closing quote.  A surrogate pair of `\u` escapes is combined; a
lone surrogate becomes U+FFFD, as in `encoding/json`. -/
def unquote : List Char → List Char
  | [] => []
  | '"' :: _ => []
  | '\\' :: 'u' :: a :: b :: c :: d :: '\\' :: 'u' :: e :: f :: g :: h :: r =>
    let hi := hex4 a b c d
    let lo := hex4 e f g h
    if 0xD800 ≤ hi ∧ hi < 0xDC00 then
      if 0xDC00 ≤ lo ∧ lo < 0xE000 then
        Char.ofNat (0x10000 + (hi - 0xD800) * 0x400 + (lo - 0xDC00)) :: unquote r
      else Char.ofNat 0xFFFD :: unquote ('\\' :: 'u' :: e :: f :: g :: h :: r)
    else if 0xDC00 ≤ hi ∧ hi < 0xE000 then
      Char.ofNat 0xFFFD :: unquote ('\\' :: 'u' :: e :: f :: g :: h :: r)
    else Char.ofNat hi :: unquote ('\\' :: 'u' :: e :: f :: g :: h :: r)
  | '\\' :: 'u' :: a :: b :: c :: d :: r =>
    let v := hex4 a b c d
    if 0xD800 ≤ v ∧ v < 0xE000 then Char.ofNat 0xFFFD :: unquote r
    else Char.ofNat v :: unquote r
  | '\\' :: e :: r => escapeChar e :: unquote r
  | c :: r => c :: unquote r

/-- Members of an object, read from the opening quote of a key onwards: the
decoded key and the text of the value of each member in order, and what
follows the closing brace. -/
def scanMembers : Nat → List Char → Option (List (String × String) × List Char)
  | 0, _ => none
  | n + 1, s =>
    match s with
    | '"' :: r =>
      match (scanString r).map skipSpace with
      | some (':' :: r1) =>
        let v := skipSpace r1
        match scanValue v with
        | none => none
        | some rest =>
          let member := (String.mk (unquote r), String.mk (v.take (v.length - rest.length)))
          match skipSpace rest with
          | ',' :: r2 =>
            (scanMembers n (skipSpace r2)).map (fun p => (member :: p.1, p.2))
          | '}' :: r2 => some ([member], r2)
          | _ => none
      | _ => none
    | _ => none

/-- Top level of `json.Unmarshal` into a struct: the members of the object
that the input consists of.  An input that is not valid JSON, or whose value
is neither an object nor `null`, is an error (`none`); `null` stores
nothing. -/
def objectMembers (input : String) : Option (List (String × String)) :=
  let s := skipSpace input.data
  match scanValue s with
  | none => none
  | some rest =>
    if skipSpace rest ≠ [] then none
    else
      match s with
      | 'n' :: _ => some []
      | '{' :: r =>
        match skipSpace r with
        | '}' :: _ => some []
        | r1 => (scanMembers (s.length + 1) r1).map Prod.fst
      | _ => none

/-- Case folding of object keys (`foldName`): ASCII letters, the long s and
the Kelvin sign. -/
def foldChar (c : Char) : Char :=
  if 'A'.toNat ≤ c.toNat ∧ c.toNat ≤ 'Z'.toNat then Char.ofNat (c.toNat + 32)
  else if c.toNat = 0x17F then 's'
  else if c.toNat = 0x212A then 'k'
  else c

def keyMatches (tag key : String) : Bool := tag.data.map foldChar == key.data.map foldChar

/-- Store into a field of Go type `string`: each matching member must hold a
string (decoded and stored) or `null` (skipped); any other value is an
`UnmarshalTypeError`. -/
def stringField (tag : String) : List (String × String) → String → Option String
  | [], cur => some cur
  | (key, raw) :: rest, cur =>
    if keyMatches tag key then
      match raw.data with
      | '"' :: body => stringField tag rest (String.mk (unquote body))
      | 'n' :: _ => stringField tag rest cur
      | _ => none
    else stringField tag rest cur

/-- Store into a field of type `json.RawMessage`: the text of the value of
the last matching member (`null` included). -/
def rawField (tag : String) : List (String × String) → String → String
  | [], cur => cur
  | (key, raw) :: rest, cur =>
    if keyMatches tag key then rawField tag rest raw else rawField tag rest cur

end Json


/-! ## Presence payloads -/

structure PresenceAuthResponse where
  Auth : String
  ChannelData : String
  deriving DecidableEq, Repr

structure PresenceChannelData where
  UserID : String
  UserInfo : String
  deriving DecidableEq, Repr

/-- Go `json.Unmarshal(userData, &authResp)`; `none` when it returns an
error. -/
def unmarshalPresenceAuthResponse (userData : String) : Option PresenceAuthResponse :=
  match Json.objectMembers userData with
  | none => none
  | some ms =>
    match Json.stringField "auth" ms "", Json.stringField "channel_data" ms "" with
    | some a, some d => some { Auth := a, ChannelData := d }
    | _, _ => none

/-- Go `json.Unmarshal([]byte(authResp.ChannelData), &chanData)`; `none` when
it returns an error. -/
def unmarshalPresenceChannelData (channelData : String) : Option PresenceChannelData :=
  match Json.objectMembers channelData with
  | none => none
  | some ms =>
    some { UserID := Json.rawField "user_id" ms "", UserInfo := Json.rawField "user_info" ms "" }

/-! ## Clients, frames and the webhook notifier -/

/-- A `*Client`: the subscription manager only compares clients by pointer. -/
structure Client where
  ptr : Nat
  deriving DecidableEq, Repr

structure Member where
  UserID : String
  UserInfo : String
  deriving DecidableEq, Repr

/-- The `data` member of a wire frame.  It is always a JSON string on the
wire; the cases keep apart what that string encodes.  In `presence`, `ids`
is the array of roster keys (in the order of a Go map iteration, hence a
finite set) and `hash` sends each of them to the JSON value of the
`UserInfo` of its member, kept here as the roster the loop reads. -/
inductive Data where
  | text (s : String)
  | presence (ids : Finset String) (hash : Finmap (fun _ : String => Member))
  | memberAdded (userID : String) (userInfo : String)
  | memberRemoved (userID : String)
  deriving DecidableEq

/-- The object `{"event": .., "channel": .., "data": ..}` that `json.Marshal`
encodes. -/
structure Frame where
  event : String
  channel : String
  data : Data
  deriving DecidableEq

/-- The argument of `Client.Send`: either the encoded bytes or a
`*websocket.PreparedMessage` built from them. -/
inductive Payload where
  | bytes (f : Frame)
  | prepared (f : Frame)
  deriving DecidableEq

def Payload.frame : Payload → Frame
  | Payload.bytes f => f
  | Payload.prepared f => f

/-- The library call `websocket.NewPreparedMessage(websocket.TextMessage, payload)`:
it frames the text message at once and reports no error for a text message. -/
def NewPreparedMessage (payload : Frame) : Option Frame := some payload

structure WebhookEvent where
  Name : String
  Channel : String
  deriving DecidableEq, Repr

structure WebhookManager where
  url : String
  secret : String
  deriving DecidableEq, Repr

/-- `WebhookManager.Notify`: nothing when no URL is configured, otherwise one
notification is started (a goroutine posting the event); `posted` lists the
notifications started so far. -/
def WebhookManager.Notify (wm : WebhookManager) (eventName channelName : String)
    (posted : List WebhookEvent) : List WebhookEvent :=
  if wm.url = "" then posted else posted ++ [{ Name := eventName, Channel := channelName }]

/-! ## SubscriptionManager -/

@[ext]
structure SubscriptionManager where
  channels : String → Option (Finset Client)
  clients : Client → Option (Finset String)
  presence : String → Option (Finmap (fun _ : String => Member))
  clientToUser : String → Option (Finmap (fun _ : Client => String))
  webhook : Option WebhookManager
  /-- The counter `metrics.Subscriptions`. -/
  subscriptions : Nat
  /-- Values handed to `Send` of each client, oldest first. -/
  sent : Client → List Payload
  /-- Webhook notifications started, oldest first. -/
  posted : List WebhookEvent

def NewSubscriptionManager (webhook : Option WebhookManager) : SubscriptionManager :=
  { channels := fun _ => none
    clients := fun _ => none
    presence := fun _ => none
    clientToUser := fun _ => none
    webhook := webhook
    subscriptions := 0
    sent := fun _ => []
    posted := [] }

/-- `client.Send(msg)`: the message is offered to the outbound queue of the
client (which drops it when full); the model records the call. -/
def Send (sm : SubscriptionManager) (client : Client) (msg : Payload) : SubscriptionManager :=
  { sm with sent := Function.update sm.sent client (sm.sent client ++ [msg]) }

/-- A loop `for client := range set { client.Send(msg) }`: one `Send` to each
member of the set. -/
def sendEach (sm : SubscriptionManager) (set : Finset Client) (msg : Payload) :
    SubscriptionManager :=
  { sm with sent := fun d => if d ∈ set then sm.sent d ++ [msg] else sm.sent d }

/-- The guarded call `if sm.webhook != nil { sm.webhook.Notify(name, channel) }`. -/
def notify (sm : SubscriptionManager) (eventName channel : String) : SubscriptionManager :=
  match sm.webhook with
  | some wm => { sm with posted := wm.Notify eventName channel sm.posted }
  | none => sm

def GetClients (sm : SubscriptionManager) (channel : String) : Finset Client :=
  (sm.channels channel).getD ∅

/-- Lines 142-170 of `handlePresenceSubscribe`: the member that the auth
payload describes, `none` on each of the four early returns. -/
def presenceMember (userData : String) : Option Member :=
  match unmarshalPresenceAuthResponse userData with
  | none => none
  | some authResp =>
    if authResp.ChannelData = "" then none
    else
      match unmarshalPresenceChannelData authResp.ChannelData with
      | none => none
      | some chanData =>
        let userID := stringsTrim chanData.UserID "\""
        if userID = "" ∨ userID = "null" then none
        else
          let userInfo := if chanData.UserInfo.data.length = 0 then "null" else chanData.UserInfo
          some { UserID := userID, UserInfo := userInfo }

/-- Lines 172-227 of `handlePresenceSubscribe`, for an accepted member.  The
store `sm.clientToUser[channel][client] = userID` would panic on a nil inner
map; that needs `presence[channel]` present and `clientToUser[channel]`
absent, which no reachable state shows (they are created together), and the
model reads the absent map as empty there. -/
def recordPresence (sm : SubscriptionManager) (client : Client) (channel : String)
    (member : Member) : SubscriptionManager :=
  let userID := member.UserID
  let sm1 : SubscriptionManager :=
    if (sm.presence channel).isNone then
      { sm with
        presence := Function.update sm.presence channel (some ∅)
        clientToUser := Function.update sm.clientToUser channel (some ∅) }
    else sm
  let roster := (sm1.presence channel).getD ∅
  let alreadyPresent : Bool := decide (userID ∈ roster)
  let roster1 := roster.insert userID member
  let clientMap1 := ((sm1.clientToUser channel).getD ∅).insert client userID
  let sm2 : SubscriptionManager :=
    { sm1 with
      presence := Function.update sm1.presence channel (some roster1)
      clientToUser := Function.update sm1.clientToUser channel (some clientMap1) }
  let ids := roster1.keys
  let successMsg : Frame :=
    { event := EventSubscriptionSucceeded, channel := channel, data := Data.presence ids roster1 }
  let sm3 := Send sm2 client (Payload.bytes successMsg)
  if !alreadyPresent then
    let addedMsg : Frame :=
      { event := EventMemberAdded, channel := channel
        data := Data.memberAdded userID member.UserInfo }
    let others := ((sm3.channels channel).getD ∅).filter (fun otherClient => otherClient ≠ client)
    match NewPreparedMessage addedMsg with
    | some pm => sendEach sm3 others (Payload.prepared pm)
    | none => sendEach sm3 others (Payload.bytes addedMsg)
  else sm3

def handlePresenceSubscribe (sm : SubscriptionManager) (client : Client) (channel : String)
    (userData : String) : SubscriptionManager :=
  match presenceMember userData with
  | none => sm
  | some member => recordPresence sm client channel member

def Subscribe (sm : SubscriptionManager) (client : Client) (channel : String)
    (userData : String) : SubscriptionManager :=
  let isNewChannel := (sm.channels channel).isNone
  let sm1 : SubscriptionManager :=
    { sm with
      channels :=
        Function.update sm.channels channel (some (insert client ((sm.channels channel).getD ∅))) }
  let sm2 : SubscriptionManager :=
    { sm1 with
      clients :=
        Function.update sm1.clients client (some (insert channel ((sm1.clients client).getD ∅))) }
  let sm3 : SubscriptionManager := { sm2 with subscriptions := sm2.subscriptions + 1 }
  let sm4 := if isNewChannel then notify sm3 "channel_occupied" channel else sm3
  if hasPrefix channel ChannelPrefixPresence then
    handlePresenceSubscribe sm4 client channel userData
  else
    Send sm4 client
      (Payload.bytes
        { event := EventSubscriptionSucceeded, channel := channel, data := Data.text "{}" })

def handlePresenceUnsubscribe (sm : SubscriptionManager) (client : Client) (channel : String) :
    SubscriptionManager :=
  match sm.clientToUser channel with
  | none => sm
  | some clientMap =>
    match clientMap.lookup client with
    | none => sm
    | some userID =>
      let clientMap1 := clientMap.erase client
      let sm1 : SubscriptionManager :=
        { sm with clientToUser := Function.update sm.clientToUser channel (some clientMap1) }
      let stillPresent : Bool := decide (∃ c ∈ clientMap1.keys, clientMap1.lookup c = some userID)
      if !stillPresent then
        let sm2 : SubscriptionManager :=
          match sm1.presence channel with
          | some roster =>
            { sm1 with presence := Function.update sm1.presence channel (some (roster.erase userID)) }
          | none => sm1
        let removedMsg : Frame :=
          { event := EventMemberRemoved, channel := channel, data := Data.memberRemoved userID }
        match sm2.channels channel with
        | some clients =>
          match NewPreparedMessage removedMsg with
          | some pm => sendEach sm2 clients (Payload.prepared pm)
          | none => sendEach sm2 clients (Payload.bytes removedMsg)
        | none => sm2
      else sm1

def Unsubscribe (sm : SubscriptionManager) (client : Client) (channel : String) :
    SubscriptionManager :=
  let sm1 : SubscriptionManager :=
    match sm.channels channel with
    | some clients =>
      let clients1 := clients.erase client
      if clients1.card = 0 then
        notify { sm with channels := Function.update sm.channels channel none }
          "channel_vacated" channel
      else { sm with channels := Function.update sm.channels channel (some clients1) }
    | none => sm
  let sm2 : SubscriptionManager :=
    match sm1.clients client with
    | some chans =>
      { sm1 with clients := Function.update sm1.clients client (some (chans.erase channel)) }
    | none => sm1
  if hasPrefix channel ChannelPrefixPresence then handlePresenceUnsubscribe sm2 client channel
  else sm2

/-- `RemoveClient`.  The loop ranges over the Go map `sm.clients[client]`, whose
iteration order is unspecified: `order` is the order the loop happens to
take, an enumeration of the keys of that map (`IsOrderOf`).  Each call of
`Unsubscribe` deletes from the map only the key being visited, so every key
is visited once. -/
def RemoveClient (sm : SubscriptionManager) (client : Client) (order : List String) :
    SubscriptionManager :=
  match sm.clients client with
  | some _ =>
    let sm1 := order.foldl (fun acc channel => Unsubscribe acc client channel) sm
    { sm1 with clients := Function.update sm1.clients client none }
  | none => sm

/-- The list `order` enumerates the keys of the map `sm.clients[client]`
(nothing when the client has no entry). -/
def IsOrderOf (sm : SubscriptionManager) (client : Client) (order : List String) : Prop :=
  order.Nodup ∧ ∀ channel, channel ∈ order ↔ channel ∈ (sm.clients client).getD ∅

/-! ## Auxiliary notions used to state what the operations do -/

/-- The user id that leaves a presence channel with `client`: the id the
client is mapped to, when no other client of the map has the same id. -/
def lastOf (clientMap : Finmap (fun _ : Client => String)) (client : Client) : Option String :=
  match clientMap.lookup client with
  | some userID =>
    if ∃ c ∈ (clientMap.erase client).keys, (clientMap.erase client).lookup c = some userID then none
    else some userID
  | none => none

/-- The user id whose last client on `channel` is `client`, if any. -/
def leaving (sm : SubscriptionManager) (client : Client) (channel : String) : Option String :=
  (sm.clientToUser channel).bind (fun clientMap => lastOf clientMap client)

/-- The frame announcing that `userID` left `channel`, as handed to `Send`. -/
def removedPayload (channel userID : String) : Payload :=
  Payload.prepared
    { event := EventMemberRemoved, channel := channel, data := Data.memberRemoved userID }

/-- The frame announcing that a member joined `channel`, as handed to `Send`. -/
def addedPayload (channel : String) (member : Member) : Payload :=
  Payload.prepared
    { event := EventMemberAdded, channel := channel
      data := Data.memberAdded member.UserID member.UserInfo }

/-- The member that `Subscribe` records for this channel and auth payload:
none on a channel that is not a presence channel and on a rejected payload. -/
def joining (channel userData : String) : Option Member :=
  if hasPrefix channel ChannelPrefixPresence then presenceMember userData else none

/-- Removing `client` empties the subscriber set of `channel`. -/
def vacates (sm : SubscriptionManager) (client : Client) (channel : String) : Bool :=
  match sm.channels channel with
  | some clients => (clients.erase client).card = 0
  | none => false

/-- Client `c` is subscribed to channel `ch` according to `channels`. -/
def inChannel (sm : SubscriptionManager) (ch : String) (c : Client) : Prop :=
  c ∈ (sm.channels ch).getD ∅

/-- Channel `ch` is listed for client `c` in `clients`. -/
def hasChannel (sm : SubscriptionManager) (c : Client) (ch : String) : Prop :=
  ch ∈ (sm.clients c).getD ∅

instance (sm : SubscriptionManager) (ch : String) (c : Client) : Decidable (inChannel sm ch c) := by
  unfold inChannel; infer_instance

instance (sm : SubscriptionManager) (c : Client) (ch : String) : Decidable (hasChannel sm c ch) := by
  unfold hasChannel; infer_instance

/-- The subscriber set of `channel` once `client` is removed, as `Unsubscribe`
leaves it: the key is deleted when the set becomes empty. -/
def channelWithout (sm : SubscriptionManager) (client : Client) (channel : String) :
    Option (Finset Client) :=
  (sm.channels channel).bind
    (fun clients => if (clients.erase client).card = 0 then none else some (clients.erase client))

/-- The first two steps of `Unsubscribe` (lines 231-242): the two
subscription indices are updated and `channel_vacated` is notified. -/
def unsubscribeIndices (sm : SubscriptionManager) (client : Client) (channel : String) :
    SubscriptionManager :=
  let sm1 : SubscriptionManager :=
    match sm.channels channel with
    | some clients =>
      let clients1 := clients.erase client
      if clients1.card = 0 then
        notify { sm with channels := Function.update sm.channels channel none }
          "channel_vacated" channel
      else { sm with channels := Function.update sm.channels channel (some clients1) }
    | none => sm
  match sm1.clients client with
  | some chans =>
    { sm1 with clients := Function.update sm1.clients client (some (chans.erase channel)) }
  | none => sm1

/-- The notifications started by the guarded `Notify` call. -/
def notified (sm : SubscriptionManager) (eventName channel : String) : List WebhookEvent :=
  match sm.webhook with
  | some wm => if wm.url = "" then [] else [{ Name := eventName, Channel := channel }]
  | none => []

/-- The frames `Unsubscribe sm client channel` hands to `Send` of client `d`. -/
def unsubscribeFrames (sm : SubscriptionManager) (client : Client) (channel : String)
    (d : Client) : List Payload :=
  if hasPrefix channel ChannelPrefixPresence then
    match leaving sm client channel with
    | some userID =>
      if d ∈ (channelWithout sm client channel).getD ∅ then [removedPayload channel userID] else []
    | none => []
  else []

/-- What every reachable state satisfies. -/
structure WellFormed (sm : SubscriptionManager) : Prop where
  /-- A channel that is a key of `channels` has a subscriber. -/
  nonempty : ∀ ch S, sm.channels ch = some S → S.Nonempty
  /-- The two subscription indices mirror each other. -/
  mirror : ∀ c ch, inChannel sm ch c ↔ hasChannel sm c ch
  /-- Only subscribers of presence channels are mapped to a user. -/
  mapped : ∀ ch m c, sm.clientToUser ch = some m → c ∈ m →
    hasPrefix ch ChannelPrefixPresence = true ∧ inChannel sm ch c
  /-- The two presence maps of a channel are created together. -/
  paired : ∀ ch, (sm.presence ch).isSome = (sm.clientToUser ch).isSome
  /-- The user a client is mapped to is on the roster. -/
  listed : ∀ ch m c u, sm.clientToUser ch = some m → m.lookup c = some u →
    ∃ r, sm.presence ch = some r ∧ u ∈ r

/-- The frame that tells a client its presence subscription succeeded, for
the roster `roster` (the roster after the insertion). -/
def succeededPayload (channel : String) (roster : Finmap (fun _ : String => Member)) : Payload :=
  Payload.bytes
    { event := EventSubscriptionSucceeded, channel := channel
      data := Data.presence roster.keys roster }

/-- The frames `Subscribe sm c ch userData` hands to `Send` of client `d`. -/
def subscribeFrames (sm : SubscriptionManager) (c : Client) (ch userData : String) (d : Client) :
    List Payload :=
  if hasPrefix ch ChannelPrefixPresence then
    match presenceMember userData with
    | some member =>
      (if d = c then
          [succeededPayload ch (((sm.presence ch).getD ∅).insert member.UserID member)]
        else []) ++
      (if member.UserID ∉ (sm.presence ch).getD ∅ ∧ d ∈ (sm.channels ch).getD ∅ ∧ d ≠ c then
          [addedPayload ch member]
        else [])
    | none => []
  else if d = c then
    [Payload.bytes
      { event := EventSubscriptionSucceeded, channel := ch, data := Data.text "{}" }]
  else []

/-- The first steps of `Subscribe` (lines 70-86): the two subscription
indices and the counter are updated and `channel_occupied` is notified. -/
def subscribeIndices (sm : SubscriptionManager) (client : Client) (channel : String) :
    SubscriptionManager :=
  let isNewChannel := (sm.channels channel).isNone
  let sm1 : SubscriptionManager :=
    { sm with
      channels :=
        Function.update sm.channels channel (some (insert client ((sm.channels channel).getD ∅))) }
  let sm2 : SubscriptionManager :=
    { sm1 with
      clients :=
        Function.update sm1.clients client (some (insert channel ((sm1.clients client).getD ∅))) }
  let sm3 : SubscriptionManager := { sm2 with subscriptions := sm2.subscriptions + 1 }
  if isNewChannel then notify sm3 "channel_occupied" channel else sm3

/-- The loop of `RemoveClient`: `Unsubscribe` for each channel of `order` in turn. -/
def unsubscribeAll (sm : SubscriptionManager) (c : Client) (order : List String) :
    SubscriptionManager :=
  order.foldl (fun acc channel => Unsubscribe acc c channel) sm

/-- The auth payloads that the specification lists as rejected: the payload
does not parse; or its `channel_data` is missing (empty) or does not parse;
or the `user_id` of the channel data is absent (no text), `null`, or the
empty string `""`. -/
def Rejected (auth : String) : Prop :=
  unmarshalPresenceAuthResponse auth = none ∨
    ∃ r, unmarshalPresenceAuthResponse auth = some r ∧
      (r.ChannelData = "" ∨ unmarshalPresenceChannelData r.ChannelData = none ∨
        ∃ d, unmarshalPresenceChannelData r.ChannelData = some d ∧
          (d.UserID = "" ∨ d.UserID = "null" ∨ d.UserID = "\"\""))

/-- The roster of `channel` as `Unsubscribe sm client channel` leaves it. -/
def rosterWithout (sm : SubscriptionManager) (client : Client) (channel : String) :
    Option (Finmap (fun _ : String => Member)) :=
  if hasPrefix channel ChannelPrefixPresence then
    match leaving sm client channel with
    | some userID => (sm.presence channel).map (fun roster => roster.erase userID)
    | none => sm.presence channel
  else sm.presence channel

/-- The client map of `channel` as `Unsubscribe sm client channel` leaves it. -/
def clientMapWithout (sm : SubscriptionManager) (client : Client) (channel : String) :
    Option (Finmap (fun _ : Client => String)) :=
  if hasPrefix channel ChannelPrefixPresence then
    (sm.clientToUser channel).map (fun clientMap => clientMap.erase client)
  else sm.clientToUser channel

/-- Two states with the same indices and configuration whose logs hold the
same entries, possibly in a different order. -/
structure Similar (a b : SubscriptionManager) : Prop where
  channels : a.channels = b.channels
  clients : a.clients = b.clients
  presence : a.presence = b.presence
  clientToUser : a.clientToUser = b.clientToUser
  webhook : a.webhook = b.webhook
  subscriptions : a.subscriptions = b.subscriptions
  posted : a.posted.Perm b.posted
  sent : ∀ d, (a.sent d).Perm (b.sent d)

/-! ## Sample payloads and states -/

/-- The payload `{"channel_data": "{\"user_id\":\"A\"}"}` of `TestMemberTracking`. -/
def authA : String := "\x7b\"channel_data\": \"\x7b\\\"user_id\\\":\\\"A\\\"\x7d\"\x7d"
/-- The payload `{"channel_data": "{\"user_id\":\"B\"}"}` of `TestMemberTracking`. -/
def authB : String := "\x7b\"channel_data\": \"\x7b\\\"user_id\\\":\\\"B\\\"\x7d\"\x7d"

def hook : WebhookManager := { url := "http://127.0.0.1/hook", secret := "" }

def clientOne : Client := { ptr := 1 }
def clientTwo : Client := { ptr := 2 }

/-- Two clients joined `presence-room` as users A and B. -/
def roomOfTwo : SubscriptionManager :=
  Subscribe (Subscribe (NewSubscriptionManager (some hook)) clientOne "presence-room" authA)
    clientTwo "presence-room" authB

/-- One client subscribed twice to `presence-room`, as user A and then as
user B. -/
def rejoined : SubscriptionManager :=
  Subscribe (Subscribe (NewSubscriptionManager none) clientOne "presence-room" authA)
    clientOne "presence-room" authB

/-- The first subscription of `roomOfTwo`: client one alone in the room. -/
def roomOfOne : SubscriptionManager :=
  Subscribe (NewSubscriptionManager (some hook)) clientOne "presence-room" authA

/-- The payload `{"auth":"sig"}` of `TestPresenceParsing`: no channel data. -/
def badAuth : String := "\x7b\"auth\":\"sig\"\x7d"

/-- The payload `{"channel_data": "{\"user_id\":\"null\"}"}`: the user id is the
JSON string `"null"`, not the JSON value `null`. -/
def authNull : String := "\x7b\"channel_data\": \"\x7b\\\"user_id\\\":\\\"null\\\"\x7d\"\x7d"

/-- The state `roomOfTwo` after client one also subscribed to `private-chat`. -/
def twoChannels : SubscriptionManager := Subscribe roomOfTwo clientOne "private-chat" ""

/-- The notifier that the module builds when no `webhook_url` is configured. -/
def noHook : WebhookManager := { url := "", secret := "" }

/-! ## Broadcasts (`BroadcastToChannel`, `BroadcastToOthers`) -/

structure BroadcastMessage where
  Channel : String
  Event : String
  Data : String
  deriving DecidableEq, Repr

/-- The wire frame `{"event": .., "channel": .., "data": string(data)}` of a
broadcast; `json.Marshal` of a map of strings does not fail. -/
def broadcastFrame (event channel data : String) : Frame :=
  { event := event, channel := channel, data := Data.text data }

def BroadcastToChannel (sm : SubscriptionManager) (msg : BroadcastMessage) : SubscriptionManager :=
  let clients := GetClients sm msg.Channel
  if clients.card = 0 then sm
  else
    let payload := broadcastFrame msg.Event msg.Channel msg.Data
    match NewPreparedMessage payload with
    | none => sendEach sm clients (Payload.bytes payload)
    | some pm => sendEach sm clients (Payload.prepared pm)

def BroadcastToOthers (sm : SubscriptionManager) (sender : Client) (channel event data : String) :
    SubscriptionManager :=
  if !hasPrefix channel ChannelPrefixPrivate && !hasPrefix channel ChannelPrefixPresence then sm
  else
    match sm.clients sender with
    | none => sm
    | some chans =>
      if channel ∉ chans then sm
      else
        let payload := broadcastFrame event channel data
        match NewPreparedMessage payload with
        | none => sm
        | some pm =>
          sendEach sm (((sm.channels channel).getD ∅).filter (fun client => client ≠ sender))
            (Payload.prepared pm)

/-- States of a manager built by `NewSubscriptionManager` and driven by
`Subscribe`, `Unsubscribe`, `RemoveClient` and the two broadcasts. -/
inductive Reachable : SubscriptionManager → Prop where
  | new (webhook : Option WebhookManager) : Reachable (NewSubscriptionManager webhook)
  | subscribe {sm : SubscriptionManager} (client : Client) (channel userData : String) :
      Reachable sm → Reachable (Subscribe sm client channel userData)
  | unsubscribe {sm : SubscriptionManager} (client : Client) (channel : String) :
      Reachable sm → Reachable (Unsubscribe sm client channel)
  | removeClient {sm : SubscriptionManager} (client : Client) (order : List String) :
      Reachable sm → IsOrderOf sm client order → Reachable (RemoveClient sm client order)
  | broadcastToChannel {sm : SubscriptionManager} (msg : BroadcastMessage) :
      Reachable sm → Reachable (BroadcastToChannel sm msg)
  | broadcastToOthers {sm : SubscriptionManager} (sender : Client)
      (channel event data : String) :
      Reachable sm → Reachable (BroadcastToOthers sm sender channel event data)

/-! ## Bytes of Go strings -/

/-- The UTF-8 encoding of a character, as byte values. -/
def utf8Bytes (c : Char) : List Nat :=
  let v := c.toNat
  if v < 0x80 then [v]
  else if v < 0x800 then [0xC0 + v / 64, 0x80 + v % 64]
  else if v < 0x10000 then [0xE0 + v / 4096, 0x80 + v / 64 % 64, 0x80 + v % 64]
  else [0xF0 + v / 262144, 0x80 + v / 4096 % 64, 0x80 + v / 64 % 64, 0x80 + v % 64]

/-- Go `[]byte(s)`. -/
def goBytes (s : String) : List Nat := s.data.flatMap utf8Bytes

/-- Go `len(s)` of a string: its number of bytes. -/
def goLen (s : String) : Nat := (goBytes s).length

/-! ## Limits (`internal/protocol/pusher.go`) -/

def MaxChannelLength : Nat := 256
def MaxEventLength : Nat := 64
def MaxDataSize : Nat := 256 * 1024

def ErrorOverCapacity : Nat := 4100

/-! ## Shard membership bitmap of a client (`Client.AddShard`, `Client.HasShard`)

The field `shardMask` is a `uint64`; the model keeps its value as a natural
number below `2 ^ 64`. -/

/-- `AddShard`: the mask after `c.AddShard(id)`. -/
def AddShard (shardMask : Nat) (id : Int) : Nat :=
  if id < 0 ∨ id ≥ 64 then shardMask
  else (shardMask ||| (1 <<< id.toNat) % 2 ^ 64) % 2 ^ 64

/-- `HasShard`: the result of `c.HasShard(id)`. -/
def HasShard (shardMask : Nat) (id : Int) : Bool :=
  if id < 0 ∨ id ≥ 64 then false
  else (shardMask &&& (1 <<< id.toNat) % 2 ^ 64) ≠ 0

/-! ## Hub (`hub.go`) -/

structure Subscription where
  Client : Client
  Channel : String
  AuthData : String
  deriving DecidableEq, Repr

structure ClientMessageWrapper where
  Client : Client
  Channel : String
  Event : String
  Data : String
  deriving DecidableEq, Repr

/-- What is sent on one of the five mailboxes of a shard. -/
inductive ShardMessage where
  | broadcast (msg : BroadcastMessage)
  | subscribe (sub : Subscription)
  | unsubscribe (sub : Subscription)
  | clientMsg (cMsg : ClientMessageWrapper)
  | cleanup (c : Client)
  deriving DecidableEq, Repr

structure HubShard where
  id : Int
  subs : SubscriptionManager

def NewHubShard (id : Int) (webhook : Option WebhookManager) : HubShard :=
  { id := id, subs := NewSubscriptionManager webhook }

/-- What the hub does to the connection of a client. -/
inductive ConnAction where
  /-- `conn.WriteControl(websocket.CloseMessage, FormatCloseMessage(code, text), deadline)`. -/
  | writeClose (code : Nat) (text : String)
  /-- `conn.Close()`. -/
  | close
  deriving DecidableEq, Repr

/-- The frame `pusher:connection_established` with data
`{"socket_id": client.ID, "activity_timeout": activityTimeout}`. -/
structure Established where
  client : Client
  activityTimeout : Int
  deriving DecidableEq, Repr

/-- The hub together with what it acts on.  `conns` is the atomic counter,
`wg` the wait group, `connections` the gauge `metrics.Connections`,
`messages` the counter `metrics.Messages`; `shardMask c` is the field
`shardMask` of client `c`; `mailbox` lists the sends on shard mailboxes as
(shard id, message), `sent c` the frames the hub hands to `c.Send`, `conn c`
what it does to the connection of `c`, each oldest first. -/
structure Hub where
  maxConnections : Int
  numShards : Int
  activityTimeout : Int
  shards : List HubShard
  clients : Finset Client
  conns : Int
  wg : Int
  connections : Int
  messages : Nat
  shardMask : Client → Nat
  mailbox : List (Int × ShardMessage)
  sent : Client → List Established
  conn : Client → List ConnAction

/-- `NewHub`.  `pingPeriod` is a `time.Duration` in nanoseconds;
`int(pingPeriod.Seconds())` is its number of whole seconds. -/
def NewHub (webhook : Option WebhookManager) (maxConn : Int) (numShards : Int)
    (pingPeriod : Int) : Hub :=
  let numShards1 := if numShards ≤ 0 then 32 else numShards
  let numShards2 := if numShards1 > 64 then 64 else numShards1
  let timeoutSec := pingPeriod.tdiv 1000000000
  let timeoutSec1 := if timeoutSec < 1 then 120 else timeoutSec
  { maxConnections := maxConn
    numShards := numShards2
    activityTimeout := timeoutSec1
    shards := (List.range numShards2.toNat).map (fun (i : Nat) => NewHubShard (i : Int) webhook)
    clients := ∅
    conns := 0
    wg := 0
    connections := 0
    messages := 0
    shardMask := fun _ => 0
    mailbox := []
    sent := fun _ => []
    conn := fun _ => [] }

/-- Go `uint32(n)` of an `int`. -/
def uint32 (n : Int) : Nat := (n % 2 ^ 32).toNat

/-- The 32-bit FNV-1a hash of the bytes of `key` (`hash/fnv`, `New32a`). -/
def fnv1a32 (key : String) : Nat :=
  (goBytes key).foldl (fun hash b => (hash ^^^ b) * 16777619 % 2 ^ 32) 2166136261

/-- `getShard`; `none` stands for the run-time panic of a zero divisor or of
an index out of range. -/
def Hub.getShard (h : Hub) (key : String) : Option HubShard :=
  if uint32 h.numShards = 0 then none
  else h.shards[fnv1a32 key % uint32 h.numShards]?

/-- A send `shard.mailbox <- message` on the shard returned by `getShard`. -/
def Hub.forward (h : Hub) (shard : Option HubShard) (message : ShardMessage) : Hub :=
  match shard with
  | some s => { h with mailbox := h.mailbox ++ [(s.id, message)] }
  | none => h

def Hub.Register (h : Hub) (c : Client) : Hub :=
  if h.conns ≥ h.maxConnections then
    { h with
      conn :=
        Function.update h.conn c
          (h.conn c ++ [ConnAction.writeClose ErrorOverCapacity "Over capacity", ConnAction.close]) }
  else
    { h with
      clients := insert c h.clients
      conns := h.conns + 1
      wg := h.wg + 1
      connections := h.connections + 1
      sent :=
        Function.update h.sent c
          (h.sent c ++ [{ client := c, activityTimeout := h.activityTimeout }]) }

/-- `Unregister`.  The loop posts `cleanup` to every shard whose bit is set in
the mask of the client (the hub context not being cancelled). -/
def Hub.Unregister (h : Hub) (c : Client) : Hub :=
  if c ∉ h.clients then h
  else
    let h1 : Hub :=
      { h with
        clients := h.clients.erase c
        conns := h.conns - 1
        connections := h.connections - 1 }
    let h2 : Hub :=
      (List.range h1.numShards.toNat).foldl
        (fun (acc : Hub) (i : Nat) =>
          if HasShard (acc.shardMask c) (i : Int) then
            acc.forward acc.shards[i]? (ShardMessage.cleanup c)
          else acc)
        h1
    { h2 with wg := h2.wg - 1 }

/-- The broker as `Publish` sees it: whether `broker.Publish` returns no error
for a message. -/
structure Broker where
  publishOk : BroadcastMessage → Bool

/-- `Hub.Publish`: the hub after the call, the messages handed to
`broker.Publish` and the result. -/
def Hub.Publish (h : Hub) (broker : Broker) (channel event data : String) :
    Hub × List BroadcastMessage × Bool :=
  if goLen channel > MaxChannelLength then (h, [], false)
  else if goLen event > MaxEventLength then (h, [], false)
  else if goLen data > MaxDataSize then (h, [], false)
  else
    let h1 : Hub := { h with messages := h.messages + 1 }
    let msg : BroadcastMessage := { Channel := channel, Event := event, Data := data }
    if broker.publishOk msg then (h1, [msg], true) else (h1, [msg], false)

/-- What one iteration of the loop of `Hub.Run` receives. -/
inductive HubEvent where
  /-- A message from the broker stream (possibly nil). -/
  | broker (msg : Option BroadcastMessage)
  | subscribe (sub : Subscription)
  | unsubscribe (sub : Subscription)
  | clientMessage (cMsg : ClientMessageWrapper)

/-- One iteration of the `select` loop of `Hub.Run` (the shutdown case
apart). -/
def Hub.runCase (h : Hub) : HubEvent → Hub
  | HubEvent.broker none => h
  | HubEvent.broker (some msg) => h.forward (h.getShard msg.Channel) (ShardMessage.broadcast msg)
  | HubEvent.subscribe sub =>
    if goLen sub.Channel ≤ MaxChannelLength then
      h.forward (h.getShard sub.Channel) (ShardMessage.subscribe sub)
    else h
  | HubEvent.unsubscribe sub =>
    if goLen sub.Channel ≤ MaxChannelLength then
      h.forward (h.getShard sub.Channel) (ShardMessage.unsubscribe sub)
    else h
  | HubEvent.clientMessage cMsg =>
    h.forward (h.getShard cMsg.Channel) (ShardMessage.clientMsg cMsg)

/-- `Hub.Run` over the events it receives, in order. -/
def Hub.Run (h : Hub) (events : List HubEvent) : Hub := events.foldl Hub.runCase h

/-- The hubs of a running module: built by `NewHub` and then driven by
`Register`, `Unregister`, `Publish` and the loop of `Run`. -/
inductive Hub.Built : Hub → Prop where
  | new (webhook : Option WebhookManager) (maxConn numShards pingPeriod : Int) :
      Hub.Built (NewHub webhook maxConn numShards pingPeriod)
  | register {h : Hub} (c : Client) : Hub.Built h → Hub.Built (h.Register c)
  | unregister {h : Hub} (c : Client) : Hub.Built h → Hub.Built (h.Unregister c)
  | publish {h : Hub} (broker : Broker) (channel event data : String) :
      Hub.Built h → Hub.Built (h.Publish broker channel event data).1
  | run {h : Hub} (ev : HubEvent) : Hub.Built h → Hub.Built (h.runCase ev)

/-- The shard array of a hub built by `NewHub`: between 1 and 64 shards, the
shard at index `i` having id `i`. -/
structure Hub.Sharded (h : Hub) : Prop where
  pos : 1 ≤ h.numShards
  le : h.numShards ≤ 64
  length : h.shards.length = h.numShards.toNat
  ids : ∀ (i : Nat) (s : HubShard), h.shards[i]? = some s → s.id = (i : Int)

/-- A channel name of 257 bytes. -/
def longName : String := String.mk (List.replicate 257 'a')

/-- A hub with 32 shards, at most 2 connections and the default ping period. -/
def smallHub : Hub := NewHub none 2 32 54000000000

/-- A call of `Register` or of `Unregister`. -/
inductive HubOp where
  | register (c : Client)
  | unregister (c : Client)
  deriving DecidableEq, Repr

def Hub.step (h : Hub) : HubOp → Hub
  | HubOp.register c => h.Register c
  | HubOp.unregister c => h.Unregister c

/-- The calls of `ops` executed one after the other. -/
def Hub.apply (h : Hub) (ops : List HubOp) : Hub := ops.foldl Hub.step h

/-- Every `Register` of `ops` is given a client that is not in the client set
of the hub at that point (a new connection). -/
def Hub.RegistersNew (h : Hub) : List HubOp → Prop
  | [] => True
  | op :: rest => (∀ c, op = HubOp.register c → c ∉ h.clients) ∧ (h.step op).RegistersNew rest

/-- The hub `smallHub` with two clients registered: it is at capacity. -/
def fullHub : Hub := (smallHub.Register clientOne).Register clientTwo

/-! ## Channel names (`internal/protocol/pusher.go`) -/

/-- The character class `[a-zA-Z0-9_\-=@,.;]`. -/
def channelChar (c : Char) : Bool :=
  ('a'.toNat ≤ c.toNat && c.toNat ≤ 'z'.toNat) || ('A'.toNat ≤ c.toNat && c.toNat ≤ 'Z'.toNat)
    || ('0'.toNat ≤ c.toNat && c.toNat ≤ '9'.toNat)
    || c == '_' || c == '-' || c == '=' || c == '@' || c == ',' || c == '.' || c == ';'

/-- A match of `^[..]+$` against the whole text: one character of the class,
then either the end of the text or a further match. -/
def matchClassPlus (cls : Char → Bool) : List Char → Bool
  | [] => false
  | [c] => cls c
  | c :: r => cls c && matchClassPlus cls r

/-- `validChannelName.MatchString(name)` for the regular expression
`^[a-zA-Z0-9_\-=@,.;]+$` (in Go, `$` without the multi-line flag matches at the
end of the text only). -/
def validChannelNameMatch (name : String) : Bool := matchClassPlus channelChar name.data

def IsValidChannelName (name : String) : Bool :=
  if goLen name = 0 ∨ goLen name > MaxChannelLength then false
  else validChannelNameMatch name

/-! ## User authentication (`auth.go`) -/

structure AuthResult where
  Allowed : Bool
  /-- A `json.RawMessage`; `none` is the nil slice. -/
  UserData : Option String
  deriving DecidableEq, Repr

/-- The configuration of a `WorkerAuthProvider`: the app secret, the cap
`maxAuthBody` of the captured response body, the capacity of the semaphore
`sem`, and whether `http.NewRequest` accepts `authPath` as a URL. -/
structure WorkerAuthProvider where
  secret : String
  maxAuthBody : Int := 16 * 1024
  semCap : Int := 100
  authPathValid : Bool := true
  deriving DecidableEq, Repr

/-- The pieces of a text between the occurrences of `sep`. -/
def splitChars (sep : Char) : List Char → List (List Char)
  | [] => [[]]
  | c :: r =>
    if c = sep then [] :: splitChars sep r
    else
      match splitChars sep r with
      | [] => [[c]]
      | p :: ps => (c :: p) :: ps

/-- `strings.Split(s, sep)` for a separator of one ASCII character. -/
def stringsSplit (s : String) (sep : Char) : List String :=
  (splitChars sep s.data).map String.mk

/-- One entry of `hextable = "0123456789abcdef"`. -/
def hexDigit (n : Nat) : Char :=
  if n < 10 then Char.ofNat (48 + n) else Char.ofNat (87 + n)

/-- `hex.EncodeToString(src)`: two digits for each byte, the high nibble first. -/
def hexEncodeToString (src : List Nat) : String :=
  String.mk (src.flatMap (fun (v : Nat) => [hexDigit (v % 256 / 16), hexDigit (v % 16)]))

/-! ## `crypto/sha256` and `crypto/hmac` -/

/-- The round constants of SHA-256 (FIPS 180-4, 4.2.2). -/
def sha256K : List Nat :=
  [0x428a2f98, 0x71374491, 0xb5c0fbcf, 0xe9b5dba5, 0x3956c25b, 0x59f111f1, 0x923f82a4, 0xab1c5ed5,
   0xd807aa98, 0x12835b01, 0x243185be, 0x550c7dc3, 0x72be5d74, 0x80deb1fe, 0x9bdc06a7, 0xc19bf174,
   0xe49b69c1, 0xefbe4786, 0x0fc19dc6, 0x240ca1cc, 0x2de92c6f, 0x4a7484aa, 0x5cb0a9dc, 0x76f988da,
   0x983e5152, 0xa831c66d, 0xb00327c8, 0xbf597fc7, 0xc6e00bf3, 0xd5a79147, 0x06ca6351, 0x14292967,
   0x27b70a85, 0x2e1b2138, 0x4d2c6dfc, 0x53380d13, 0x650a7354, 0x766a0abb, 0x81c2c92e, 0x92722c85,
   0xa2bfe8a1, 0xa81a664b, 0xc24b8b70, 0xc76c51a3, 0xd192e819, 0xd6990624, 0xf40e3585, 0x106aa070,
   0x19a4c116, 0x1e376c08, 0x2748774c, 0x34b0bcb5, 0x391c0cb3, 0x4ed8aa4a, 0x5b9cca4f, 0x682e6ff3,
   0x748f82ee, 0x78a5636f, 0x84c87814, 0x8cc70208, 0x90befffa, 0xa4506ceb, 0xbef9a3f7, 0xc67178f2]

/-- The initial hash value of SHA-256 (FIPS 180-4, 5.3.3). -/
def sha256Init : List Nat :=
  [0x6a09e667, 0xbb67ae85, 0x3c6ef372, 0xa54ff53a, 0x510e527f, 0x9b05688c, 0x1f83d9ab, 0x5be0cd19]

/-- Rotation to the right of a 32-bit word. -/
def rotr32 (x n : Nat) : Nat := ((x >>> n) ||| (x <<< (32 - n))) % 2 ^ 32

/-- The bytes of a word of `width` bytes, most significant first. -/
def bigEndian : Nat → Nat → List Nat
  | 0, _ => []
  | width + 1, n => (n / 256 ^ width) % 256 :: bigEndian width n

/-- The 32-bit word of four bytes, most significant first. -/
def word32 (bs : List Nat) : Nat := bs.foldl (fun acc b => (acc * 256 + b % 256) % 2 ^ 32) 0

/-- The message followed by the bit `1`, zeros, and its length in bits as a
64-bit number, a multiple of 64 bytes in all. -/
def sha256Pad (m : List Nat) : List Nat :=
  m ++ [0x80] ++ List.replicate ((119 - m.length % 64) % 64) 0 ++ bigEndian 8 (8 * m.length % 2 ^ 64)

/-- Pieces of `size` elements (`fuel` bounds their number). -/
def chunks (size : Nat) : Nat → List Nat → List (List Nat)
  | 0, _ => []
  | fuel + 1, l => if l = [] then [] else l.take size :: chunks size fuel (l.drop size)

/-- The message schedule: the 16 words of the block, extended to 64. -/
def sha256Schedule (block : List Nat) : List Nat :=
  (List.range 48).foldl
    (fun (w : List Nat) (j : Nat) =>
      let i := j + 16
      let w15 := w.getD (i - 15) 0
      let w2 := w.getD (i - 2) 0
      let s0 := rotr32 w15 7 ^^^ rotr32 w15 18 ^^^ (w15 >>> 3)
      let s1 := rotr32 w2 17 ^^^ rotr32 w2 19 ^^^ (w2 >>> 10)
      w ++ [(w.getD (i - 16) 0 + s0 + w.getD (i - 7) 0 + s1) % 2 ^ 32])
    ((chunks 4 16 block).map word32)

/-- One round of the compression function on the working variables
`[a, b, c, d, e, f, g, h]`. -/
def sha256Round (v : List Nat) (k w : Nat) : List Nat :=
  match v with
  | [a, b, c, d, e, f, g, h] =>
    let s1 := rotr32 e 6 ^^^ rotr32 e 11 ^^^ rotr32 e 25
    let ch := (e &&& f) ^^^ ((e ^^^ 0xffffffff) &&& g)
    let t1 := (h + s1 + ch + k + w) % 2 ^ 32
    let s0 := rotr32 a 2 ^^^ rotr32 a 13 ^^^ rotr32 a 22
    let maj := (a &&& b) ^^^ (a &&& c) ^^^ (b &&& c)
    let t2 := (s0 + maj) % 2 ^ 32
    [(t1 + t2) % 2 ^ 32, a, b, c, (d + t1) % 2 ^ 32, e, f, g]
  | _ => v

/-- The compression of one block of 64 bytes into the hash value. -/
def sha256Block (hash block : List Nat) : List Nat :=
  let v := (List.zip sha256K (sha256Schedule block)).foldl
    (fun v kw => sha256Round v kw.1 kw.2) hash
  List.zipWith (fun x y => (x + y) % 2 ^ 32) hash v

/-- `sha256.Sum256(m)`, 32 bytes. -/
def sha256Sum (m : List Nat) : List Nat :=
  let padded := sha256Pad m
  ((chunks 64 padded.length padded).foldl sha256Block sha256Init).flatMap (bigEndian 4)

/-- `hmac.New(sha256.New, key)`, `Write(message)` and `Sum(nil)` (RFC 2104
with blocks of 64 bytes). -/
def hmacSha256 (key message : List Nat) : List Nat :=
  let k0 := if key.length > 64 then sha256Sum key else key
  let k := k0 ++ List.replicate (64 - k0.length) 0
  let inner := sha256Sum (k.map (fun b => b ^^^ 0x36) ++ message)
  sha256Sum (k.map (fun b => b ^^^ 0x5c) ++ inner)

/-- `AuthenticateUser`. Of the client only `client.ID` is read, and
`hmac.Equal` is equality of the two byte strings. -/
def WorkerAuthProvider.AuthenticateUser (ap : WorkerAuthProvider)
    (clientID authSig userData : String) : AuthResult :=
  if ap.secret = "" then { Allowed := false, UserData := none }
  else
    match stringsSplit authSig ':' with
    | [_, signature] =>
      let toSign := clientID ++ "::user::" ++ userData
      let expectedSig := hexEncodeToString (hmacSha256 (goBytes ap.secret) (goBytes toSign))
      if goBytes signature = goBytes expectedSig then
        { Allowed := true, UserData := some userData }
      else { Allowed := false, UserData := none }
    | _ => { Allowed := false, UserData := none }

/-- The `auth_sig` a signer builds: `key + ":" + hex(HMAC-SHA256(secret,
socket_id + "::user::" + user_data))`. -/
def signedAuth (secret clientID userData key : String) : String :=
  key ++ ":" ++
    hexEncodeToString (hmacSha256 (goBytes secret) (goBytes (clientID ++ "::user::" ++ userData)))

/-! ## Broker serialisation (`broker.go`) -/

namespace Json

/-- The text that `s` has lost when `rest` is what is left of it. -/
def consumed (s rest : List Char) : List Char := s.take (s.length - rest.length)

/-- One character of a string in `appendString` with `escapeHTML` set. -/
def appendStringChar (c : Char) : List Char :=
  if c = '\\' ∨ c = '"' then ['\\', c]
  else if c.toNat = 8 then ['\\', 'b']
  else if c.toNat = 12 then ['\\', 'f']
  else if c = '\n' then ['\\', 'n']
  else if c = '\r' then ['\\', 'r']
  else if c = '\t' then ['\\', 't']
  else if c.toNat < 0x20 ∨ c = '<' ∨ c = '>' ∨ c = '&' then
    ['\\', 'u', '0', '0', hexDigit (c.toNat / 16), hexDigit (c.toNat % 16)]
  else if c.toNat = 0x2028 ∨ c.toNat = 0x2029 then
    ['\\', 'u', '2', '0', '2', hexDigit (c.toNat % 16)]
  else [c]

/-- The encoding of a Go string as a JSON string literal. -/
def appendString (s : String) : List Char :=
  '"' :: s.data.flatMap appendStringChar ++ ['"']

/-- What `appendCompact` with `escape` set writes for a character it keeps. -/
def compactChar (c : Char) : List Char :=
  if c = '<' ∨ c = '>' ∨ c = '&' then
    ['\\', 'u', '0', '0', hexDigit (c.toNat / 16), hexDigit (c.toNat % 16)]
  else if c.toNat = 0x2028 ∨ c.toNat = 0x2029 then
    ['\\', 'u', '2', '0', '2', hexDigit (c.toNat % 16)]
  else [c]

/-- Compact the rest of a string literal whose opening quote has been read:
the literal up to and including its closing quote, and what follows it. -/
def compactString (r : List Char) : Option (List Char × List Char) :=
  (scanString r).map (fun rest => ((consumed r rest).flatMap compactChar, rest))

/-- Compact a number: its text, which has none of the escaped characters,
and what follows it. -/
def compactNumber (s : List Char) : Option (List Char × List Char) :=
  (scanNumber s).map (fun rest => (consumed s rest, rest))

mutual

/-- The scan of `scanValueAux` that also writes the value without the space
between its tokens: the text written and the rest of the input. -/
def compactValueAux (limit : Nat) :
    Nat → List Open → List Char → Option (List Char × List Char)
  | 0, _, _ => none
  | n + 1, stack, s =>
    match s with
    | '"' :: r =>
      (compactString r).bind (fun p =>
        (compactAfterAux limit n stack p.2).map (fun q => ('"' :: p.1 ++ q.1, q.2)))
    | 't' :: 'r' :: 'u' :: 'e' :: r =>
      (compactAfterAux limit n stack r).map (fun q => ('t' :: 'r' :: 'u' :: 'e' :: q.1, q.2))
    | 'f' :: 'a' :: 'l' :: 's' :: 'e' :: r =>
      (compactAfterAux limit n stack r).map
        (fun q => ('f' :: 'a' :: 'l' :: 's' :: 'e' :: q.1, q.2))
    | 'n' :: 'u' :: 'l' :: 'l' :: r =>
      (compactAfterAux limit n stack r).map (fun q => ('n' :: 'u' :: 'l' :: 'l' :: q.1, q.2))
    | '[' :: r =>
      if stack.length ≥ limit then none
      else
        match skipSpace r with
        | ']' :: r1 => (compactAfterAux limit n stack r1).map (fun q => ('[' :: ']' :: q.1, q.2))
        | r1 => (compactValueAux limit n (Open.arr :: stack) r1).map (fun q => ('[' :: q.1, q.2))
    | '{' :: r =>
      if stack.length ≥ limit then none
      else
        match skipSpace r with
        | '}' :: r1 => (compactAfterAux limit n stack r1).map (fun q => ('{' :: '}' :: q.1, q.2))
        | '"' :: r1 =>
          match (compactString r1).map (fun p => (p.1, skipSpace p.2)) with
          | some (key, ':' :: r2) =>
            (compactValueAux limit n (Open.obj :: stack) (skipSpace r2)).map
              (fun q => ('{' :: '"' :: key ++ ':' :: q.1, q.2))
          | _ => none
        | _ => none
    | _ =>
      (compactNumber s).bind (fun p =>
        (compactAfterAux limit n stack p.2).map (fun q => (p.1 ++ q.1, q.2)))

/-- The counterpart of `scanAfterAux`. -/
def compactAfterAux (limit : Nat) :
    Nat → List Open → List Char → Option (List Char × List Char)
  | 0, _, _ => none
  | _ + 1, [], r => some ([], r)
  | n + 1, Open.arr :: up, r =>
    match skipSpace r with
    | ',' :: r1 =>
      (compactValueAux limit n (Open.arr :: up) (skipSpace r1)).map (fun q => (',' :: q.1, q.2))
    | ']' :: r1 => (compactAfterAux limit n up r1).map (fun q => (']' :: q.1, q.2))
    | _ => none
  | n + 1, Open.obj :: up, r =>
    match skipSpace r with
    | ',' :: r1 =>
      match skipSpace r1 with
      | '"' :: r2 =>
        match (compactString r2).map (fun p => (p.1, skipSpace p.2)) with
        | some (key, ':' :: r3) =>
          (compactValueAux limit n (Open.obj :: up) (skipSpace r3)).map
            (fun q => (',' :: '"' :: key ++ ':' :: q.1, q.2))
        | _ => none
      | _ => none
    | '}' :: r1 => (compactAfterAux limit n up r1).map (fun q => ('}' :: q.1, q.2))
    | _ => none

end

/-- `appendCompact(dst, src, true)`: an error (`none`) when `src` is not one
JSON value with space around it, nested within `maxNestingDepth`; otherwise
the value without insignificant space, with `<`, `>`, `&`, U+2028 and U+2029
written as `\u` escapes. -/
def compact (src : List Char) : Option (List Char) :=
  let s := skipSpace src
  match compactValueAux maxNestingDepth (2 * s.length + 2) [] s with
  | none => none
  | some (out, rest) => if skipSpace rest ≠ [] then none else some out

end Json

/-- The object that `json.Marshal` writes for a `BroadcastMessage`: the
three fields in the order of the struct, the strings through `appendString`;
`data` is the compacted `Data`. -/
def marshalBroadcast (channel event : String) (data : List Char) : List Char :=
  "\x7b\"channel\":".data ++ (Json.appendString channel ++ (",\"event\":".data ++
    (Json.appendString event ++ (",\"data\":".data ++ (data ++ "\x7d".data)))))

/-- `SerializeBroadcast`: `json.Marshal(msg)`.  `Data`, a `json.RawMessage`, is
its own encoding and is written through `compact`, whose error is the error of
`Marshal`. -/
def SerializeBroadcast (msg : BroadcastMessage) : Option String :=
  match Json.compact msg.Data.data with
  | none => none
  | some data => some (String.mk (marshalBroadcast msg.Channel msg.Event data))

/-- `DeserializeBroadcast`: `json.Unmarshal` into a `BroadcastMessage`;
`none` when `Unmarshal` returns an error. -/
def DeserializeBroadcast (data : String) : Option BroadcastMessage :=
  match Json.objectMembers data with
  | none => none
  | some ms =>
    match Json.stringField "channel" ms "", Json.stringField "event" ms "" with
    | some channel, some event =>
      some { Channel := channel, Event := event, Data := Json.rawField "data" ms "" }
    | _, _ => none

/-- JSON text, one value with space around it, in which at most `limit`
arrays and objects are open at a time. -/
def validJSONWithin (limit : Nat) (data : String) : Bool :=
  match Json.scanValueWithin limit (Json.skipSpace data.data) with
  | none => false
  | some rest => Json.skipSpace rest == []

/-- JSON text in the sense of `json.Valid`: one value with space around it,
nested within `maxNestingDepth`. -/
def validJSON (data : String) : Bool := validJSONWithin Json.maxNestingDepth data

def spacedMessage : BroadcastMessage :=
  { Channel := "news", Event := "tick", Data := "\x7b\"a\": 1\x7d" }

def compactMessage : BroadcastMessage :=
  { Channel := "orders", Event := "created", Data := "\x7b\"foo\":\"bar\"\x7d" }

/-- Arrays nested `n` deep: `n` opening brackets, then `n` closing brackets. -/
def nestedArrays (n : Nat) : List Char := List.replicate n '[' ++ List.replicate n ']'

/-- A message whose data is arrays nested 10000 deep, which is as deep as the
scanner of `encoding/json` reads. -/
def deepMessage : BroadcastMessage :=
  { Channel := "news", Event := "tick", Data := String.mk (nestedArrays 10000) }

namespace Json

/-- What may follow a number without being read as part of it. -/
def numEnd (t : List Char) : Prop :=
  ∀ c r, t = c :: r → isDigit c = false ∧ c ≠ '.' ∧ c ≠ 'e' ∧ c ≠ 'E'

def fracEnd (t : List Char) : Prop :=
  ∀ c r, t = c :: r → isDigit c = false ∧ c ≠ '.'

def digEnd (t : List Char) : Prop :=
  ∀ c r, t = c :: r → isDigit c = false

/-- What may follow a value in compact text. -/
def okTail (t : List Char) : Prop := ∀ c r, t = c :: r → c = ',' ∨ c = ']' ∨ c = '}'

/-- The first character of compact text that starts with a value. -/
def valueHead (out : List Char) : Prop :=
  ∃ c r, out = c :: r ∧ isSpace c = false ∧ c ≠ ']'

/-- The scanner reads `out` as a value that closes `st`, whatever encloses
it, when its limit leaves room for `depth` open values above what encloses
`st`. -/
def OutV (depth : Nat) (st : List Open) (out : List Char) : Prop :=
  ∀ limit up t k res, depth + up.length ≤ limit → okTail t →
    scanAfterAux limit k up t = some res →
    scanValueAux limit (out.length + k) (st ++ up) (out ++ t) = some res

/-- The scanner reads `out` as what closes `st` after a value. -/
def OutA (depth : Nat) (st : List Open) (out : List Char) : Prop :=
  ∀ limit up t k res, depth + up.length ≤ limit → okTail t →
    scanAfterAux limit k up t = some res →
    scanAfterAux limit (out.length + k) (st ++ up) (out ++ t) = some res

end Json

/-- What every hub satisfies after calls that register new connections only. -/
structure Hub.Counted (h : Hub) : Prop where
  count : h.conns = (h.clients.card : Int)
  bound : h.conns ≤ h.maxConnections

/-- Three connections on a hub for two, then all of them leave, one twice. -/
def fiveCalls : List HubOp :=
  [HubOp.register clientOne, HubOp.register clientTwo, HubOp.register ⟨3⟩,
    HubOp.unregister ⟨3⟩, HubOp.unregister clientOne, HubOp.unregister clientOne]

/-! ## The response capturer and `doAuthorize` (`auth.go`) -/

/-- The `responseCapturer` (its header map apart); `body` is the content of
the `bytes.Buffer`. -/
structure responseCapturer where
  status : Int
  body : String
  overflow : Bool
  maxSize : Int
  deriving DecidableEq, Repr

/-- A capturer as `doAuthorize` starts with: `capturerPool.Get()`, which
returns a capturer with status 200, an empty body and the flag clear, followed
by `rr.maxSize = maxSize`. -/
def newCapturer (maxSize : Int) : responseCapturer :=
  { status := 200, body := "", overflow := false, maxSize := maxSize }

/-- `Write(b)`: the capturer after the call, the count returned and the error
returned (`none` is nil; `bytes.Buffer.Write` returns `len(b)` and nil). -/
def responseCapturer.Write (r : responseCapturer) (b : String) :
    responseCapturer × Nat × Option String :=
  if r.overflow then (r, goLen b, none)
  else if (goLen r.body : Int) + (goLen b : Int) > r.maxSize then
    ({ r with overflow := true }, goLen b, none)
  else ({ r with body := r.body ++ b }, goLen b, none)

def responseCapturer.WriteHeader (r : responseCapturer) (statusCode : Int) : responseCapturer :=
  { r with status := statusCode }

/-- The capturer after a sequence of `Write` calls. -/
def responseCapturer.writeAll (r : responseCapturer) (bs : List String) : responseCapturer :=
  bs.foldl (fun acc b => (acc.Write b).1) r

/-- The writes that precede the first write that would take a body of `len`
bytes beyond `maxSize`. -/
def keptWrites (maxSize : Int) : Nat → List String → List String
  | _, [] => []
  | len, b :: rest =>
    if (len : Int) + (goLen b : Int) > maxSize then []
    else b :: keptWrites maxSize (len + goLen b) rest

/-- The concatenation of a sequence of writes. -/
def concatWrites : List String → String
  | [] => ""
  | b :: rest => b ++ concatWrites rest

/-- A call of the dispatcher on the `http.ResponseWriter` it is given. -/
inductive WriterCall where
  | writeHeader (statusCode : Int)
  | write (b : String)
  deriving DecidableEq, Repr

def responseCapturer.call (r : responseCapturer) : WriterCall → responseCapturer
  | WriterCall.writeHeader statusCode => r.WriteHeader statusCode
  | WriterCall.write b => (r.Write b).1

/-- The request `doAuthorize` builds: the body `{"channel_name", "socket_id"}`
(the headers of the client are copied onto it). -/
structure AuthRequest where
  channelName : String
  socketID : String
  deriving DecidableEq, Repr

/-- What `worker.SendRequest(rr, req)` does: its calls on `rr` and whether it
returns an error. -/
structure Dispatch where
  calls : List WriterCall
  err : Bool
  deriving DecidableEq, Repr

/-- A `RequestDispatcher`. -/
structure RequestDispatcher where
  SendRequest : AuthRequest → Dispatch

/-- The errors `doAuthorize` returns. -/
inductive AuthError where
  /-- `errors.New("worker not initialized")`. -/
  | workerNotInitialized
  /-- The error of `SendRequest`. -/
  | dispatch
  /-- `errors.New("worker 500")`. -/
  | worker500
  deriving DecidableEq, Repr

/-- The outcome of `doAuthorize`: the pair it returns, the label of
`metrics.AuthFailures` it increments, and the requests it hands to the
dispatcher. -/
structure Authorized where
  result : AuthResult
  err : Option AuthError
  failure : Option String
  requests : List AuthRequest
  deriving DecidableEq, Repr

def denied : AuthResult := { Allowed := false, UserData := none }

/-- `doAuthorize`; `worker = none` is the nil dispatcher. -/
def WorkerAuthProvider.doAuthorize (ap : WorkerAuthProvider) (worker : Option RequestDispatcher)
    (clientID channel : String) : Authorized :=
  if !ap.authPathValid then { result := denied, err := none, failure := none, requests := [] }
  else
    match worker with
    | none =>
      { result := denied, err := some AuthError.workerNotInitialized, failure := none,
        requests := [] }
    | some w =>
      let req : AuthRequest := { channelName := channel, socketID := clientID }
      let d := w.SendRequest req
      let rr := d.calls.foldl responseCapturer.call (newCapturer ap.maxAuthBody)
      if d.err then
        { result := denied, err := some AuthError.dispatch, failure := some "dispatch_error",
          requests := [req] }
      else if rr.overflow then
        { result := denied, err := none, failure := some "body_overflow", requests := [req] }
      else if rr.status ≥ 500 then
        { result := denied, err := some AuthError.worker500, failure := some "worker_error",
          requests := [req] }
      else if rr.status ≠ 200 then
        { result := denied, err := none, failure := none, requests := [req] }
      else
        { result := { Allowed := true, UserData := some rr.body }, err := none, failure := none,
          requests := [req] }

/-- A dispatcher whose worker answers 503 with a body of 20 bytes. -/
def bigError : RequestDispatcher :=
  { SendRequest := fun _ =>
      { calls := [WriterCall.writeHeader 503, WriterCall.write "service unavailable!"],
        err := false } }

/-- A provider that captures at most 16 bytes of a response. -/
def tinyProvider : WorkerAuthProvider := { secret := "secret", maxAuthBody := 16 }

/-- A dispatcher whose worker answers 200 with the body `{}` in one write. -/
def okWorker : RequestDispatcher :=
  { SendRequest := fun _ => { calls := [WriterCall.write "{}"], err := false } }
/-! ## The circuit breaker and `Authorize` (`auth.go`) -/

def CBThreshold : Nat := 5

/-- `CBResetTimeout`, 10 s, in nanoseconds. -/
def CBResetTimeout : Nat := 10 * 1000000000

/-- The counters `gobreaker.Counts`. -/
structure Counts where
  Requests : Nat
  TotalSuccesses : Nat
  TotalFailures : Nat
  ConsecutiveSuccesses : Nat
  ConsecutiveFailures : Nat
  deriving DecidableEq, Repr

inductive BreakerState where
  | stateClosed
  | stateHalfOpen
  | stateOpen
  deriving DecidableEq, Repr

/-- The settings handed to `gobreaker.NewCircuitBreaker`; durations are in
nanoseconds. -/
structure Settings where
  MaxRequests : Nat
  Interval : Nat
  Timeout : Nat
  ReadyToTrip : Counts → Bool

/-- Modelled from the spec: `gobreaker.CircuitBreaker`
(`github.com/sony/gobreaker`), whose source is not under `src/`.  The breaker
is closed until `ReadyToTrip` holds after a failure; it is then open for
`timeout`, during which calls are refused; after that it is half-open and lets
`maxRequests` calls through, closing again when they succeed and opening again
when one fails.  A time is a number of nanoseconds; `expiry = none` is the zero
time. -/
structure CircuitBreaker where
  maxRequests : Nat
  interval : Nat
  timeout : Nat
  readyToTrip : Counts → Bool
  state : BreakerState
  generation : Nat
  counts : Counts
  expiry : Option Nat

def Counts.clear : Counts :=
  { Requests := 0, TotalSuccesses := 0, TotalFailures := 0, ConsecutiveSuccesses := 0,
    ConsecutiveFailures := 0 }

def CircuitBreaker.toNewGeneration (cb : CircuitBreaker) (now : Nat) : CircuitBreaker :=
  { cb with
    generation := cb.generation + 1
    counts := Counts.clear
    expiry :=
      match cb.state with
      | BreakerState.stateClosed => if cb.interval = 0 then none else some (now + cb.interval)
      | BreakerState.stateOpen => some (now + cb.timeout)
      | BreakerState.stateHalfOpen => none }

/-- `NewCircuitBreaker` at time `now`: a closed breaker in its first
generation (`MaxRequests` 0 stands for 1 and a `Timeout` of 0 for 60 s). -/
def NewCircuitBreaker (st : Settings) (now : Nat) : CircuitBreaker :=
  CircuitBreaker.toNewGeneration
    { maxRequests := if st.MaxRequests = 0 then 1 else st.MaxRequests
      interval := st.Interval
      timeout := if st.Timeout = 0 then 60 * 1000000000 else st.Timeout
      readyToTrip := st.ReadyToTrip
      state := BreakerState.stateClosed
      generation := 0
      counts := Counts.clear
      expiry := none }
    now

def CircuitBreaker.setState (cb : CircuitBreaker) (state : BreakerState) (now : Nat) :
    CircuitBreaker :=
  if cb.state = state then cb
  else CircuitBreaker.toNewGeneration { cb with state := state } now

/-- `currentState(now)`: the breaker after the expiry of its period, if any,
has been taken into account. -/
def CircuitBreaker.currentState (cb : CircuitBreaker) (now : Nat) : CircuitBreaker :=
  match cb.state with
  | BreakerState.stateClosed =>
    match cb.expiry with
    | some e => if e < now then cb.toNewGeneration now else cb
    | none => cb
  | BreakerState.stateOpen =>
    match cb.expiry with
    | some e => if e < now then cb.setState BreakerState.stateHalfOpen now else cb
    | none => cb.setState BreakerState.stateHalfOpen now
  | BreakerState.stateHalfOpen => cb

inductive BreakerError where
  /-- `ErrOpenState`. -/
  | openState
  /-- `ErrTooManyRequests`. -/
  | tooManyRequests
  deriving DecidableEq, Repr

/-- `beforeRequest` at time `now`: the breaker afterwards and either the
generation of the request or the error that refuses it. -/
def CircuitBreaker.beforeRequest (cb : CircuitBreaker) (now : Nat) :
    CircuitBreaker × Except BreakerError Nat :=
  let cb1 := cb.currentState now
  if cb1.state = BreakerState.stateOpen then (cb1, Except.error BreakerError.openState)
  else if cb1.state = BreakerState.stateHalfOpen ∧ cb1.counts.Requests ≥ cb1.maxRequests then
    (cb1, Except.error BreakerError.tooManyRequests)
  else
    ({ cb1 with counts := { cb1.counts with Requests := cb1.counts.Requests + 1 } },
      Except.ok cb1.generation)

def Counts.onSuccess (c : Counts) : Counts :=
  { c with
    TotalSuccesses := c.TotalSuccesses + 1
    ConsecutiveSuccesses := c.ConsecutiveSuccesses + 1
    ConsecutiveFailures := 0 }

def Counts.onFailure (c : Counts) : Counts :=
  { c with
    TotalFailures := c.TotalFailures + 1
    ConsecutiveFailures := c.ConsecutiveFailures + 1
    ConsecutiveSuccesses := 0 }

/-- `afterRequest(before, success)` at time `now`. -/
def CircuitBreaker.afterRequest (cb : CircuitBreaker) (before : Nat) (success : Bool)
    (now : Nat) : CircuitBreaker :=
  let cb1 := cb.currentState now
  if cb1.generation ≠ before then cb1
  else if success then
    match cb1.state with
    | BreakerState.stateClosed => { cb1 with counts := cb1.counts.onSuccess }
    | BreakerState.stateHalfOpen =>
      let cb2 : CircuitBreaker := { cb1 with counts := cb1.counts.onSuccess }
      if cb2.counts.ConsecutiveSuccesses ≥ cb2.maxRequests then
        cb2.setState BreakerState.stateClosed now
      else cb2
    | BreakerState.stateOpen => cb1
  else
    match cb1.state with
    | BreakerState.stateClosed =>
      let cb2 : CircuitBreaker := { cb1 with counts := cb1.counts.onFailure }
      if cb2.readyToTrip cb2.counts then cb2.setState BreakerState.stateOpen now else cb2
    | BreakerState.stateHalfOpen => cb1.setState BreakerState.stateOpen now
    | BreakerState.stateOpen => cb1

/-- `Execute(req)`, entered at time `t0`, `req` returning at time `t1`: the
breaker afterwards and what `req` returned, or the error of the breaker, in
which case `req` is not called.  A request succeeds when its error is nil. -/
def CircuitBreaker.Execute (cb : CircuitBreaker) (t0 t1 : Nat) (req : Unit → Authorized) :
    CircuitBreaker × Except BreakerError Authorized :=
  match cb.beforeRequest t0 with
  | (cb1, Except.error e) => (cb1, Except.error e)
  | (cb1, Except.ok generation) =>
    let r := req ()
    (cb1.afterRequest generation (r.err == none) t1, Except.ok r)

/-- What `Authorize` reads and writes besides its configuration: the breaker,
the number of tokens in the semaphore `sem`, and the counter
`metrics.BreakerTripped`. -/
structure AuthState where
  breaker : CircuitBreaker
  inFlight : Nat
  breakerTripped : Nat

/-- `NewWorkerAuthProvider` at time `now`: the configuration and the state a
provider starts in. -/
def NewWorkerAuthProvider (maxAuthBody maxConcurrent : Int) (secret : String) (now : Nat) :
    WorkerAuthProvider × AuthState :=
  ({ secret := secret
     maxAuthBody := maxAuthBody
     semCap := if maxConcurrent ≤ 0 then 100 else maxConcurrent },
   { breaker :=
       NewCircuitBreaker
         { MaxRequests := 1
           Interval := 0
           Timeout := CBResetTimeout
           ReadyToTrip := fun counts => decide (counts.ConsecutiveFailures ≥ CBThreshold) }
         now
     inFlight := 0
     breakerTripped := 0 })

/-- The outcome of `Authorize`: the state afterwards, the result, and the
requests handed to the dispatcher. -/
structure AuthorizeOutcome where
  state : AuthState
  result : AuthResult
  requests : List AuthRequest

/-- `Authorize`, entered at time `t0`, the call of the dispatcher returning at
time `t1`.  The token taken from the semaphore is given back on return. -/
def WorkerAuthProvider.Authorize (ap : WorkerAuthProvider) (st : AuthState)
    (worker : Option RequestDispatcher) (clientID channel : String) (t0 t1 : Nat) :
    AuthorizeOutcome :=
  if (st.inFlight : Int) ≥ ap.semCap then { state := st, result := denied, requests := [] }
  else
    match st.breaker.Execute t0 t1 (fun _ => ap.doAuthorize worker clientID channel) with
    | (cb, Except.error _) =>
      { state := { st with breaker := cb, breakerTripped := st.breakerTripped + 1 }
        result := denied
        requests := [] }
    | (cb, Except.ok r) =>
      match r.err with
      | some _ => { state := { st with breaker := cb }, result := denied, requests := r.requests }
      | none => { state := { st with breaker := cb }, result := r.result, requests := r.requests }

/-- A call of `Authorize` with the times at which it enters the breaker and
at which the dispatcher returns. -/
structure AuthCall where
  clientID : String
  channel : String
  t0 : Nat
  t1 : Nat
  deriving DecidableEq, Repr

/-- Calls of `Authorize` made one after the other: the state after the last
and the outcome of each. -/
def WorkerAuthProvider.authorizeAll (ap : WorkerAuthProvider) (worker : Option RequestDispatcher) :
    AuthState → List AuthCall → AuthState × List AuthorizeOutcome
  | st, [] => (st, [])
  | st, call :: rest =>
    let o := ap.Authorize st worker call.clientID call.channel call.t0 call.t1
    let r := WorkerAuthProvider.authorizeAll ap worker o.state rest
    (r.1, o :: r.2)

/-- A dispatcher that returns an error on every call. -/
def failingWorker : RequestDispatcher :=
  { SendRequest := fun _ => { calls := [], err := true } }

/-- The states of a provider whose breaker is closed after `k` consecutive
failures, no call being in flight. -/
def ClosedAfter (k : Nat) (st : AuthState) : Prop :=
  st.breaker.state = BreakerState.stateClosed ∧ st.breaker.expiry = none ∧
    st.breaker.counts.ConsecutiveFailures = k ∧ st.breaker.interval = 0 ∧
    st.breaker.timeout = CBResetTimeout ∧
    st.breaker.readyToTrip = (fun counts => decide (counts.ConsecutiveFailures ≥ CBThreshold)) ∧
    st.inFlight = 0

/-- The states of a provider whose breaker is open until time `e`, no call
being in flight. -/
def OpenUntil (e : Nat) (st : AuthState) : Prop :=
  st.breaker.state = BreakerState.stateOpen ∧ st.breaker.expiry = some e ∧ st.inFlight = 0

/-- Five calls, one second apart, each taking a tenth of a second. -/
def fiveFailures : List AuthCall :=
  [{ clientID := "1.1", channel := "private-a", t0 := 1000000000, t1 := 1100000000 },
   { clientID := "1.1", channel := "private-a", t0 := 2000000000, t1 := 2100000000 },
   { clientID := "1.1", channel := "private-a", t0 := 3000000000, t1 := 3100000000 },
   { clientID := "1.1", channel := "private-a", t0 := 4000000000, t1 := 4100000000 },
   { clientID := "1.1", channel := "private-a", t0 := 5000000000, t1 := 5100000000 }]

/-! ## Configuration (`caddy.go`, `client.go`) -/

/-- `DefaultWriteWait`, in nanoseconds. -/
def DefaultWriteWait : Int := 10 * 1000000000

/-- `DefaultPongWait`, in nanoseconds. -/
def DefaultPongWait : Int := 60 * 1000000000

/-- `DefaultPingPeriod = (DefaultPongWait * 9) / 10`, in nanoseconds. -/
def DefaultPingPeriod : Int := (DefaultPongWait * 9).tdiv 10

/-- The fields of `WebsocketModule` that the directives set and
`validateAndDefaults` reads or writes; durations are in nanoseconds. -/
structure WebsocketModule where
  AppID : String
  AuthPath : String
  AuthScript : String
  NumWorkers : Int
  MaxConnections : Int
  MaxAuthBody : Int
  MaxConcurrentAuth : Int
  NumShards : Int
  WebhookURL : String
  WebhookSecret : String
  PingPeriod : String
  WriteWait : String
  PongWait : String
  pingPeriodDuration : Int
  writeWaitDuration : Int
  pongWaitDuration : Int
  deriving DecidableEq, Repr

/-- The errors of `validateAndDefaults`. -/
inductive ConfigError where
  | appIDRequired
  | authScriptRequired
  | authPathRequired
  | invalidPingPeriod
  | invalidWriteWait
  | invalidPongWait
  deriving DecidableEq, Repr

/-- The defaults that `validateAndDefaults` gives to the numeric fields left
at zero; `numCPU` is `runtime.NumCPU()`. -/
def WebsocketModule.withDefaults (numCPU : Int) (m : WebsocketModule) : WebsocketModule :=
  { m with
    NumWorkers := if m.NumWorkers = 0 then 2 else m.NumWorkers
    MaxConnections := if m.MaxConnections = 0 then 10000 else m.MaxConnections
    MaxAuthBody := if m.MaxAuthBody = 0 then 16 * 1024 else m.MaxAuthBody
    MaxConcurrentAuth := if m.MaxConcurrentAuth = 0 then 100 else m.MaxConcurrentAuth
    NumShards :=
      if m.NumShards = 0 then
        let n := numCPU * 2
        let n1 := if n > 64 then 64 else n
        if n1 < 4 then 4 else n1
      else m.NumShards }

/-- A duration directive: the default when it is absent, otherwise what
`time.ParseDuration` makes of it (`none` for an error). -/
def durationOr (parseDuration : String → Option Int) (text : String) (dflt : Int) : Option Int :=
  if text = "" then some dflt else parseDuration text

/-- `validateAndDefaults`.  `numCPU` is `runtime.NumCPU()` and `parseDuration`
is `time.ParseDuration`. -/
def WebsocketModule.validateAndDefaults (numCPU : Int) (parseDuration : String → Option Int)
    (m : WebsocketModule) : Except ConfigError WebsocketModule :=
  if m.AppID = "" then Except.error ConfigError.appIDRequired
  else if m.AuthScript = "" then Except.error ConfigError.authScriptRequired
  else if m.AuthPath = "" then Except.error ConfigError.authPathRequired
  else
    let m1 := m.withDefaults numCPU
    match durationOr parseDuration m1.PingPeriod DefaultPingPeriod with
    | none => Except.error ConfigError.invalidPingPeriod
    | some pingPeriod =>
      match durationOr parseDuration m1.WriteWait DefaultWriteWait with
      | none => Except.error ConfigError.invalidWriteWait
      | some writeWait =>
        match durationOr parseDuration m1.PongWait DefaultPongWait with
        | none => Except.error ConfigError.invalidPongWait
        | some pongWait =>
          Except.ok
            { m1 with
              pingPeriodDuration := pingPeriod
              writeWaitDuration := writeWait
              pongWaitDuration := pongWait }

/-- The hub that `Provision` builds from a validated module
(`NewWebhookManager` returns a manager whatever the URL). -/
def WebsocketModule.newHub (m : WebsocketModule) : Hub :=
  NewHub (some { url := m.WebhookURL, secret := m.WebhookSecret }) m.MaxConnections m.NumShards
    m.pingPeriodDuration

/-- The module after the three required directives only. -/
def bareModule : WebsocketModule :=
  { AppID := "app", AuthPath := "/auth", AuthScript := "auth.php", NumWorkers := 0,
    MaxConnections := 0, MaxAuthBody := 0, MaxConcurrentAuth := 0, NumShards := 0,
    WebhookURL := "", WebhookSecret := "", PingPeriod := "", WriteWait := "", PongWait := "",
    pingPeriodDuration := 0, writeWaitDuration := 0, pongWaitDuration := 0 }

/-- A `time.ParseDuration` that accepts nothing, for modules without duration
directives. -/
def noDuration : String → Option Int := fun _ => none

/-- The module with the directive `num_shards 1` besides the required ones. -/
def oneShard : WebsocketModule := { bareModule with NumShards := 1 }

/-- The module `bareModule` as `validateAndDefaults` leaves it on a machine
with 8 CPUs. -/
def bareValidated : WebsocketModule :=
  { bareModule.withDefaults 8 with
    pingPeriodDuration := 54000000000
    writeWaitDuration := 10000000000
    pongWaitDuration := 60000000000 }

/-- The module `oneShard` as `validateAndDefaults` leaves it on a machine with
8 CPUs. -/
def oneShardValidated : WebsocketModule :=
  { oneShard.withDefaults 8 with
    pingPeriodDuration := 54000000000
    writeWaitDuration := 10000000000
    pongWaitDuration := 60000000000 }
/-! ## The reconnect loop of the Redis broker (`redis_broker.go`) -/

/-- `time.Second`, in nanoseconds. -/
def timeSecond : Int := 1000000000

/-- The value of an `int64` expression whose mathematical value is `n`
(arithmetic wraps around). -/
def wrapInt64 (n : Int) : Int := (n + 2 ^ 63) % 2 ^ 64 - 2 ^ 63

/-- `time.Duration(math.Pow(2, float64(attempt)))`.  The power of two is exact
as a `float64`, and so is its conversion when it is below `2 ^ 63`; the result
of converting a larger value is left to the implementation by the language:
`overflowed attempt`. -/
def powDuration (overflowed : Nat → Int) (attempt : Nat) : Int :=
  if attempt < 63 then ((2 ^ attempt : Nat) : Int) else overflowed attempt

/-- The `sleepDuration` of the reconnect loop of `Subscribe` after `attempt`
failed attempts in a row. -/
def sleepDuration (overflowed : Nat → Int) (attempt : Nat) : Int :=
  let d := wrapInt64 (powDuration overflowed attempt * timeSecond)
  if d > 30 * timeSecond then 30 * timeSecond else d

/-! ## The protocol check of `ServeHTTP` (`caddy.go`) -/

/-- Go `a < b` on strings: the order of their bytes, the first difference
deciding. -/
def bytesLess : List Nat → List Nat → Bool
  | _, [] => false
  | [], _ :: _ => true
  | a :: as, b :: bs => if a < b then true else if b < a then false else bytesLess as bs

def stringLess (a b : String) : Bool := bytesLess (goBytes a) (goBytes b)

/-- What `ServeHTTP` does with a request. -/
inductive Served where
  /-- `http.Error(w, text, code)`. -/
  | error (code : Nat) (text : String)
  /-- `next.ServeHTTP(w, r)`. -/
  | next
  /-- The error of `upgrader.Upgrade`. -/
  | upgradeFailed
  /-- The connection is upgraded and served until the read pump returns. -/
  | served
  deriving DecidableEq, Repr

/-- `ServeHTTP`.  `proto` is `r.URL.Query().Get("protocol")` (empty when the
parameter is absent), `isUpgrade` is `websocket.IsWebSocketUpgrade(r)`,
`limited` says that there is a limiter and that it refuses the request, and
`upgraded` that `upgrader.Upgrade` returns no error. -/
def ServeHTTP (proto : String) (isUpgrade limited upgraded : Bool) : Served :=
  if proto ≠ "" ∧ stringLess proto "5" = true then
    Served.error 400 "Unsupported protocol version"
  else if !isUpgrade then Served.next
  else if limited then Served.error 429 "Too Many Requests"
  else if !upgraded then Served.upgradeFailed
  else Served.served

/-- The decimal representation of an integer. -/
def decimal (n : Int) : String :=
  if n < 0 then "-" ++ Nat.repr n.natAbs else Nat.repr n.natAbs
/-! ## The read pump of a client (`client.go`) -/

def EventPing : String := "pusher:ping"
def EventPong : String := "pusher:pong"
def EventSubscribe : String := "pusher:subscribe"
def EventUnsubscribe : String := "pusher:unsubscribe"
def EventSignin : String := "pusher:signin"
def EventError : String := "pusher:error"
def EventSigninSuccess : String := "pusher:signin_success"
def ChannelPrefixClient : String := "client-"
def ErrorApplicationDisabled : Nat := 4003
def ErrorGenericReconnect : Nat := 4200
def ErrorSubscriptionDenied : Nat := 4009

structure ClientMessage where
  Event : String
  Channel : String
  Data : String
  deriving DecidableEq, Repr

structure SubscribeData where
  Channel : String
  deriving DecidableEq, Repr

structure SignInData where
  Auth : String
  UserData : String
  deriving DecidableEq, Repr

/-- `json.Unmarshal(message, &msg)` for a `ClientMessage`; `none` is an
error. -/
def unmarshalClientMessage (message : String) : Option ClientMessage :=
  match Json.objectMembers message with
  | none => none
  | some ms =>
    match Json.stringField "event" ms "", Json.stringField "channel" ms "" with
    | some event, some channel =>
      some { Event := event, Channel := channel, Data := Json.rawField "data" ms "" }
    | _, _ => none

/-- `json.Unmarshal(data, &subData)` for a `SubscribeData`. -/
def unmarshalSubscribeData (data : String) : Option SubscribeData :=
  match Json.objectMembers data with
  | none => none
  | some ms => (Json.stringField "channel" ms "").map (fun channel => { Channel := channel })

/-- `json.Unmarshal(data, &signin)` for a `SignInData`. -/
def unmarshalSignInData (data : String) : Option SignInData :=
  match Json.objectMembers data with
  | none => none
  | some ms =>
    match Json.stringField "auth" ms "", Json.stringField "user_data" ms "" with
    | some auth, some userData => some { Auth := auth, UserData := userData }
    | _, _ => none

/-- The bytes of `json.Marshal` for the map
`{"event": "pusher:error", "data": {"code": code, "message": message}}`
(the keys of a map are written in sorted order). -/
def pusherError (code : Nat) (message : String) : String :=
  "\x7b\"data\":\x7b\"code\":" ++ Nat.repr code ++ ",\"message\":" ++
    String.mk (Json.appendString message) ++ "\x7d,\"event\":" ++
    String.mk (Json.appendString EventError) ++ "\x7d"

/-- The bytes of `json.Marshal` for the map
`{"event": "pusher:signin_success", "data": {"user_data": userData}}`. -/
def signinSuccess (userData : String) : String :=
  "\x7b\"data\":\x7b\"user_data\":" ++ String.mk (Json.appendString userData) ++
    "\x7d,\"event\":" ++ String.mk (Json.appendString EventSigninSuccess) ++ "\x7d"

/-- The bytes `{"event":"pusher:pong"}`. -/
def pongFrame : String := "\x7b\"event\":\"" ++ EventPong ++ "\"\x7d"

/-- The `AuthProvider` of the hub as `handleMessage` uses it: `Authorize` for
a client and a channel, `AuthenticateUser` for a socket id, a signature and
user data. -/
structure AuthProvider where
  Authorize : Client → String → AuthResult
  AuthenticateUser : String → String → String → AuthResult

/-- `Hub.Authorize`. -/
def Hub.Authorize (auth : AuthProvider) (client : Client) (channel : String) : AuthResult :=
  if goLen channel > MaxChannelLength then { Allowed := false, UserData := none }
  else auth.Authorize client channel

/-- What `handleMessage` does: the byte strings handed to `c.Send`, the values
sent on the channels `clientMessage`, `subscribe` and `unsubscribe` of the hub,
and the channel names handed to `Hub.Authorize`, each oldest first. -/
structure Handled where
  sent : List String
  clientMessage : List ClientMessageWrapper
  subscribe : List Subscription
  unsubscribe : List Subscription
  authorized : List String
  deriving DecidableEq, Repr

def Handled.nothing : Handled :=
  { sent := [], clientMessage := [], subscribe := [], unsubscribe := [], authorized := [] }

def Handled.append (a b : Handled) : Handled :=
  { sent := a.sent ++ b.sent
    clientMessage := a.clientMessage ++ b.clientMessage
    subscribe := a.subscribe ++ b.subscribe
    unsubscribe := a.unsubscribe ++ b.unsubscribe
    authorized := a.authorized ++ b.authorized }

/-- `handleMessage` for the client `c` with socket id `clientID`. -/
def Client.handleMessage (c : Client) (clientID : String) (auth : AuthProvider)
    (message : String) : Handled :=
  match unmarshalClientMessage message with
  | none =>
    { Handled.nothing with sent := [pusherError ErrorGenericReconnect "Invalid JSON format"] }
  | some msg =>
    if goLen msg.Event > MaxEventLength then Handled.nothing
    else if hasPrefix msg.Event ChannelPrefixClient then
      if !IsValidChannelName msg.Channel then Handled.nothing
      else if goLen msg.Data > MaxDataSize then Handled.nothing
      else
        { Handled.nothing with
          clientMessage :=
            [{ Client := c, Channel := msg.Channel, Event := msg.Event, Data := msg.Data }] }
    else if msg.Event = EventPing then { Handled.nothing with sent := [pongFrame] }
    else if msg.Event = EventSubscribe then
      match unmarshalSubscribeData msg.Data with
      | none => Handled.nothing
      | some subData =>
        if !IsValidChannelName subData.Channel then Handled.nothing
        else if hasPrefix subData.Channel ChannelPrefixPrivate
            || hasPrefix subData.Channel ChannelPrefixPresence then
          let result := Hub.Authorize auth c subData.Channel
          if !result.Allowed then
            { Handled.nothing with
              sent :=
                [pusherError ErrorSubscriptionDenied
                  ("Subscription to " ++ subData.Channel ++ " rejected")]
              authorized := [subData.Channel] }
          else
            { Handled.nothing with
              subscribe :=
                [{ Client := c, Channel := subData.Channel,
                   AuthData := result.UserData.getD "" }]
              authorized := [subData.Channel] }
        else
          { Handled.nothing with
            subscribe := [{ Client := c, Channel := subData.Channel, AuthData := "" }] }
    else if msg.Event = EventUnsubscribe then
      match unmarshalSubscribeData msg.Data with
      | none => Handled.nothing
      | some subData =>
        if !IsValidChannelName subData.Channel then Handled.nothing
        else
          { Handled.nothing with
            unsubscribe := [{ Client := c, Channel := subData.Channel, AuthData := "" }] }
    else if msg.Event = EventSignin then
      match unmarshalSignInData msg.Data with
      | none => Handled.nothing
      | some signin =>
        let result := auth.AuthenticateUser clientID signin.Auth signin.UserData
        if result.Allowed then
          { Handled.nothing with sent := [signinSuccess (result.UserData.getD "")] }
        else
          { Handled.nothing with
            sent := [pusherError ErrorSubscriptionDenied "Signin authentication failed"] }
    else Handled.nothing

/-- What `conn.ReadMessage()` returns. -/
inductive Incoming where
  | text (message : String)
  | binary
  | err
  deriving DecidableEq, Repr

/-- The loop of `readPump` over what the connection delivers: what the
messages handled did, what the pump wrote to the connection, and whether the
loop has ended (it has not when it is waiting for the next message). -/
structure Pumped where
  handled : Handled
  conn : List ConnAction
  ended : Bool
  deriving DecidableEq, Repr

/-- The loop of `readPump`; on leaving it, the pump unregisters the client and
closes the connection. -/
def Client.readPump (c : Client) (clientID : String) (auth : AuthProvider) :
    List Incoming → Pumped
  | [] => { handled := Handled.nothing, conn := [], ended := false }
  | Incoming.err :: _ => { handled := Handled.nothing, conn := [ConnAction.close], ended := true }
  | Incoming.binary :: _ =>
    { handled := Handled.nothing
      conn :=
        [ConnAction.writeClose ErrorApplicationDisabled "Binary frames not supported",
          ConnAction.close]
      ended := true }
  | Incoming.text message :: rest =>
    let first := c.handleMessage clientID auth message
    let later := Client.readPump c clientID auth rest
    { later with handled := first.append later.handled }

/-- An authorizer that refuses every channel and every user. -/
def denyAll : AuthProvider :=
  { Authorize := fun _ _ => { Allowed := false, UserData := none }
    AuthenticateUser := fun _ _ _ => { Allowed := false, UserData := none } }

/-! ## The loop of a shard (`shard.go`) -/

/-- One iteration of the `select` loop of `HubShard.Run` (the shutdown case
apart) on the message received: the shard afterwards and the shard masks of
the clients.  `order` is the order in which `RemoveClient` meets the channels
of the client. -/
def HubShard.runCase (s : HubShard) (shardMask : Client → Nat) (order : List String) :
    ShardMessage → HubShard × (Client → Nat)
  | ShardMessage.cleanup c => ({ s with subs := RemoveClient s.subs c order }, shardMask)
  | ShardMessage.subscribe sub =>
    ({ s with subs := Subscribe s.subs sub.Client sub.Channel sub.AuthData },
      Function.update shardMask sub.Client (AddShard (shardMask sub.Client) s.id))
  | ShardMessage.unsubscribe sub =>
    ({ s with subs := Unsubscribe s.subs sub.Client sub.Channel }, shardMask)
  | ShardMessage.broadcast msg => ({ s with subs := BroadcastToChannel s.subs msg }, shardMask)
  | ShardMessage.clientMsg cMsg =>
    ({ s with subs := BroadcastToOthers s.subs cMsg.Client cMsg.Channel cMsg.Event cMsg.Data },
      shardMask)

/-- The hub after the shard at index `i` has handled `message`. -/
def Hub.shardStep (h : Hub) (i : Nat) (message : ShardMessage) (order : List String) : Hub :=
  match h.shards[i]? with
  | none => h
  | some s =>
    { h with
      shards := h.shards.set i (s.runCase h.shardMask order message).1
      shardMask := (s.runCase h.shardMask order message).2 }

/-- The order handed to a shard step is an order of the channels of the client
when the message is a cleanup. -/
def Hub.OrderFor (h : Hub) (i : Nat) (message : ShardMessage) (order : List String) : Prop :=
  ∀ (s : HubShard) (c : Client), h.shards[i]? = some s → message = ShardMessage.cleanup c →
    IsOrderOf s.subs c order

/-- The states of a hub and its shards: built by `NewHub`, then driven by
`Register`, `Unregister`, the loop of `Hub.Run` and the loops of the
shards. -/
inductive Hub.Running : Hub → Prop where
  | new (webhook : Option WebhookManager) (maxConn numShards pingPeriod : Int) :
      Hub.Running (NewHub webhook maxConn numShards pingPeriod)
  | register {h : Hub} (c : Client) : Hub.Running h → Hub.Running (h.Register c)
  | unregister {h : Hub} (c : Client) : Hub.Running h → Hub.Running (h.Unregister c)
  | run {h : Hub} (ev : HubEvent) : Hub.Running h → Hub.Running (h.runCase ev)
  | shard {h : Hub} (i : Nat) (message : ShardMessage) (order : List String) :
      Hub.Running h → h.OrderFor i message order → Hub.Running (h.shardStep i message order)

/-- Client `c` appears in an index of the manager: in the subscriber set of a
channel, as a key of `clients`, or in the presence mapping of a channel. -/
def HoldsState (sm : SubscriptionManager) (c : Client) : Prop :=
  (∃ ch, inChannel sm ch c) ∨ (sm.clients c).isSome = true ∨
    ∃ ch m, sm.clientToUser ch = some m ∧ c ∈ m

/-- Every shard that holds state for a client has its bit in the mask of the
client. -/
def Hub.Masked (h : Hub) : Prop :=
  ∀ (i : Nat) (s : HubShard), h.shards[i]? = some s → ∀ c, HoldsState s.subs c →
    HasShard (h.shardMask c) (i : Int) = true

/-- The index of the shard of the channel `news` in a hub of 32 shards. -/
def newsIndex : Nat := fnv1a32 "news" % 32

/-- The subscription of `clientOne` to the channel `news`. -/
def newsSubscription : Subscription := { Client := clientOne, Channel := "news", AuthData := "" }

/-- A client connects and subscribes to `news`: the hub forwards the
subscription and the shard of the channel handles it. -/
def subscribedHub : Hub :=
  (((smallHub.Register clientOne).runCase (HubEvent.subscribe newsSubscription)).shardStep
    newsIndex (ShardMessage.subscribe newsSubscription) [])

/-! ## Theorems -/

theorem finmap_erase_of_not_mem {α : Type} {β : α → Type} [DecidableEq α] (a : α) (s : Finmap β)
    (h : a ∉ s) : s.erase a = s := by
  apply Finmap.ext_lookup
  intro x
  by_cases hx : x = a
  · subst hx
    rw [Finmap.lookup_erase, eq_comm, Finmap.lookup_eq_none]
    exact h
  · exact Finmap.lookup_erase_ne hx

/-! ## What each operation does to each field -/

section Fields

variable (sm : SubscriptionManager) (client : Client) (channel : String)

@[simp] theorem Send_channels (msg : Payload) : (Send sm client msg).channels = sm.channels := rfl
@[simp] theorem Send_clients (msg : Payload) : (Send sm client msg).clients = sm.clients := rfl
@[simp] theorem Send_presence (msg : Payload) : (Send sm client msg).presence = sm.presence := rfl
@[simp] theorem Send_clientToUser (msg : Payload) :
    (Send sm client msg).clientToUser = sm.clientToUser := rfl
@[simp] theorem Send_webhook (msg : Payload) : (Send sm client msg).webhook = sm.webhook := rfl
@[simp] theorem Send_posted (msg : Payload) : (Send sm client msg).posted = sm.posted := rfl

@[simp] theorem sendEach_channels (set : Finset Client) (msg : Payload) :
    (sendEach sm set msg).channels = sm.channels := rfl
@[simp] theorem sendEach_clients (set : Finset Client) (msg : Payload) :
    (sendEach sm set msg).clients = sm.clients := rfl
@[simp] theorem sendEach_presence (set : Finset Client) (msg : Payload) :
    (sendEach sm set msg).presence = sm.presence := rfl
@[simp] theorem sendEach_clientToUser (set : Finset Client) (msg : Payload) :
    (sendEach sm set msg).clientToUser = sm.clientToUser := rfl
@[simp] theorem sendEach_webhook (set : Finset Client) (msg : Payload) :
    (sendEach sm set msg).webhook = sm.webhook := rfl
@[simp] theorem sendEach_posted (set : Finset Client) (msg : Payload) :
    (sendEach sm set msg).posted = sm.posted := rfl

@[simp] theorem notify_channels (e : String) : (notify sm e channel).channels = sm.channels := by
  unfold notify; split <;> rfl
@[simp] theorem notify_clients (e : String) : (notify sm e channel).clients = sm.clients := by
  unfold notify; split <;> rfl
@[simp] theorem notify_presence (e : String) : (notify sm e channel).presence = sm.presence := by
  unfold notify; split <;> rfl
@[simp] theorem notify_clientToUser (e : String) :
    (notify sm e channel).clientToUser = sm.clientToUser := by
  unfold notify; split <;> rfl
@[simp] theorem notify_webhook (e : String) : (notify sm e channel).webhook = sm.webhook := by
  unfold notify; split <;> rfl
@[simp] theorem notify_sent (e : String) : (notify sm e channel).sent = sm.sent := by
  unfold notify; split <;> rfl
@[simp] theorem notify_subscriptions (e : String) :
    (notify sm e channel).subscriptions = sm.subscriptions := by
  unfold notify; split <;> rfl

@[simp] theorem recordPresence_channels (member : Member) :
    (recordPresence sm client channel member).channels = sm.channels := by
  unfold recordPresence NewPreparedMessage
  dsimp only
  split_ifs <;> rfl
@[simp] theorem recordPresence_clients (member : Member) :
    (recordPresence sm client channel member).clients = sm.clients := by
  unfold recordPresence NewPreparedMessage
  dsimp only
  split_ifs <;> rfl
@[simp] theorem recordPresence_webhook (member : Member) :
    (recordPresence sm client channel member).webhook = sm.webhook := by
  unfold recordPresence NewPreparedMessage
  dsimp only
  split_ifs <;> rfl
@[simp] theorem recordPresence_posted (member : Member) :
    (recordPresence sm client channel member).posted = sm.posted := by
  unfold recordPresence NewPreparedMessage
  dsimp only
  split_ifs <;> rfl

theorem recordPresence_presence (member : Member) :
    (recordPresence sm client channel member).presence =
      Function.update sm.presence channel
        (some (((sm.presence channel).getD ∅).insert member.UserID member)) := by
  unfold recordPresence NewPreparedMessage
  dsimp only
  split_ifs with h1 h2 h2 <;> simp [Send, sendEach] <;> simp_all

theorem recordPresence_clientToUser (member : Member) :
    (recordPresence sm client channel member).clientToUser =
      Function.update sm.clientToUser channel
        (some ((if (sm.presence channel).isNone then ∅
          else (sm.clientToUser channel).getD ∅).insert client member.UserID)) := by
  unfold recordPresence NewPreparedMessage
  dsimp only
  split_ifs with h1 h2 h2 <;> simp [Send, sendEach]

@[simp] theorem handlePresenceSubscribe_channels (userData : String) :
    (handlePresenceSubscribe sm client channel userData).channels = sm.channels := by
  unfold handlePresenceSubscribe; split <;> simp
@[simp] theorem handlePresenceSubscribe_clients (userData : String) :
    (handlePresenceSubscribe sm client channel userData).clients = sm.clients := by
  unfold handlePresenceSubscribe; split <;> simp
@[simp] theorem handlePresenceSubscribe_webhook (userData : String) :
    (handlePresenceSubscribe sm client channel userData).webhook = sm.webhook := by
  unfold handlePresenceSubscribe; split <;> simp
@[simp] theorem handlePresenceSubscribe_posted (userData : String) :
    (handlePresenceSubscribe sm client channel userData).posted = sm.posted := by
  unfold handlePresenceSubscribe; split <;> simp

theorem Subscribe_channels (userData : String) :
    (Subscribe sm client channel userData).channels =
      Function.update sm.channels channel (some (insert client ((sm.channels channel).getD ∅))) := by
  unfold Subscribe
  dsimp only
  split_ifs <;> simp

theorem Subscribe_clients (userData : String) :
    (Subscribe sm client channel userData).clients =
      Function.update sm.clients client (some (insert channel ((sm.clients client).getD ∅))) := by
  unfold Subscribe
  dsimp only
  split_ifs <;> simp

@[simp] theorem Subscribe_webhook (userData : String) :
    (Subscribe sm client channel userData).webhook = sm.webhook := by
  unfold Subscribe
  dsimp only
  split_ifs <;> simp

theorem Subscribe_presence (userData : String) :
    (Subscribe sm client channel userData).presence =
      if hasPrefix channel ChannelPrefixPresence then
        match presenceMember userData with
        | some member =>
          Function.update sm.presence channel
            (some (((sm.presence channel).getD ∅).insert member.UserID member))
        | none => sm.presence
      else sm.presence := by
  unfold Subscribe handlePresenceSubscribe
  cases hm : presenceMember userData <;> dsimp only <;> split_ifs <;>
    simp [recordPresence_presence]

theorem Subscribe_clientToUser (userData : String) :
    (Subscribe sm client channel userData).clientToUser =
      if hasPrefix channel ChannelPrefixPresence then
        match presenceMember userData with
        | some member =>
          Function.update sm.clientToUser channel
            (some ((if (sm.presence channel).isNone then ∅
              else (sm.clientToUser channel).getD ∅).insert client member.UserID))
        | none => sm.clientToUser
      else sm.clientToUser := by
  unfold Subscribe handlePresenceSubscribe
  cases hm : presenceMember userData <;> dsimp only <;> split_ifs <;>
    simp [recordPresence_clientToUser] <;> simp_all

theorem Subscribe_presence_of_none (userData : String) (h : joining channel userData = none) :
    (Subscribe sm client channel userData).presence = sm.presence := by
  rw [Subscribe_presence]
  unfold joining at h
  split_ifs at h with hp
  · simp only [if_pos hp, h]
  · simp only [if_neg hp]

theorem Subscribe_clientToUser_of_none (userData : String) (h : joining channel userData = none) :
    (Subscribe sm client channel userData).clientToUser = sm.clientToUser := by
  rw [Subscribe_clientToUser]
  unfold joining at h
  split_ifs at h with hp
  · simp only [if_pos hp, h]
  · simp only [if_neg hp]

theorem Subscribe_presence_of_some (userData : String) {member : Member}
    (h : joining channel userData = some member) :
    (Subscribe sm client channel userData).presence =
      Function.update sm.presence channel
        (some (((sm.presence channel).getD ∅).insert member.UserID member)) := by
  rw [Subscribe_presence]
  unfold joining at h
  split_ifs at h with hp
  simp only [if_pos hp, h]

theorem Subscribe_clientToUser_of_some (userData : String) {member : Member}
    (h : joining channel userData = some member) :
    (Subscribe sm client channel userData).clientToUser =
      Function.update sm.clientToUser channel
        (some ((if (sm.presence channel).isNone then ∅
          else (sm.clientToUser channel).getD ∅).insert client member.UserID)) := by
  rw [Subscribe_clientToUser]
  unfold joining at h
  split_ifs at h with hp
  simp only [if_pos hp, h]

theorem joining_presence {channel userData : String} {member : Member}
    (h : joining channel userData = some member) :
    hasPrefix channel ChannelPrefixPresence = true := by
  unfold joining at h
  split_ifs at h with hp
  exact hp

@[simp] theorem handlePresenceUnsubscribe_channels :
    (handlePresenceUnsubscribe sm client channel).channels = sm.channels := by
  unfold handlePresenceUnsubscribe NewPreparedMessage
  dsimp only
  repeat' split
  all_goals rfl
@[simp] theorem handlePresenceUnsubscribe_clients :
    (handlePresenceUnsubscribe sm client channel).clients = sm.clients := by
  unfold handlePresenceUnsubscribe NewPreparedMessage
  dsimp only
  repeat' split
  all_goals rfl
@[simp] theorem handlePresenceUnsubscribe_webhook :
    (handlePresenceUnsubscribe sm client channel).webhook = sm.webhook := by
  unfold handlePresenceUnsubscribe NewPreparedMessage
  dsimp only
  repeat' split
  all_goals rfl
@[simp] theorem handlePresenceUnsubscribe_posted :
    (handlePresenceUnsubscribe sm client channel).posted = sm.posted := by
  unfold handlePresenceUnsubscribe NewPreparedMessage
  dsimp only
  repeat' split
  all_goals rfl

theorem handlePresenceUnsubscribe_of_none (h : sm.clientToUser channel = none) :
    handlePresenceUnsubscribe sm client channel = sm := by
  unfold handlePresenceUnsubscribe
  simp only [h]

theorem handlePresenceUnsubscribe_of_not_mem {clientMap : Finmap (fun _ : Client => String)}
    (h : sm.clientToUser channel = some clientMap) (hl : clientMap.lookup client = none) :
    handlePresenceUnsubscribe sm client channel = sm := by
  unfold handlePresenceUnsubscribe
  simp only [h, hl]

theorem handlePresenceUnsubscribe_of_still {clientMap : Finmap (fun _ : Client => String)}
    {userID : String}
    (h : sm.clientToUser channel = some clientMap) (hl : clientMap.lookup client = some userID)
    (hs : ∃ c ∈ (clientMap.erase client).keys, (clientMap.erase client).lookup c = some userID) :
    handlePresenceUnsubscribe sm client channel =
      { sm with
        clientToUser := Function.update sm.clientToUser channel (some (clientMap.erase client)) } := by
  have hd := decide_eq_true hs
  unfold handlePresenceUnsubscribe
  simp only [h, hl, hd]
  rfl

theorem handlePresenceUnsubscribe_of_last {clientMap : Finmap (fun _ : Client => String)}
    {userID : String}
    (h : sm.clientToUser channel = some clientMap) (hl : clientMap.lookup client = some userID)
    (hs : ¬ ∃ c ∈ (clientMap.erase client).keys, (clientMap.erase client).lookup c = some userID) :
    handlePresenceUnsubscribe sm client channel =
      { sm with
        clientToUser := Function.update sm.clientToUser channel (some (clientMap.erase client))
        presence :=
          Function.update sm.presence channel
            ((sm.presence channel).map (fun roster => roster.erase userID))
        sent := fun d =>
          if d ∈ (sm.channels channel).getD ∅ then sm.sent d ++ [removedPayload channel userID]
          else sm.sent d } := by
  have hd := decide_eq_false hs
  unfold handlePresenceUnsubscribe NewPreparedMessage removedPayload
  simp only [h, hl, hd]
  cases hp : sm.presence channel with
  | none =>
    have e : Function.update sm.presence channel none = sm.presence := by
      rw [← hp]; exact Function.update_eq_self _ _
    cases hc : sm.channels channel <;> simp [sendEach, e]
  | some roster => cases hc : sm.channels channel <;> simp [sendEach]

theorem handlePresenceUnsubscribe_clientToUser :
    (handlePresenceUnsubscribe sm client channel).clientToUser =
      Function.update sm.clientToUser channel
        ((sm.clientToUser channel).map (fun clientMap => clientMap.erase client)) := by
  cases hm : sm.clientToUser channel with
  | none => rw [handlePresenceUnsubscribe_of_none _ _ _ hm]; simp [hm]
  | some clientMap =>
    cases hl : clientMap.lookup client with
    | none =>
      have : client ∉ clientMap := Finmap.lookup_eq_none.1 hl
      rw [handlePresenceUnsubscribe_of_not_mem _ _ _ hm hl]
      simp [finmap_erase_of_not_mem _ _ this, hm]
    | some userID =>
      by_cases hs : ∃ c ∈ (clientMap.erase client).keys, (clientMap.erase client).lookup c = some userID
      · rw [handlePresenceUnsubscribe_of_still _ _ _ hm hl hs]; simp
      · rw [handlePresenceUnsubscribe_of_last _ _ _ hm hl hs]; simp

theorem handlePresenceUnsubscribe_presence :
    (handlePresenceUnsubscribe sm client channel).presence =
      match leaving sm client channel with
      | some userID =>
        Function.update sm.presence channel
          ((sm.presence channel).map (fun roster => roster.erase userID))
      | none => sm.presence := by
  unfold leaving lastOf
  cases hm : sm.clientToUser channel with
  | none => rw [handlePresenceUnsubscribe_of_none _ _ _ hm]; simp
  | some clientMap =>
    cases hl : clientMap.lookup client with
    | none => rw [handlePresenceUnsubscribe_of_not_mem _ _ _ hm hl]; simp [hl]
    | some userID =>
      by_cases hs : ∃ c ∈ (clientMap.erase client).keys, (clientMap.erase client).lookup c = some userID
      · rw [handlePresenceUnsubscribe_of_still _ _ _ hm hl hs]
        simp only [Option.some_bind, hl, if_pos hs]
      · rw [handlePresenceUnsubscribe_of_last _ _ _ hm hl hs]
        simp only [Option.some_bind, hl, if_neg hs]

theorem handlePresenceUnsubscribe_sent (d : Client) :
    (handlePresenceUnsubscribe sm client channel).sent d =
      sm.sent d ++
        match leaving sm client channel with
        | some userID =>
          if d ∈ (sm.channels channel).getD ∅ then [removedPayload channel userID] else []
        | none => [] := by
  unfold leaving lastOf
  cases hm : sm.clientToUser channel with
  | none => rw [handlePresenceUnsubscribe_of_none _ _ _ hm]; simp
  | some clientMap =>
    cases hl : clientMap.lookup client with
    | none => rw [handlePresenceUnsubscribe_of_not_mem _ _ _ hm hl]; simp [hl]
    | some userID =>
      by_cases hs : ∃ c ∈ (clientMap.erase client).keys, (clientMap.erase client).lookup c = some userID
      · rw [handlePresenceUnsubscribe_of_still _ _ _ hm hl hs]
        simp only [Option.some_bind, hl, if_pos hs]
        simp
      · rw [handlePresenceUnsubscribe_of_last _ _ _ hm hl hs]
        simp only [Option.some_bind, hl, if_neg hs]
        split_ifs <;> simp

theorem Unsubscribe_eq :
    Unsubscribe sm client channel =
      if hasPrefix channel ChannelPrefixPresence then
        handlePresenceUnsubscribe (unsubscribeIndices sm client channel) client channel
      else unsubscribeIndices sm client channel := rfl

theorem notify_posted (e : String) :
    (notify sm e channel).posted = sm.posted ++ notified sm e channel := by
  unfold notify notified WebhookManager.Notify
  cases sm.webhook with
  | none => simp
  | some wm => dsimp only; split_ifs <;> simp

theorem unsubscribeIndices_fields :
    (unsubscribeIndices sm client channel).channels =
        Function.update sm.channels channel (channelWithout sm client channel) ∧
      (unsubscribeIndices sm client channel).presence = sm.presence ∧
      (unsubscribeIndices sm client channel).clientToUser = sm.clientToUser ∧
      (unsubscribeIndices sm client channel).sent = sm.sent ∧
      (unsubscribeIndices sm client channel).subscriptions = sm.subscriptions ∧
      (unsubscribeIndices sm client channel).posted =
        sm.posted ++
          (if vacates sm client channel then notified sm "channel_vacated" channel else []) := by
  unfold unsubscribeIndices channelWithout vacates
  cases hc : sm.channels channel with
  | none =>
    have e : Function.update sm.channels channel none = sm.channels := by
      rw [← hc]; exact Function.update_eq_self _ _
    cases hk : sm.clients client <;> simp [hk, e]
  | some clients =>
    dsimp only
    by_cases h0 : (clients.erase client).card = 0
    · simp only [h0, if_true, Option.some_bind]
      cases hk : (notify
          { sm with channels := Function.update sm.channels channel none }
          "channel_vacated" channel).clients client <;>
        simp [notify_posted, notified]
    · simp only [h0, if_false, Option.some_bind]
      cases hk : sm.clients client <;> simp

theorem unsubscribeIndices_clients :
    (unsubscribeIndices sm client channel).clients =
        Function.update sm.clients client
          ((sm.clients client).map (fun chans => chans.erase channel)) ∧
      (unsubscribeIndices sm client channel).webhook = sm.webhook := by
  have key : ∀ sm1 : SubscriptionManager, sm1.clients = sm.clients → sm1.webhook = sm.webhook →
      (match sm1.clients client with
        | some chans =>
          ({ sm1 with clients := Function.update sm1.clients client (some (chans.erase channel)) } :
            SubscriptionManager)
        | none => sm1).clients =
          Function.update sm.clients client
            ((sm.clients client).map (fun chans => chans.erase channel)) ∧
      (match sm1.clients client with
        | some chans =>
          ({ sm1 with clients := Function.update sm1.clients client (some (chans.erase channel)) } :
            SubscriptionManager)
        | none => sm1).webhook = sm.webhook := by
    intro sm1 h1 h2
    rw [h1]
    cases hk : sm.clients client with
    | none =>
      simp only [Option.map_none']
      rw [h1, h2, ← hk, Function.update_eq_self]
      exact ⟨rfl, rfl⟩
    | some chans => simp [h1, h2]
  unfold unsubscribeIndices
  apply key
  · cases hc : sm.channels channel with
    | none => rfl
    | some clients => dsimp only; split_ifs <;> simp
  · cases hc : sm.channels channel with
    | none => rfl
    | some clients => dsimp only; split_ifs <;> simp

theorem Unsubscribe_channels :
    (Unsubscribe sm client channel).channels =
      Function.update sm.channels channel (channelWithout sm client channel) := by
  obtain ⟨h1, _, _, _, _, _⟩ := unsubscribeIndices_fields sm client channel
  rw [Unsubscribe_eq]
  by_cases hp : hasPrefix channel ChannelPrefixPresence = true
  · rw [if_pos hp, handlePresenceUnsubscribe_channels, h1]
  · rw [if_neg hp, h1]

theorem Unsubscribe_clients :
    (Unsubscribe sm client channel).clients =
      Function.update sm.clients client
        ((sm.clients client).map (fun chans => chans.erase channel)) := by
  obtain ⟨h1, _⟩ := unsubscribeIndices_clients sm client channel
  rw [Unsubscribe_eq]
  by_cases hp : hasPrefix channel ChannelPrefixPresence = true
  · rw [if_pos hp, handlePresenceUnsubscribe_clients, h1]
  · rw [if_neg hp, h1]

@[simp] theorem Unsubscribe_webhook : (Unsubscribe sm client channel).webhook = sm.webhook := by
  obtain ⟨_, h2⟩ := unsubscribeIndices_clients sm client channel
  rw [Unsubscribe_eq]
  by_cases hp : hasPrefix channel ChannelPrefixPresence = true
  · rw [if_pos hp, handlePresenceUnsubscribe_webhook, h2]
  · rw [if_neg hp, h2]

theorem Unsubscribe_clientToUser :
    (Unsubscribe sm client channel).clientToUser =
      if hasPrefix channel ChannelPrefixPresence then
        Function.update sm.clientToUser channel
          ((sm.clientToUser channel).map (fun clientMap => clientMap.erase client))
      else sm.clientToUser := by
  obtain ⟨_, _, h3, _, _, _⟩ := unsubscribeIndices_fields sm client channel
  rw [Unsubscribe_eq]
  split_ifs
  · rw [handlePresenceUnsubscribe_clientToUser, h3]
  · exact h3

theorem leaving_unsubscribeIndices (c : Client) (ch : String) :
    leaving (unsubscribeIndices sm client channel) c ch = leaving sm c ch := by
  obtain ⟨_, _, h3, _, _, _⟩ := unsubscribeIndices_fields sm client channel
  unfold leaving
  rw [h3]

theorem Unsubscribe_presence :
    (Unsubscribe sm client channel).presence =
      if hasPrefix channel ChannelPrefixPresence then
        match leaving sm client channel with
        | some userID =>
          Function.update sm.presence channel
            ((sm.presence channel).map (fun roster => roster.erase userID))
        | none => sm.presence
      else sm.presence := by
  obtain ⟨_, h2, _, _, _, _⟩ := unsubscribeIndices_fields sm client channel
  rw [Unsubscribe_eq]
  split_ifs
  · rw [handlePresenceUnsubscribe_presence, leaving_unsubscribeIndices, h2]
  · exact h2

theorem Unsubscribe_posted :
    (Unsubscribe sm client channel).posted =
      sm.posted ++
        (if vacates sm client channel then notified sm "channel_vacated" channel else []) := by
  obtain ⟨_, _, _, _, _, h6⟩ := unsubscribeIndices_fields sm client channel
  rw [Unsubscribe_eq]
  by_cases hp : hasPrefix channel ChannelPrefixPresence = true
  · rw [if_pos hp, handlePresenceUnsubscribe_posted, h6]
  · rw [if_neg hp, h6]

theorem Unsubscribe_sent (d : Client) :
    (Unsubscribe sm client channel).sent d = sm.sent d ++ unsubscribeFrames sm client channel d := by
  obtain ⟨h1, _, _, h4, _, _⟩ := unsubscribeIndices_fields sm client channel
  rw [Unsubscribe_eq]
  unfold unsubscribeFrames
  by_cases hp : hasPrefix channel ChannelPrefixPresence = true
  · rw [if_pos hp, if_pos hp, handlePresenceUnsubscribe_sent, leaving_unsubscribeIndices, h4, h1]
    cases leaving sm client channel <;> simp
  · rw [if_neg hp, if_neg hp, h4]; simp

theorem Unsubscribe_subscriptions :
    (Unsubscribe sm client channel).subscriptions = sm.subscriptions := by
  obtain ⟨_, _, _, _, h5, _⟩ := unsubscribeIndices_fields sm client channel
  rw [Unsubscribe_eq]
  split_ifs
  · rw [← h5]
    generalize unsubscribeIndices sm client channel = t
    unfold handlePresenceUnsubscribe NewPreparedMessage
    dsimp only
    repeat' split
    all_goals rfl
  · exact h5

end Fields

/-! ## Membership after each operation -/

theorem inChannel_Subscribe (sm : SubscriptionManager) (c : Client) (ch userData : String)
    (c1 : Client) (ch1 : String) :
    inChannel (Subscribe sm c ch userData) ch1 c1 ↔ (ch1 = ch ∧ c1 = c) ∨ inChannel sm ch1 c1 := by
  unfold inChannel
  rw [Subscribe_channels]
  by_cases h : ch1 = ch
  · subst h; simp
  · simp [Function.update_noteq h, h]

theorem hasChannel_Subscribe (sm : SubscriptionManager) (c : Client) (ch userData : String)
    (c1 : Client) (ch1 : String) :
    hasChannel (Subscribe sm c ch userData) c1 ch1 ↔ (ch1 = ch ∧ c1 = c) ∨ hasChannel sm c1 ch1 := by
  unfold hasChannel
  rw [Subscribe_clients]
  by_cases h : c1 = c
  · subst h; simp
  · simp [Function.update_noteq h, h]

theorem mem_channelWithout (sm : SubscriptionManager) (c : Client) (ch : String) (c1 : Client) :
    c1 ∈ (channelWithout sm c ch).getD ∅ ↔ c1 ∈ (sm.channels ch).getD ∅ ∧ c1 ≠ c := by
  unfold channelWithout
  cases hc : sm.channels ch with
  | none => simp
  | some S =>
    simp only [Option.some_bind, Option.getD_some]
    split_ifs with h0
    · rw [Finset.card_eq_zero] at h0
      have : c1 ∉ S.erase c := by rw [h0]; exact Finset.not_mem_empty _
      rw [Finset.mem_erase] at this
      simp only [Option.getD_none, Finset.not_mem_empty, false_iff]
      tauto
    · simp only [Option.getD_some, Finset.mem_erase]
      tauto

theorem inChannel_Unsubscribe (sm : SubscriptionManager) (c : Client) (ch : String)
    (c1 : Client) (ch1 : String) :
    inChannel (Unsubscribe sm c ch) ch1 c1 ↔ inChannel sm ch1 c1 ∧ ¬(ch1 = ch ∧ c1 = c) := by
  unfold inChannel
  rw [Unsubscribe_channels]
  by_cases h : ch1 = ch
  · subst h
    rw [Function.update_same, mem_channelWithout]
    simp
  · simp [Function.update_noteq h, h]

theorem hasChannel_Unsubscribe (sm : SubscriptionManager) (c : Client) (ch : String)
    (c1 : Client) (ch1 : String) :
    hasChannel (Unsubscribe sm c ch) c1 ch1 ↔ hasChannel sm c1 ch1 ∧ ¬(ch1 = ch ∧ c1 = c) := by
  unfold hasChannel
  rw [Unsubscribe_clients]
  by_cases h : c1 = c
  · subst h
    rw [Function.update_same]
    cases hk : sm.clients c1 with
    | none => simp
    | some chans => simp [Finset.mem_erase]; tauto
  · simp [Function.update_noteq h, h]

/-! ## The invariant of reachable states -/

theorem WellFormed_new (webhook : Option WebhookManager) :
    WellFormed (NewSubscriptionManager webhook) := by
  constructor <;> simp [NewSubscriptionManager, inChannel, hasChannel]


theorem WellFormed_Subscribe {sm : SubscriptionManager} (h : WellFormed sm) (c : Client)
    (ch userData : String) : WellFormed (Subscribe sm c ch userData) := by
  constructor
  · intro ch1 S hS
    rw [Subscribe_channels] at hS
    by_cases e : ch1 = ch
    · subst e
      rw [Function.update_same] at hS
      cases hS
      exact Finset.insert_nonempty _ _
    · rw [Function.update_noteq e] at hS
      exact h.nonempty ch1 S hS
  · intro c1 ch1
    rw [inChannel_Subscribe, hasChannel_Subscribe, h.mirror]
  · intro ch1 m c1 hm hc1
    rw [inChannel_Subscribe]
    cases hj : joining ch userData with
    | none =>
      rw [Subscribe_clientToUser_of_none _ _ _ _ hj] at hm
      have := h.mapped ch1 m c1 hm hc1
      exact ⟨this.1, Or.inr this.2⟩
    | some member =>
      rw [Subscribe_clientToUser_of_some _ _ _ _ hj] at hm
      by_cases e : ch1 = ch
      · subst e
        rw [Function.update_same] at hm
        cases hm
        refine ⟨joining_presence hj, ?_⟩
        rw [Finmap.mem_insert] at hc1
        rcases hc1 with hc1 | hc1
        · exact Or.inl ⟨rfl, hc1⟩
        · right
          split_ifs at hc1 with hn
          · exact absurd hc1 (Finmap.not_mem_empty)
          · cases hcu : sm.clientToUser ch1 with
            | none => rw [hcu] at hc1; exact absurd hc1 (Finmap.not_mem_empty)
            | some m0 =>
              rw [hcu] at hc1
              exact (h.mapped ch1 m0 c1 hcu hc1).2
      · rw [Function.update_noteq e] at hm
        have := h.mapped ch1 m c1 hm hc1
        exact ⟨this.1, Or.inr this.2⟩
  · intro ch1
    cases hj : joining ch userData with
    | none =>
      rw [Subscribe_clientToUser_of_none _ _ _ _ hj, Subscribe_presence_of_none _ _ _ _ hj]
      exact h.paired ch1
    | some member =>
      rw [Subscribe_clientToUser_of_some _ _ _ _ hj, Subscribe_presence_of_some _ _ _ _ hj]
      by_cases e : ch1 = ch
      · subst e; simp
      · simp only [Function.update_noteq e]
        exact h.paired ch1
  · intro ch1 m c1 u hm hl
    cases hj : joining ch userData with
    | none =>
      rw [Subscribe_clientToUser_of_none _ _ _ _ hj] at hm
      rw [Subscribe_presence_of_none _ _ _ _ hj]
      exact h.listed ch1 m c1 u hm hl
    | some member =>
      rw [Subscribe_clientToUser_of_some _ _ _ _ hj] at hm
      rw [Subscribe_presence_of_some _ _ _ _ hj]
      by_cases e : ch1 = ch
      · subst e
        rw [Function.update_same] at hm
        cases hm
        refine ⟨_, Function.update_same _ _ _, ?_⟩
        rw [Finmap.mem_insert]
        by_cases ec : c1 = c
        · subst ec
          rw [Finmap.lookup_insert] at hl
          cases hl
          exact Or.inl rfl
        · rw [Finmap.lookup_insert_of_ne _ ec] at hl
          right
          split_ifs at hl with hn
          · rw [Finmap.lookup_empty] at hl; cases hl
          · cases hcu : sm.clientToUser ch1 with
            | none => rw [hcu] at hl; simp at hl
            | some m0 =>
              rw [hcu] at hl
              obtain ⟨r, hr, hu⟩ := h.listed ch1 m0 c1 u hcu hl
              rw [hr]
              exact hu
      · rw [Function.update_noteq e] at hm
        simp only [Function.update_noteq e]
        exact h.listed ch1 m c1 u hm hl

theorem leaving_eq_some {sm : SubscriptionManager} {c : Client} {ch u : String}
    (h : leaving sm c ch = some u) :
    ∃ m, sm.clientToUser ch = some m ∧ m.lookup c = some u ∧
      ∀ c1, c1 ≠ c → m.lookup c1 ≠ some u := by
  unfold leaving at h
  cases hm : sm.clientToUser ch with
  | none => rw [hm] at h; cases h
  | some m =>
    rw [hm, Option.some_bind] at h
    unfold lastOf at h
    cases hl : m.lookup c with
    | none => simp only [hl] at h; cases h
    | some u0 =>
      simp only [hl] at h
      split_ifs at h with hs
      cases h
      refine ⟨m, rfl, hl, ?_⟩
      intro c1 hne hl1
      apply hs
      refine ⟨c1, ?_, ?_⟩
      · rw [Finmap.mem_keys, Finmap.mem_erase]
        exact ⟨hne, Finmap.mem_of_lookup_eq_some hl1⟩
      · rw [Finmap.lookup_erase_ne hne]
        exact hl1

theorem WellFormed_Unsubscribe {sm : SubscriptionManager} (h : WellFormed sm) (c : Client)
    (ch : String) : WellFormed (Unsubscribe sm c ch) := by
  constructor
  · intro ch1 S hS
    rw [Unsubscribe_channels] at hS
    by_cases e : ch1 = ch
    · subst e
      rw [Function.update_same] at hS
      unfold channelWithout at hS
      cases hc : sm.channels ch1 with
      | none => rw [hc] at hS; cases hS
      | some S0 =>
        rw [hc, Option.some_bind] at hS
        split_ifs at hS with h0
        cases hS
        exact Finset.card_pos.1 (Nat.pos_of_ne_zero h0)
    · rw [Function.update_noteq e] at hS
      exact h.nonempty ch1 S hS
  · intro c1 ch1
    rw [inChannel_Unsubscribe, hasChannel_Unsubscribe, h.mirror]
  · intro ch1 m c1 hm hc1
    rw [inChannel_Unsubscribe]
    rw [Unsubscribe_clientToUser] at hm
    by_cases hp : hasPrefix ch ChannelPrefixPresence = true
    · rw [if_pos hp] at hm
      by_cases e : ch1 = ch
      · subst e
        rw [Function.update_same] at hm
        cases hcu : sm.clientToUser ch1 with
        | none => rw [hcu] at hm; cases hm
        | some m0 =>
          rw [hcu] at hm
          cases hm
          rw [Finmap.mem_erase] at hc1
          have := h.mapped ch1 m0 c1 hcu hc1.2
          exact ⟨this.1, this.2, fun hh => hc1.1 hh.2⟩
      · rw [Function.update_noteq e] at hm
        have := h.mapped ch1 m c1 hm hc1
        exact ⟨this.1, this.2, fun hh => e hh.1⟩
    · rw [if_neg hp] at hm
      have := h.mapped ch1 m c1 hm hc1
      refine ⟨this.1, this.2, fun hh => hp ?_⟩
      rw [← hh.1]
      exact this.1
  · intro ch1
    rw [Unsubscribe_clientToUser, Unsubscribe_presence]
    by_cases hp : hasPrefix ch ChannelPrefixPresence = true
    · rw [if_pos hp, if_pos hp]
      have hpair := h.paired ch1
      by_cases e : ch1 = ch
      · subst e
        cases hlv : leaving sm c ch1 <;> simp [hpair]
      · cases hlv : leaving sm c ch <;> simp [Function.update_noteq e, hpair]
    · rw [if_neg hp, if_neg hp]
      exact h.paired ch1
  · intro ch1 m c1 u hm hl
    rw [Unsubscribe_clientToUser] at hm
    rw [Unsubscribe_presence]
    by_cases hp : hasPrefix ch ChannelPrefixPresence = true
    · rw [if_pos hp] at hm
      rw [if_pos hp]
      by_cases e : ch1 = ch
      · subst e
        rw [Function.update_same] at hm
        cases hcu : sm.clientToUser ch1 with
        | none => rw [hcu] at hm; cases hm
        | some m0 =>
          rw [hcu] at hm
          cases hm
          have hne : c1 ≠ c := by
            intro hh
            rw [hh, Finmap.lookup_erase] at hl
            cases hl
          rw [Finmap.lookup_erase_ne hne] at hl
          obtain ⟨r, hr, hu⟩ := h.listed ch1 m0 c1 u hcu hl
          cases hlv : leaving sm c ch1 with
          | none => exact ⟨r, hr, hu⟩
          | some u0 =>
            obtain ⟨m1, hm1, _, hlast⟩ := leaving_eq_some hlv
            rw [hcu] at hm1
            cases hm1
            refine ⟨r.erase u0, by simp [hr], ?_⟩
            rw [Finmap.mem_erase]
            refine ⟨?_, hu⟩
            intro hh
            rw [hh] at hl
            exact hlast c1 hne hl
      · rw [Function.update_noteq e] at hm
        obtain ⟨r, hr, hu⟩ := h.listed ch1 m c1 u hm hl
        cases hlv : leaving sm c ch with
        | none => exact ⟨r, hr, hu⟩
        | some u0 => exact ⟨r, by simp [Function.update_noteq e, hr], hu⟩
    · rw [if_neg hp] at hm
      rw [if_neg hp]
      exact h.listed ch1 m c1 u hm hl

/-! ## Frames and notifications of `Subscribe` -/

theorem recordPresence_sent (sm : SubscriptionManager) (c : Client) (ch : String)
    (member : Member) (d : Client) :
    (recordPresence sm c ch member).sent d =
      sm.sent d ++
        ((if d = c then
            [succeededPayload ch (((sm.presence ch).getD ∅).insert member.UserID member)]
          else []) ++
        (if member.UserID ∉ (sm.presence ch).getD ∅ ∧ d ∈ (sm.channels ch).getD ∅ ∧ d ≠ c then
            [addedPayload ch member]
          else [])) := by
  unfold recordPresence NewPreparedMessage succeededPayload addedPayload
  dsimp only
  by_cases hn : (sm.presence ch).isNone = true
  · have hn1 : sm.presence ch = none := Option.isNone_iff_eq_none.1 hn
    simp only [hn, if_true, Function.update_same, Option.getD_some, hn1, Option.getD_none]
    by_cases e : d = c
    · subst e; simp [Send, sendEach, Finmap.not_mem_empty]
    · simp only [Send, sendEach, e, Function.update_noteq e]
      split_ifs with h1 h2 <;> first | exact absurd h1 Finmap.not_mem_empty | simp_all
  · simp only [hn, if_false]
    by_cases hu : member.UserID ∈ (sm.presence ch).getD ∅
    · by_cases e : d = c
      · subst e; simp [Send, sendEach, hu]
      · simp [Send, sendEach, e, hu, Function.update_noteq e]
    · by_cases e : d = c
      · subst e; simp [Send, sendEach, hu]
      · simp only [Send, sendEach, e, hu, Function.update_noteq e]
        split_ifs <;> simp_all

theorem Subscribe_eq (sm : SubscriptionManager) (c : Client) (ch userData : String) :
    Subscribe sm c ch userData =
      if hasPrefix ch ChannelPrefixPresence then
        handlePresenceSubscribe (subscribeIndices sm c ch) c ch userData
      else
        Send (subscribeIndices sm c ch) c
          (Payload.bytes
            { event := EventSubscriptionSucceeded, channel := ch, data := Data.text "{}" }) := rfl

theorem subscribeIndices_fields (sm : SubscriptionManager) (c : Client) (ch : String) :
    (subscribeIndices sm c ch).channels =
        Function.update sm.channels ch (some (insert c ((sm.channels ch).getD ∅))) ∧
      (subscribeIndices sm c ch).presence = sm.presence ∧
      (subscribeIndices sm c ch).clientToUser = sm.clientToUser ∧
      (subscribeIndices sm c ch).sent = sm.sent ∧
      (subscribeIndices sm c ch).subscriptions = sm.subscriptions + 1 ∧
      (subscribeIndices sm c ch).posted =
        sm.posted ++ (if (sm.channels ch).isNone then notified sm "channel_occupied" ch else []) := by
  unfold subscribeIndices
  dsimp only
  split_ifs <;> simp [notify_posted, notified]

theorem Subscribe_sent (sm : SubscriptionManager) (c : Client) (ch userData : String) (d : Client) :
    (Subscribe sm c ch userData).sent d = sm.sent d ++ subscribeFrames sm c ch userData d := by
  obtain ⟨h1, h2, _, h4, _, _⟩ := subscribeIndices_fields sm c ch
  rw [Subscribe_eq]
  unfold subscribeFrames handlePresenceSubscribe
  by_cases hp : hasPrefix ch ChannelPrefixPresence = true
  · rw [if_pos hp, if_pos hp]
    cases hm : presenceMember userData with
    | none => dsimp only; rw [h4]; simp
    | some member =>
      dsimp only
      rw [recordPresence_sent, h1, h2, h4, Function.update_same, Option.getD_some]
      by_cases e : d = c
      · subst e; simp
      · simp [e]
  · rw [if_neg hp, if_neg hp]
    by_cases e : d = c
    · subst e; simp [Send, h4]
    · simp [Send, Function.update_noteq e, e, h4]

theorem Subscribe_posted (sm : SubscriptionManager) (c : Client) (ch userData : String) :
    (Subscribe sm c ch userData).posted =
      sm.posted ++ (if (sm.channels ch).isNone then notified sm "channel_occupied" ch else []) := by
  obtain ⟨_, _, _, _, _, h6⟩ := subscribeIndices_fields sm c ch
  rw [Subscribe_eq]
  by_cases hp : hasPrefix ch ChannelPrefixPresence = true
  · rw [if_pos hp, handlePresenceSubscribe_posted, h6]
  · rw [if_neg hp, Send_posted, h6]

theorem unsubscribeAll_nil (sm : SubscriptionManager) (c : Client) :
    unsubscribeAll sm c [] = sm := rfl

theorem unsubscribeAll_cons (sm : SubscriptionManager) (c : Client) (ch : String)
    (order : List String) :
    unsubscribeAll sm c (ch :: order) = unsubscribeAll (Unsubscribe sm c ch) c order := rfl

theorem RemoveClient_of_some {sm : SubscriptionManager} {c : Client} {chans : Finset String}
    (h : sm.clients c = some chans) (order : List String) :
    RemoveClient sm c order =
      { unsubscribeAll sm c order with
        clients := Function.update (unsubscribeAll sm c order).clients c none } := by
  unfold RemoveClient unsubscribeAll
  simp only [h]

theorem RemoveClient_of_none {sm : SubscriptionManager} {c : Client}
    (h : sm.clients c = none) (order : List String) : RemoveClient sm c order = sm := by
  unfold RemoveClient
  simp only [h]

theorem WellFormed_unsubscribeAll (c : Client) (order : List String) :
    ∀ {sm : SubscriptionManager}, WellFormed sm → WellFormed (unsubscribeAll sm c order) := by
  induction order with
  | nil => intro sm h; exact h
  | cons ch rest ih =>
    intro sm h
    rw [unsubscribeAll_cons]
    exact ih (WellFormed_Unsubscribe h c ch)

theorem inChannel_unsubscribeAll (c : Client) (order : List String) (c1 : Client) (ch1 : String) :
    ∀ sm : SubscriptionManager,
      inChannel (unsubscribeAll sm c order) ch1 c1 ↔
        inChannel sm ch1 c1 ∧ ¬(c1 = c ∧ ch1 ∈ order) := by
  induction order with
  | nil => intro sm; simp [unsubscribeAll_nil]
  | cons ch rest ih =>
    intro sm
    rw [unsubscribeAll_cons, ih, inChannel_Unsubscribe, List.mem_cons]
    tauto

theorem hasChannel_unsubscribeAll (c : Client) (order : List String) (c1 : Client) (ch1 : String) :
    ∀ sm : SubscriptionManager,
      hasChannel (unsubscribeAll sm c order) c1 ch1 ↔
        hasChannel sm c1 ch1 ∧ ¬(c1 = c ∧ ch1 ∈ order) := by
  induction order with
  | nil => intro sm; simp [unsubscribeAll_nil]
  | cons ch rest ih =>
    intro sm
    rw [unsubscribeAll_cons, ih, hasChannel_Unsubscribe, List.mem_cons]
    tauto

theorem WellFormed_RemoveClient {sm : SubscriptionManager} (h : WellFormed sm) (c : Client)
    (order : List String) (ho : IsOrderOf sm c order) : WellFormed (RemoveClient sm c order) := by
  cases hk : sm.clients c with
  | none => rw [RemoveClient_of_none hk]; exact h
  | some chans =>
    rw [RemoveClient_of_some hk]
    have hw := WellFormed_unsubscribeAll c order h
    constructor
    · exact hw.nonempty
    · intro c1 ch1
      have hin : inChannel
          { unsubscribeAll sm c order with
            clients := Function.update (unsubscribeAll sm c order).clients c none } ch1 c1 ↔
          inChannel (unsubscribeAll sm c order) ch1 c1 := Iff.rfl
      rw [hin]
      by_cases e : c1 = c
      · subst e
        have hno : ¬ hasChannel (unsubscribeAll sm c1 order) c1 ch1 := by
          rw [hasChannel_unsubscribeAll]
          intro hh
          exact hh.2 ⟨rfl, (ho.2 ch1).2 hh.1⟩
        rw [hw.mirror]
        simp only [hasChannel, Function.update_same, Option.getD_none, Finset.not_mem_empty,
          iff_false]
        exact hno
      · rw [hw.mirror]
        simp only [hasChannel, Function.update_noteq e]
    · exact hw.mapped
    · exact hw.paired
    · exact hw.listed

theorem WellFormed_of_fields {sm sm1 : SubscriptionManager} (h : WellFormed sm)
    (e1 : sm1.channels = sm.channels) (e2 : sm1.clients = sm.clients)
    (e3 : sm1.presence = sm.presence) (e4 : sm1.clientToUser = sm.clientToUser) :
    WellFormed sm1 := by
  constructor
  · intro ch S hS
    rw [e1] at hS
    exact h.nonempty ch S hS
  · intro c ch
    have := h.mirror c ch
    unfold inChannel hasChannel at this ⊢
    rw [e1, e2]
    exact this
  · intro ch m c hm hc
    rw [e4] at hm
    have := h.mapped ch m c hm hc
    unfold inChannel at this ⊢
    rw [e1]
    exact this
  · intro ch
    rw [e3, e4]
    exact h.paired ch
  · intro ch m c u hm hu
    rw [e4] at hm
    rw [e3]
    exact h.listed ch m c u hm hu

theorem BroadcastToChannel_fields (sm : SubscriptionManager) (msg : BroadcastMessage) :
    (BroadcastToChannel sm msg).channels = sm.channels ∧
      (BroadcastToChannel sm msg).clients = sm.clients ∧
      (BroadcastToChannel sm msg).presence = sm.presence ∧
      (BroadcastToChannel sm msg).clientToUser = sm.clientToUser := by
  unfold BroadcastToChannel
  dsimp only
  split_ifs
  · exact ⟨rfl, rfl, rfl, rfl⟩
  · split <;> simp

theorem BroadcastToOthers_fields (sm : SubscriptionManager) (sender : Client)
    (channel event data : String) :
    (BroadcastToOthers sm sender channel event data).channels = sm.channels ∧
      (BroadcastToOthers sm sender channel event data).clients = sm.clients ∧
      (BroadcastToOthers sm sender channel event data).presence = sm.presence ∧
      (BroadcastToOthers sm sender channel event data).clientToUser = sm.clientToUser := by
  unfold BroadcastToOthers
  split_ifs
  · exact ⟨rfl, rfl, rfl, rfl⟩
  · split
    · exact ⟨rfl, rfl, rfl, rfl⟩
    · split_ifs
      all_goals exact ⟨rfl, rfl, rfl, rfl⟩

theorem Reachable.wellFormed {sm : SubscriptionManager} (h : Reachable sm) : WellFormed sm := by
  induction h with
  | new webhook => exact WellFormed_new webhook
  | subscribe c ch userData _ ih => exact WellFormed_Subscribe ih c ch userData
  | unsubscribe c ch _ ih => exact WellFormed_Unsubscribe ih c ch
  | removeClient c order _ ho ih => exact WellFormed_RemoveClient ih c order ho
  | broadcastToChannel msg _ ih =>
    obtain ⟨e1, e2, e3, e4⟩ := BroadcastToChannel_fields _ msg
    exact WellFormed_of_fields ih e1 e2 e3 e4
  | broadcastToOthers sender channel event data _ ih =>
    obtain ⟨e1, e2, e3, e4⟩ := BroadcastToOthers_fields _ sender channel event data
    exact WellFormed_of_fields ih e1 e2 e3 e4

theorem roomOfTwo_reachable : Reachable roomOfTwo :=
  Reachable.subscribe _ _ _ (Reachable.subscribe _ _ _ (Reachable.new _))

theorem rejoined_reachable : Reachable rejoined :=
  Reachable.subscribe _ _ _ (Reachable.subscribe _ _ _ (Reachable.new _))

/-! ## C1: the two subscription indices mirror each other -/

/-- C1. In every state reachable from the empty manager by `Subscribe`,
`Unsubscribe` and `RemoveClient` (and by the two broadcasts, which change no
index), for every client `c` and channel `ch`, `channels[ch]` contains `c` if
and only if `clients[c]` contains `ch`. -/
theorem C1_indices_mirror (sm : SubscriptionManager) (h : Reachable sm) (c : Client) (ch : String) :
    c ∈ (sm.channels ch).getD ∅ ↔ ch ∈ (sm.clients c).getD ∅ :=
  h.wellFormed.mirror c ch

theorem C1_indices_mirror_witness :
    Reachable roomOfTwo ∧
      (clientTwo ∈ (roomOfTwo.channels "presence-room").getD ∅ ↔
        "presence-room" ∈ (roomOfTwo.clients clientTwo).getD ∅) :=
  ⟨roomOfTwo_reachable, C1_indices_mirror roomOfTwo roomOfTwo_reachable clientTwo "presence-room"⟩

/-! ## C2: roster and client-to-user map -/

/-- C2 (evaluation at the failing input). A client that subscribes to
`presence-room` as user A and then again, to the same channel, as user B
leaves A on the roster although no client of the channel maps to A any
more: `Subscribe` overwrites the client's mapping and keeps the old roster
entry. -/
theorem C2_stale_member_after_resubscribe :
    Reachable rejoined ∧
      "A" ∈ (rejoined.presence "presence-room").getD ∅ ∧
      ¬ ∃ c, ((rejoined.clientToUser "presence-room").getD ∅).lookup c = some "A" := by
  refine ⟨rejoined_reachable, by decide, ?_⟩
  rintro ⟨c, hc⟩
  have hk : c ∈ ((rejoined.clientToUser "presence-room").getD ∅).keys :=
    Finmap.mem_keys.2 (Finmap.mem_of_lookup_eq_some hc)
  have hall : ∀ c ∈ ((rejoined.clientToUser "presence-room").getD ∅).keys,
      ((rejoined.clientToUser "presence-room").getD ∅).lookup c ≠ some "A" := by decide
  exact hall c hk hc

/-- The half of C2 that every reachable state satisfies: the user a client
of a presence channel is mapped to is a key of the roster of that channel. -/
theorem mapped_user_on_roster (sm : SubscriptionManager) (h : Reachable sm) (ch : String)
    (c : Client) (u : String)
    (hu : ((sm.clientToUser ch).getD ∅).lookup c = some u) :
    u ∈ (sm.presence ch).getD ∅ := by
  cases hm : sm.clientToUser ch with
  | none => rw [hm] at hu; simp at hu
  | some m =>
    rw [hm] at hu
    obtain ⟨r, hr, hmem⟩ := h.wellFormed.listed ch m c u hm hu
    rw [hr]
    exact hmem

/-! ## C3: subscribe followed by unsubscribe -/

theorem notified_of_webhook {sm sm1 : SubscriptionManager} (h : sm1.webhook = sm.webhook)
    (e ch : String) : notified sm1 e ch = notified sm e ch := by
  unfold notified
  rw [h]

theorem channels_eq_none_iff {sm : SubscriptionManager} (h : WellFormed sm) (ch : String) :
    sm.channels ch = none ↔ (sm.channels ch).getD ∅ = ∅ := by
  cases hc : sm.channels ch with
  | none => simp
  | some S =>
    have := h.nonempty ch S hc
    simp [Finset.nonempty_iff_ne_empty.1 this]

theorem channelWithout_Subscribe {sm : SubscriptionManager} (h : WellFormed sm) (c : Client)
    (ch userData : String) (hc : c ∉ (sm.channels ch).getD ∅) :
    channelWithout (Subscribe sm c ch userData) c ch = sm.channels ch := by
  unfold channelWithout
  rw [Subscribe_channels, Function.update_same, Option.some_bind, Finset.erase_insert hc]
  cases hs : sm.channels ch with
  | none => simp
  | some S =>
    have := h.nonempty ch S hs
    simp [Finset.nonempty_iff_ne_empty.1 this]

theorem vacates_Subscribe (sm : SubscriptionManager) (c : Client)
    (ch userData : String) (hc : c ∉ (sm.channels ch).getD ∅) :
    vacates (Subscribe sm c ch userData) c ch = decide ((sm.channels ch).getD ∅ = ∅) := by
  unfold vacates
  rw [Subscribe_channels, Function.update_same]
  simp only [Finset.erase_insert hc, Finset.card_eq_zero]

/-- C3 (counterexample). On a new manager, `Subscribe(c, "public-test")`
followed by `Unsubscribe(c, "public-test")` does not give back the `clients`
index as it was: `c` was not a key of `clients` and now is one, mapped to an
empty set. -/
theorem C3_clients_not_restored :
    Reachable (NewSubscriptionManager none) ∧
      clientOne ∉ ((NewSubscriptionManager none).channels "public-test").getD ∅ ∧
      (Unsubscribe (Subscribe (NewSubscriptionManager none) clientOne "public-test" "")
          clientOne "public-test").clients ≠ (NewSubscriptionManager none).clients := by
  refine ⟨Reachable.new none, by decide, ?_⟩
  intro h
  have h1 := congrFun h clientOne
  revert h1
  decide

/-- C3 (amended). In a reachable state where `c` is not subscribed to `ch`,
`Subscribe(c, ch, auth)` followed by `Unsubscribe(c, ch)` gives back
`channels` exactly and gives back the set of channels that `clients` records
for every client (an absent key read as the empty set); `clients` itself is
given back exactly when `c` already was a key of it; and the notifications
started are `channel_occupied` then `channel_vacated` for `ch` if `ch` had no
subscriber (each only if a webhook with a URL is configured), none
otherwise. -/
theorem C3_subscribe_unsubscribe (sm : SubscriptionManager) (h : Reachable sm) (c : Client)
    (ch auth : String) (hc : c ∉ (sm.channels ch).getD ∅) :
    (Unsubscribe (Subscribe sm c ch auth) c ch).channels = sm.channels ∧
      (∀ c1, ((Unsubscribe (Subscribe sm c ch auth) c ch).clients c1).getD ∅ =
        (sm.clients c1).getD ∅) ∧
      ((sm.clients c).isSome →
        (Unsubscribe (Subscribe sm c ch auth) c ch).clients = sm.clients) ∧
      (Unsubscribe (Subscribe sm c ch auth) c ch).posted =
        sm.posted ++
          (if (sm.channels ch).getD ∅ = ∅ then
            notified sm "channel_occupied" ch ++ notified sm "channel_vacated" ch
          else []) := by
  have hw := h.wellFormed
  have hk : ch ∉ (sm.clients c).getD ∅ := fun hh => hc ((hw.mirror c ch).2 hh)
  have hclients : (Unsubscribe (Subscribe sm c ch auth) c ch).clients =
      Function.update sm.clients c (some ((sm.clients c).getD ∅)) := by
    rw [Unsubscribe_clients, Subscribe_clients, Function.update_same, Function.update_idem,
      Option.map_some', Finset.erase_insert hk]
  refine ⟨?_, ?_, ?_, ?_⟩
  · rw [Unsubscribe_channels, channelWithout_Subscribe hw c ch auth hc, Subscribe_channels,
      Function.update_idem, Function.update_eq_self]
  · intro c1
    rw [hclients]
    by_cases e : c1 = c
    · subst e; rw [Function.update_same, Option.getD_some]
    · rw [Function.update_noteq e]
  · intro hs
    rw [hclients]
    obtain ⟨K, hK⟩ := Option.isSome_iff_exists.1 hs
    rw [hK, Option.getD_some, ← hK, Function.update_eq_self]
  · rw [Unsubscribe_posted, Subscribe_posted, vacates_Subscribe sm c ch auth hc,
      notified_of_webhook (Subscribe_webhook sm c ch auth)]
    by_cases he : (sm.channels ch).getD ∅ = ∅
    · have hn : sm.channels ch = none := (channels_eq_none_iff hw ch).2 he
      simp [he, hn]
    · have hn : ¬ sm.channels ch = none := fun hh => he ((channels_eq_none_iff hw ch).1 hh)
      have hn1 : (sm.channels ch).isNone = false := by
        cases hs : sm.channels ch with
        | none => exact absurd hs hn
        | some S => rfl
      simp [he, hn1]

theorem C3_subscribe_unsubscribe_witness :
    Reachable roomOfTwo ∧ clientOne ∉ (roomOfTwo.channels "private-chat").getD ∅ ∧
      (Unsubscribe (Subscribe roomOfTwo clientOne "private-chat" "") clientOne
          "private-chat").channels = roomOfTwo.channels ∧
      (Unsubscribe (Subscribe roomOfTwo clientOne "private-chat" "") clientOne
          "private-chat").posted =
        roomOfTwo.posted ++
          (if (roomOfTwo.channels "private-chat").getD ∅ = ∅ then
            notified roomOfTwo "channel_occupied" "private-chat" ++
              notified roomOfTwo "channel_vacated" "private-chat"
          else []) :=
  have hc : clientOne ∉ (roomOfTwo.channels "private-chat").getD ∅ := by decide
  have h := C3_subscribe_unsubscribe roomOfTwo roomOfTwo_reachable clientOne "private-chat" "" hc
  ⟨roomOfTwo_reachable, hc, h.1, h.2.2.2⟩

/-! ## C4: member_added on presence subscribe -/

/-- C4. In every state of the manager, on a presence channel `ch`, with an
auth payload that yields the member `member` (user id `u = member.UserID`),
`Subscribe(c, ch, auth)` hands to `Send` of each client `d` other than `c`
exactly one `member_added` frame carrying `u` and its user info when `d` is a
subscriber of `ch` and `u` was not a key of `presence[ch]`, and nothing
otherwise; `c` itself receives only its `subscription_succeeded` frame. -/
theorem C4_member_added (sm : SubscriptionManager) (c : Client) (ch auth : String)
    (member : Member)
    (hp : hasPrefix ch ChannelPrefixPresence = true)
    (hm : presenceMember auth = some member) (d : Client) :
    (Subscribe sm c ch auth).sent d =
      sm.sent d ++
        (if d = c then
          [succeededPayload ch (((sm.presence ch).getD ∅).insert member.UserID member)]
        else if member.UserID ∉ (sm.presence ch).getD ∅ ∧ d ∈ (sm.channels ch).getD ∅ then
          [Payload.prepared
            { event := EventMemberAdded, channel := ch
              data := Data.memberAdded member.UserID member.UserInfo }]
        else []) := by
  rw [Subscribe_sent]
  unfold subscribeFrames addedPayload
  rw [if_pos hp]
  simp only [hm]
  by_cases e : d = c
  · simp [e]
  · simp [e]

theorem roomOfOne_reachable : Reachable roomOfOne :=
  Reachable.subscribe _ _ _ (Reachable.new _)

theorem C4_member_added_witness :
    hasPrefix "presence-room" ChannelPrefixPresence = true ∧
      presenceMember authB = some { UserID := "B", UserInfo := "null" } ∧
      (Subscribe roomOfOne clientTwo "presence-room" authB).sent clientOne =
        roomOfOne.sent clientOne ++
          [Payload.prepared
            { event := EventMemberAdded, channel := "presence-room"
              data := Data.memberAdded "B" "null" }] :=
  have hp : hasPrefix "presence-room" ChannelPrefixPresence = true := by decide
  have hm : presenceMember authB = some { UserID := "B", UserInfo := "null" } := by decide
  ⟨hp, hm,
    (C4_member_added roomOfOne clientTwo "presence-room" authB
      { UserID := "B", UserInfo := "null" } hp hm clientOne).trans (by decide)⟩

/-! ## C5: member_removed on presence unsubscribe -/

theorem leaving_of_last {sm : SubscriptionManager} {c : Client} {ch u : String}
    {m : Finmap (fun _ : Client => String)}
    (hm : sm.clientToUser ch = some m) (hu : m.lookup c = some u)
    (hlast : ∀ c1, c1 ≠ c → m.lookup c1 ≠ some u) : leaving sm c ch = some u := by
  unfold leaving lastOf
  rw [hm, Option.some_bind]
  simp only [hu]
  rw [if_neg]
  rintro ⟨c1, hk, hl⟩
  rw [Finmap.mem_keys, Finmap.mem_erase] at hk
  rw [Finmap.lookup_erase_ne hk.1] at hl
  exact hlast c1 hk.1 hl

theorem leaving_of_still {sm : SubscriptionManager} {c : Client} {ch u : String}
    {m : Finmap (fun _ : Client => String)}
    (hm : sm.clientToUser ch = some m) (hu : m.lookup c = some u)
    (hstill : ∃ c1, c1 ≠ c ∧ m.lookup c1 = some u) : leaving sm c ch = none := by
  unfold leaving lastOf
  rw [hm, Option.some_bind]
  simp only [hu]
  rw [if_pos]
  obtain ⟨c1, hne, hl⟩ := hstill
  refine ⟨c1, ?_, ?_⟩
  · rw [Finmap.mem_keys, Finmap.mem_erase]
    exact ⟨hne, Finmap.mem_of_lookup_eq_some hl⟩
  · rw [Finmap.lookup_erase_ne hne]
    exact hl

/-- C5. On a presence channel `ch` where `clientToUser[ch]` maps `c` to `u`,
`Unsubscribe(c, ch)` removes the mapping of `c`.  If no other client of the
map is mapped to `u`, it removes `u` from `presence[ch]` (and nothing else)
and hands exactly one `member_removed` frame carrying `u` to `Send` of each
remaining subscriber of `ch` and of nobody else; if another client is mapped
to `u`, the roster is unchanged and no frame is sent. -/
theorem C5_member_removed (sm : SubscriptionManager) (c : Client) (ch u : String)
    (m : Finmap (fun _ : Client => String))
    (hp : hasPrefix ch ChannelPrefixPresence = true)
    (hm : sm.clientToUser ch = some m) (hu : m.lookup c = some u) :
    (Unsubscribe sm c ch).clientToUser ch = some (m.erase c) ∧
      ((∀ c1, c1 ≠ c → m.lookup c1 ≠ some u) →
        (Unsubscribe sm c ch).presence =
            Function.update sm.presence ch ((sm.presence ch).map (fun r => r.erase u)) ∧
          u ∉ ((Unsubscribe sm c ch).presence ch).getD ∅ ∧
          ∀ d, (Unsubscribe sm c ch).sent d =
            sm.sent d ++
              (if d ∈ ((Unsubscribe sm c ch).channels ch).getD ∅ then
                [Payload.prepared
                  { event := EventMemberRemoved, channel := ch, data := Data.memberRemoved u }]
              else [])) ∧
      ((∃ c1, c1 ≠ c ∧ m.lookup c1 = some u) →
        (Unsubscribe sm c ch).presence = sm.presence ∧ (Unsubscribe sm c ch).sent = sm.sent) := by
  refine ⟨?_, ?_, ?_⟩
  · rw [Unsubscribe_clientToUser, if_pos hp, Function.update_same, hm, Option.map_some']
  · intro hlast
    have hl := leaving_of_last hm hu hlast
    have hpres : (Unsubscribe sm c ch).presence =
        Function.update sm.presence ch ((sm.presence ch).map (fun r => r.erase u)) := by
      rw [Unsubscribe_presence, if_pos hp]
      simp only [hl]
    refine ⟨hpres, ?_, ?_⟩
    · rw [hpres, Function.update_same]
      cases hr : sm.presence ch with
      | none => simp [Finmap.not_mem_empty]
      | some r => simp [Finmap.mem_erase]
    · intro d
      rw [Unsubscribe_sent, Unsubscribe_channels, Function.update_same]
      unfold unsubscribeFrames removedPayload
      rw [if_pos hp]
      simp only [hl]
  · intro hstill
    have hl := leaving_of_still hm hu hstill
    refine ⟨?_, ?_⟩
    · rw [Unsubscribe_presence, if_pos hp]
      simp only [hl]
    · funext d
      rw [Unsubscribe_sent]
      unfold unsubscribeFrames
      rw [if_pos hp]
      simp only [hl, List.append_nil]

theorem C5_member_removed_witness :
    hasPrefix "presence-room" ChannelPrefixPresence = true ∧
      roomOfTwo.clientToUser "presence-room" =
        some ((roomOfTwo.clientToUser "presence-room").getD ∅) ∧
      ((roomOfTwo.clientToUser "presence-room").getD ∅).lookup clientTwo = some "B" ∧
      "B" ∉ ((Unsubscribe roomOfTwo clientTwo "presence-room").presence "presence-room").getD ∅ ∧
      (Unsubscribe roomOfTwo clientTwo "presence-room").sent clientOne =
        roomOfTwo.sent clientOne ++
          [Payload.prepared
            { event := EventMemberRemoved, channel := "presence-room"
              data := Data.memberRemoved "B" }] :=
  have hp : hasPrefix "presence-room" ChannelPrefixPresence = true := by decide
  have hm : roomOfTwo.clientToUser "presence-room" =
      some ((roomOfTwo.clientToUser "presence-room").getD ∅) := by decide
  have hu : ((roomOfTwo.clientToUser "presence-room").getD ∅).lookup clientTwo = some "B" := by
    decide
  have hall : ∀ x ∈ ((roomOfTwo.clientToUser "presence-room").getD ∅).keys, x ≠ clientTwo →
      ((roomOfTwo.clientToUser "presence-room").getD ∅).lookup x ≠ some "B" := by decide
  have hlast : ∀ c1, c1 ≠ clientTwo →
      ((roomOfTwo.clientToUser "presence-room").getD ∅).lookup c1 ≠ some "B" :=
    fun c1 hne hl => hall c1 (Finmap.mem_keys.2 (Finmap.mem_of_lookup_eq_some hl)) hne hl
  have h := (C5_member_removed roomOfTwo clientTwo "presence-room" "B" _ hp hm hu).2.1 hlast
  ⟨hp, hm, hu, h.2.1, (h.2.2 clientOne).trans (by decide)⟩

/-! ## C6: rejected presence payloads -/

theorem presenceMember_of_rejected {auth : String} (h : Rejected auth) :
    presenceMember auth = none := by
  unfold presenceMember
  rcases h with h | ⟨r, hr, h⟩
  · simp only [h]
  · simp only [hr]
    rcases h with h | h | ⟨d, hd, h⟩
    · rw [if_pos h]
    · split_ifs
      · rfl
      · simp only [h]
    · split_ifs
      · rfl
      · simp only [hd]
        have ht : stringsTrim d.UserID "\"" = "" ∨ stringsTrim d.UserID "\"" = "null" := by
          rcases h with h | h | h <;> rw [h] <;> decide
        rw [if_pos ht]

/-- C6. On a presence channel `ch`, `Subscribe(c, ch, auth)` with a rejected
auth payload leaves `presence` and `clientToUser` unchanged and hands no frame
to `Send` of any client, while `c` is recorded in `channels[ch]` and `ch` in
`clients[c]`. -/
theorem C6_rejected_payload (sm : SubscriptionManager) (c : Client) (ch auth : String)
    (hp : hasPrefix ch ChannelPrefixPresence = true) (hr : Rejected auth) :
    (Subscribe sm c ch auth).presence = sm.presence ∧
      (Subscribe sm c ch auth).clientToUser = sm.clientToUser ∧
      (Subscribe sm c ch auth).sent = sm.sent ∧
      c ∈ ((Subscribe sm c ch auth).channels ch).getD ∅ ∧
      ch ∈ ((Subscribe sm c ch auth).clients c).getD ∅ := by
  have hm := presenceMember_of_rejected hr
  have hj : joining ch auth = none := by
    unfold joining
    rw [if_pos hp, hm]
  refine ⟨Subscribe_presence_of_none sm c ch auth hj, Subscribe_clientToUser_of_none sm c ch auth hj,
    ?_, ?_, ?_⟩
  · funext d
    rw [Subscribe_sent]
    unfold subscribeFrames
    rw [if_pos hp]
    simp only [hm, List.append_nil]
  · exact (inChannel_Subscribe sm c ch auth c ch).2 (Or.inl ⟨rfl, rfl⟩)
  · exact (hasChannel_Subscribe sm c ch auth c ch).2 (Or.inl ⟨rfl, rfl⟩)

theorem C6_rejected_payload_witness :
    hasPrefix "presence-room" ChannelPrefixPresence = true ∧ Rejected badAuth ∧
      (Subscribe roomOfOne clientTwo "presence-room" badAuth).presence = roomOfOne.presence ∧
      (Subscribe roomOfOne clientTwo "presence-room" badAuth).sent = roomOfOne.sent ∧
      clientTwo ∈ ((Subscribe roomOfOne clientTwo "presence-room" badAuth).channels
        "presence-room").getD ∅ :=
  have hp : hasPrefix "presence-room" ChannelPrefixPresence = true := by decide
  have hr : Rejected badAuth :=
    Or.inr ⟨{ Auth := "sig", ChannelData := "" }, by decide, Or.inl rfl⟩
  have h := C6_rejected_payload roomOfOne clientTwo "presence-room" badAuth hp hr
  ⟨hp, hr, h.1, h.2.2.1, h.2.2.2.1⟩

/-! ## C7: accepted presence payloads -/

/-- C7 (counterexample). The channel data `{"user_id":"null"}` parses and its
`user_id`, the string `"null"`, is present, is not the JSON `null` and is not
the empty string; yet `Subscribe` records nothing in `presence` and sends the
client no frame: the quotes are trimmed before the comparison with `null`. -/
theorem C7_string_null_rejected :
    hasPrefix "presence-room" ChannelPrefixPresence = true ∧
      (∃ r d, unmarshalPresenceAuthResponse authNull = some r ∧
        unmarshalPresenceChannelData r.ChannelData = some d ∧
        d.UserID ≠ "" ∧ d.UserID ≠ "null" ∧ d.UserID ≠ "\"\"") ∧
      (Subscribe (NewSubscriptionManager none) clientOne "presence-room" authNull).presence
          "presence-room" = none ∧
      (Subscribe (NewSubscriptionManager none) clientOne "presence-room" authNull).sent
          clientOne = [] := by
  refine ⟨by decide, ?_, by decide, by decide⟩
  exact ⟨{ Auth := "", ChannelData := "\x7b\"user_id\":\"null\"\x7d" },
    { UserID := "\"null\"", UserInfo := "" }, by decide, by decide, by decide, by decide,
    by decide⟩

theorem presenceMember_of_accepted {auth : String} {r : PresenceAuthResponse}
    {d : PresenceChannelData}
    (hr : unmarshalPresenceAuthResponse auth = some r)
    (hd : unmarshalPresenceChannelData r.ChannelData = some d)
    (h1 : stringsTrim d.UserID "\"" ≠ "") (h2 : stringsTrim d.UserID "\"" ≠ "null") :
    presenceMember auth =
      some { UserID := stringsTrim d.UserID "\""
             UserInfo := if d.UserInfo.data.length = 0 then "null" else d.UserInfo } := by
  have hempty : unmarshalPresenceChannelData "" = none := by decide
  have hne : r.ChannelData ≠ "" := by
    intro he
    rw [he, hempty] at hd
    cases hd
  unfold presenceMember
  simp only [hr, if_neg hne, hd]
  rw [if_neg]
  rintro (h | h)
  · exact h1 h
  · exact h2 h

/-- C7 (amended). In every state of the manager, on a presence channel `ch`,
with an auth payload whose `channel_data` parses and whose `user_id` text,
once its leading and trailing double quotes are trimmed, is neither empty nor
`null`, `Subscribe(c, ch, auth)` records the trimmed text `u` as a key of
`presence[ch]`, maps `c` to `u` in `clientToUser[ch]`, and hands to `Send` of
`c` exactly one frame, the `subscription_succeeded` frame whose presence ids
are the keys of `presence[ch]` after the insertion (`u` among them). -/
theorem C7_presence_recorded (sm : SubscriptionManager) (c : Client) (ch auth : String)
    (r : PresenceAuthResponse) (d : PresenceChannelData)
    (hp : hasPrefix ch ChannelPrefixPresence = true)
    (hr : unmarshalPresenceAuthResponse auth = some r)
    (hd : unmarshalPresenceChannelData r.ChannelData = some d)
    (h1 : stringsTrim d.UserID "\"" ≠ "") (h2 : stringsTrim d.UserID "\"" ≠ "null") :
    stringsTrim d.UserID "\"" ∈ ((Subscribe sm c ch auth).presence ch).getD ∅ ∧
      (((Subscribe sm c ch auth).clientToUser ch).getD ∅).lookup c =
        some (stringsTrim d.UserID "\"") ∧
      (Subscribe sm c ch auth).sent c =
        sm.sent c ++
          [Payload.bytes
            { event := EventSubscriptionSucceeded, channel := ch
              data :=
                Data.presence (((Subscribe sm c ch auth).presence ch).getD ∅).keys
                  (((Subscribe sm c ch auth).presence ch).getD ∅) }] ∧
      stringsTrim d.UserID "\"" ∈ (((Subscribe sm c ch auth).presence ch).getD ∅).keys := by
  have hm := presenceMember_of_accepted hr hd h1 h2
  have hj : joining ch auth = some
      { UserID := stringsTrim d.UserID "\""
        UserInfo := if d.UserInfo.data.length = 0 then "null" else d.UserInfo } := by
    unfold joining
    rw [if_pos hp, hm]
  have hpres := Subscribe_presence_of_some sm c ch auth hj
  have hmem : stringsTrim d.UserID "\"" ∈ ((Subscribe sm c ch auth).presence ch).getD ∅ := by
    rw [hpres, Function.update_same, Option.getD_some, Finmap.mem_insert]
    exact Or.inl rfl
  refine ⟨hmem, ?_, ?_, Finmap.mem_keys.2 hmem⟩
  · rw [Subscribe_clientToUser_of_some sm c ch auth hj, Function.update_same, Option.getD_some,
      Finmap.lookup_insert]
  · rw [Subscribe_sent, hpres, Function.update_same, Option.getD_some]
    unfold subscribeFrames succeededPayload
    rw [if_pos hp]
    simp only [hm]
    simp

theorem C7_presence_recorded_witness :
    hasPrefix "presence-room" ChannelPrefixPresence = true ∧
      unmarshalPresenceAuthResponse authB =
        some { Auth := "", ChannelData := "\x7b\"user_id\":\"B\"\x7d" } ∧
      unmarshalPresenceChannelData "\x7b\"user_id\":\"B\"\x7d" =
        some { UserID := "\"B\"", UserInfo := "" } ∧
      "B" ∈ ((Subscribe roomOfOne clientTwo "presence-room" authB).presence
        "presence-room").getD ∅ ∧
      (((Subscribe roomOfOne clientTwo "presence-room" authB).presence
        "presence-room").getD ∅).keys = {"A", "B"} :=
  have hp : hasPrefix "presence-room" ChannelPrefixPresence = true := by decide
  have hr : unmarshalPresenceAuthResponse authB =
      some { Auth := "", ChannelData := "\x7b\"user_id\":\"B\"\x7d" } := by decide
  have hd : unmarshalPresenceChannelData
      ({ Auth := "", ChannelData := "\x7b\"user_id\":\"B\"\x7d" } : PresenceAuthResponse).ChannelData =
      some { UserID := "\"B\"", UserInfo := "" } := by decide
  have h := C7_presence_recorded roomOfOne clientTwo "presence-room" authB
    _ _ hp hr hd (by decide) (by decide)
  ⟨hp, hr, hd, h.1, by decide⟩

/-! ## C8: unsubscribing a client that is not subscribed -/

theorem leaving_of_not_inChannel {sm : SubscriptionManager} (h : WellFormed sm) {c : Client}
    {ch : String} (hc : c ∉ (sm.channels ch).getD ∅) : leaving sm c ch = none := by
  unfold leaving lastOf
  cases hm : sm.clientToUser ch with
  | none => rfl
  | some m =>
    rw [Option.some_bind]
    have hnot : c ∉ m := fun hh => hc (h.mapped ch m c hm hh).2
    rw [Finmap.lookup_eq_none.2 hnot]

theorem not_mapped_of_not_inChannel {sm : SubscriptionManager} (h : WellFormed sm) {c : Client}
    {ch : String} (hc : c ∉ (sm.channels ch).getD ∅) :
    (sm.clientToUser ch).map (fun m => m.erase c) = sm.clientToUser ch := by
  cases hm : sm.clientToUser ch with
  | none => rfl
  | some m =>
    have hnot : c ∉ m := fun hh => hc (h.mapped ch m c hm hh).2
    rw [Option.map_some', finmap_erase_of_not_mem c m hnot]

theorem channelWithout_of_not_inChannel {sm : SubscriptionManager} (h : WellFormed sm)
    {c : Client} {ch : String} (hc : c ∉ (sm.channels ch).getD ∅) :
    channelWithout sm c ch = sm.channels ch ∧ vacates sm c ch = false := by
  unfold channelWithout vacates
  cases hs : sm.channels ch with
  | none => exact ⟨rfl, rfl⟩
  | some S =>
    rw [hs, Option.getD_some] at hc
    have hne : S.card ≠ 0 := Finset.card_ne_zero.2 (h.nonempty ch S hs)
    simp only [Option.some_bind, Finset.erase_eq_of_not_mem hc, if_neg hne]
    exact ⟨trivial, decide_eq_false hne⟩

/-- C8. In a reachable state where `c` is not subscribed to `ch` (presence
channel or not), `Unsubscribe(c, ch)` changes nothing at all: the four
indices are unchanged, no frame is handed to `Send` of any client and no
webhook notification is started. -/
theorem C8_unsubscribe_not_subscribed (sm : SubscriptionManager) (h : Reachable sm) (c : Client)
    (ch : String) (hc : c ∉ (sm.channels ch).getD ∅) : Unsubscribe sm c ch = sm := by
  have hw := h.wellFormed
  have hk : ch ∉ (sm.clients c).getD ∅ := fun hh => hc ((hw.mirror c ch).2 hh)
  have hl := leaving_of_not_inChannel hw hc
  obtain ⟨hcw, hv⟩ := channelWithout_of_not_inChannel hw hc
  apply SubscriptionManager.ext
  · rw [Unsubscribe_channels, hcw, Function.update_eq_self]
  · rw [Unsubscribe_clients]
    cases hs : sm.clients c with
    | none => rw [Option.map_none', ← hs, Function.update_eq_self]
    | some K =>
      rw [hs, Option.getD_some] at hk
      rw [Option.map_some', Finset.erase_eq_of_not_mem hk, ← hs, Function.update_eq_self]
  · rw [Unsubscribe_presence]
    simp only [hl, ite_self]
  · rw [Unsubscribe_clientToUser, not_mapped_of_not_inChannel hw hc, Function.update_eq_self,
      ite_self]
  · exact Unsubscribe_webhook sm c ch
  · exact Unsubscribe_subscriptions sm c ch
  · funext d
    rw [Unsubscribe_sent]
    unfold unsubscribeFrames
    simp only [hl, ite_self, List.append_nil]
  · rw [Unsubscribe_posted, hv]
    simp

theorem C8_unsubscribe_not_subscribed_witness :
    Reachable roomOfOne ∧ clientTwo ∉ (roomOfOne.channels "presence-room").getD ∅ ∧
      Unsubscribe roomOfOne clientTwo "presence-room" = roomOfOne :=
  have hc : clientTwo ∉ (roomOfOne.channels "presence-room").getD ∅ := by decide
  ⟨roomOfOne_reachable, hc,
    C8_unsubscribe_not_subscribed roomOfOne roomOfOne_reachable clientTwo "presence-room" hc⟩

/-! ## C9: `RemoveClient` against one `Unsubscribe` per channel -/

theorem Unsubscribe_presence_update (sm : SubscriptionManager) (c : Client) (ch : String) :
    (Unsubscribe sm c ch).presence = Function.update sm.presence ch (rosterWithout sm c ch) := by
  rw [Unsubscribe_presence]
  unfold rosterWithout
  split_ifs
  · cases leaving sm c ch with
    | none => simp
    | some u => rfl
  · simp

theorem Unsubscribe_clientToUser_update (sm : SubscriptionManager) (c : Client) (ch : String) :
    (Unsubscribe sm c ch).clientToUser =
      Function.update sm.clientToUser ch (clientMapWithout sm c ch) := by
  rw [Unsubscribe_clientToUser]
  unfold clientMapWithout
  split_ifs
  · rfl
  · simp

theorem Similar.refl (a : SubscriptionManager) : Similar a a :=
  ⟨rfl, rfl, rfl, rfl, rfl, rfl, List.Perm.refl _, fun _ => List.Perm.refl _⟩

theorem Similar.trans {a b c : SubscriptionManager} (h1 : Similar a b) (h2 : Similar b c) :
    Similar a c :=
  ⟨h1.channels.trans h2.channels, h1.clients.trans h2.clients, h1.presence.trans h2.presence,
    h1.clientToUser.trans h2.clientToUser, h1.webhook.trans h2.webhook,
    h1.subscriptions.trans h2.subscriptions, h1.posted.trans h2.posted,
    fun d => (h1.sent d).trans (h2.sent d)⟩

/-- What `Unsubscribe sm c ch` computes depends on the indices of `sm` only. -/
theorem unsubscribe_local {a b : SubscriptionManager} (c : Client) (ch : String)
    (h1 : a.channels ch = b.channels ch) (h3 : a.presence ch = b.presence ch)
    (h4 : a.clientToUser ch = b.clientToUser ch) (h5 : a.webhook = b.webhook) :
    channelWithout a c ch = channelWithout b c ch ∧
      rosterWithout a c ch = rosterWithout b c ch ∧
      clientMapWithout a c ch = clientMapWithout b c ch ∧
      (if vacates a c ch then notified a "channel_vacated" ch else []) =
        (if vacates b c ch then notified b "channel_vacated" ch else []) ∧
      ∀ d, unsubscribeFrames a c ch d = unsubscribeFrames b c ch d := by
  have hl : leaving a c ch = leaving b c ch := by unfold leaving; rw [h4]
  have hcw : channelWithout a c ch = channelWithout b c ch := by unfold channelWithout; rw [h1]
  refine ⟨hcw, ?_, ?_, ?_, ?_⟩
  · unfold rosterWithout; rw [hl, h3]
  · unfold clientMapWithout; rw [h4]
  · unfold vacates notified; rw [h1, h5]
  · intro d
    unfold unsubscribeFrames
    rw [hl, hcw]

theorem Similar_Unsubscribe {a b : SubscriptionManager} (h : Similar a b) (c : Client)
    (ch : String) : Similar (Unsubscribe a c ch) (Unsubscribe b c ch) := by
  obtain ⟨e1, e2, e3, e4, e5⟩ :=
    unsubscribe_local c ch (congrFun h.channels ch) (congrFun h.presence ch)
      (congrFun h.clientToUser ch) h.webhook
  constructor
  · rw [Unsubscribe_channels, Unsubscribe_channels, h.channels, e1]
  · rw [Unsubscribe_clients, Unsubscribe_clients, h.clients]
  · rw [Unsubscribe_presence_update, Unsubscribe_presence_update, h.presence, e2]
  · rw [Unsubscribe_clientToUser_update, Unsubscribe_clientToUser_update, h.clientToUser, e3]
  · rw [Unsubscribe_webhook, Unsubscribe_webhook, h.webhook]
  · rw [Unsubscribe_subscriptions, Unsubscribe_subscriptions, h.subscriptions]
  · rw [Unsubscribe_posted, Unsubscribe_posted, e4]
    exact h.posted.append_right _
  · intro d
    rw [Unsubscribe_sent, Unsubscribe_sent, e5 d]
    exact (h.sent d).append_right _

theorem Similar_unsubscribeAll (c : Client) (order : List String) :
    ∀ {a b : SubscriptionManager}, Similar a b →
      Similar (unsubscribeAll a c order) (unsubscribeAll b c order) := by
  induction order with
  | nil => intro a b h; exact h
  | cons ch rest ih =>
    intro a b h
    rw [unsubscribeAll_cons, unsubscribeAll_cons]
    exact ih (Similar_Unsubscribe h c ch)

/-- Unsubscribing one client from two different channels gives the same
state in either order, up to the order of the log entries. -/
theorem Unsubscribe_comm (sm : SubscriptionManager) (c : Client) {x y : String} (hxy : x ≠ y) :
    Similar (Unsubscribe (Unsubscribe sm c y) c x) (Unsubscribe (Unsubscribe sm c x) c y) := by
  have hyx : y ≠ x := fun e => hxy e.symm
  obtain ⟨a1, a2, a3, a4, a5⟩ :=
    unsubscribe_local (a := Unsubscribe sm c y) (b := sm) c x
      (by rw [Unsubscribe_channels, Function.update_noteq hxy])
      (by rw [Unsubscribe_presence_update, Function.update_noteq hxy])
      (by rw [Unsubscribe_clientToUser_update, Function.update_noteq hxy])
      (Unsubscribe_webhook sm c y)
  obtain ⟨b1, b2, b3, b4, b5⟩ :=
    unsubscribe_local (a := Unsubscribe sm c x) (b := sm) c y
      (by rw [Unsubscribe_channels, Function.update_noteq hyx])
      (by rw [Unsubscribe_presence_update, Function.update_noteq hyx])
      (by rw [Unsubscribe_clientToUser_update, Function.update_noteq hyx])
      (Unsubscribe_webhook sm c x)
  constructor
  · rw [Unsubscribe_channels, Unsubscribe_channels, Unsubscribe_channels, Unsubscribe_channels,
      a1, b1, Function.update_comm hxy]
  · rw [Unsubscribe_clients, Unsubscribe_clients, Unsubscribe_clients, Unsubscribe_clients,
      Function.update_same, Function.update_same, Function.update_idem, Function.update_idem]
    cases sm.clients c with
    | none => rfl
    | some K => simp only [Option.map_some', Finset.erase_right_comm]
  · rw [Unsubscribe_presence_update, Unsubscribe_presence_update, Unsubscribe_presence_update,
      Unsubscribe_presence_update, a2, b2, Function.update_comm hxy]
  · rw [Unsubscribe_clientToUser_update, Unsubscribe_clientToUser_update,
      Unsubscribe_clientToUser_update, Unsubscribe_clientToUser_update, a3, b3,
      Function.update_comm hxy]
  · rw [Unsubscribe_webhook, Unsubscribe_webhook, Unsubscribe_webhook, Unsubscribe_webhook]
  · rw [Unsubscribe_subscriptions, Unsubscribe_subscriptions, Unsubscribe_subscriptions,
      Unsubscribe_subscriptions]
  · rw [Unsubscribe_posted, Unsubscribe_posted, Unsubscribe_posted, Unsubscribe_posted, a4, b4,
      List.append_assoc, List.append_assoc]
    exact List.Perm.append_left _ List.perm_append_comm
  · intro d
    rw [Unsubscribe_sent, Unsubscribe_sent, Unsubscribe_sent, Unsubscribe_sent, a5 d, b5 d,
      List.append_assoc, List.append_assoc]
    exact List.Perm.append_left _ List.perm_append_comm

theorem unsubscribeAll_perm (c : Client) {o1 o2 : List String} (hp : o1.Perm o2) :
    ∀ {a b : SubscriptionManager}, Similar a b →
      Similar (unsubscribeAll a c o1) (unsubscribeAll b c o2) := by
  induction hp with
  | nil => intro a b h; exact h
  | cons x _ ih =>
    intro a b h
    rw [unsubscribeAll_cons, unsubscribeAll_cons]
    exact ih (Similar_Unsubscribe h c x)
  | swap x y l =>
    intro a b h
    rw [unsubscribeAll_cons, unsubscribeAll_cons, unsubscribeAll_cons, unsubscribeAll_cons]
    apply Similar_unsubscribeAll
    have h1 : Similar (Unsubscribe (Unsubscribe a c y) c x) (Unsubscribe (Unsubscribe b c y) c x) :=
      Similar_Unsubscribe (Similar_Unsubscribe h c y) c x
    by_cases e : x = y
    · subst e; exact h1
    · exact h1.trans (Unsubscribe_comm b c e)
  | trans _ _ ih1 ih2 =>
    intro a b h
    exact (ih1 (Similar.refl a)).trans (ih2 h)

theorem IsOrderOf.perm {sm : SubscriptionManager} {c : Client} {o1 o2 : List String}
    (h1 : IsOrderOf sm c o1) (h2 : IsOrderOf sm c o2) : o1.Perm o2 :=
  (List.perm_ext_iff_of_nodup h1.1 h2.1).2 (fun ch => (h1.2 ch).trans (h2.2 ch).symm)

/-- C9. In a reachable state, `RemoveClient(c)`, whatever order its loop
takes over `clients[c]`, gives the same `channels`, `presence` and
`clientToUser` as `Unsubscribe(c, ch)` called once for each channel `ch` of
`clients[c]` in any order `steps`; the webhook notifications started and
the frames handed to `Send` of each client are the same up to their order
(and identical when the two orders agree); afterwards `c` is in no channel
set and in no `clientToUser` map. -/
theorem C9_remove_client (sm : SubscriptionManager) (h : Reachable sm) (c : Client)
    (order steps : List String) (ho : IsOrderOf sm c order) (hs : IsOrderOf sm c steps) :
    (RemoveClient sm c order).channels =
        (steps.foldl (fun acc ch => Unsubscribe acc c ch) sm).channels ∧
      (RemoveClient sm c order).presence =
        (steps.foldl (fun acc ch => Unsubscribe acc c ch) sm).presence ∧
      (RemoveClient sm c order).clientToUser =
        (steps.foldl (fun acc ch => Unsubscribe acc c ch) sm).clientToUser ∧
      (RemoveClient sm c order).posted.Perm
        (steps.foldl (fun acc ch => Unsubscribe acc c ch) sm).posted ∧
      (∀ d, ((RemoveClient sm c order).sent d).Perm
        ((steps.foldl (fun acc ch => Unsubscribe acc c ch) sm).sent d)) ∧
      (RemoveClient sm c order).posted =
        (order.foldl (fun acc ch => Unsubscribe acc c ch) sm).posted ∧
      (RemoveClient sm c order).sent =
        (order.foldl (fun acc ch => Unsubscribe acc c ch) sm).sent ∧
      (∀ ch, c ∉ ((RemoveClient sm c order).channels ch).getD ∅) ∧
      (∀ ch, c ∉ ((RemoveClient sm c order).clientToUser ch).getD ∅) := by
  have hsim : Similar (unsubscribeAll sm c order) (unsubscribeAll sm c steps) :=
    unsubscribeAll_perm c (ho.perm hs) (Similar.refl sm)
  have hw := WellFormed_RemoveClient h.wellFormed c order ho
  have hfields : (RemoveClient sm c order).channels = (unsubscribeAll sm c order).channels ∧
      (RemoveClient sm c order).presence = (unsubscribeAll sm c order).presence ∧
      (RemoveClient sm c order).clientToUser = (unsubscribeAll sm c order).clientToUser ∧
      (RemoveClient sm c order).posted = (unsubscribeAll sm c order).posted ∧
      (RemoveClient sm c order).sent = (unsubscribeAll sm c order).sent := by
    cases hk : sm.clients c with
    | none =>
      have hnil : order = [] := by
        apply List.eq_nil_iff_forall_not_mem.2
        intro ch hch
        have := (ho.2 ch).1 hch
        rw [hk] at this
        exact absurd this (Finset.not_mem_empty _)
      rw [RemoveClient_of_none hk, hnil, unsubscribeAll_nil]
      exact ⟨rfl, rfl, rfl, rfl, rfl⟩
    | some K =>
      rw [RemoveClient_of_some hk]
      exact ⟨rfl, rfl, rfl, rfl, rfl⟩
  obtain ⟨f1, f2, f3, f4, f5⟩ := hfields
  have hout : ∀ ch, c ∉ ((RemoveClient sm c order).channels ch).getD ∅ := by
    intro ch hin
    rw [f1] at hin
    have h1 := (inChannel_unsubscribeAll c order c ch sm).1 hin
    have h2 : ch ∈ (sm.clients c).getD ∅ := (h.wellFormed.mirror c ch).1 h1.1
    exact h1.2 ⟨rfl, (ho.2 ch).2 h2⟩
  refine ⟨f1.trans hsim.channels, f2.trans hsim.presence, f3.trans hsim.clientToUser, ?_, ?_,
    f4, f5, hout, ?_⟩
  · rw [f4]; exact hsim.posted
  · intro d
    rw [f5]; exact hsim.sent d
  · intro ch hin
    cases hm : (RemoveClient sm c order).clientToUser ch with
    | none => rw [hm] at hin; exact absurd hin Finmap.not_mem_empty
    | some m =>
      rw [hm] at hin
      exact hout ch (hw.mapped ch m c hm hin).2

theorem twoChannels_reachable : Reachable twoChannels :=
  Reachable.subscribe _ _ _ roomOfTwo_reachable

theorem twoChannels_order (order : List String) (hn : order.Nodup)
    (hm : ∀ ch, ch ∈ order ↔ ch = "presence-room" ∨ ch = "private-chat") :
    IsOrderOf twoChannels clientOne order := by
  refine ⟨hn, fun ch => ?_⟩
  have hk : (twoChannels.clients clientOne).getD ∅ = {"presence-room", "private-chat"} := by
    decide
  rw [hk, hm]
  simp

theorem C9_remove_client_witness :
    Reachable twoChannels ∧
      IsOrderOf twoChannels clientOne ["presence-room", "private-chat"] ∧
      IsOrderOf twoChannels clientOne ["private-chat", "presence-room"] ∧
      (RemoveClient twoChannels clientOne ["presence-room", "private-chat"]).channels =
        (["private-chat", "presence-room"].foldl
          (fun acc ch => Unsubscribe acc clientOne ch) twoChannels).channels ∧
      (RemoveClient twoChannels clientOne ["presence-room", "private-chat"]).posted.Perm
        (["private-chat", "presence-room"].foldl
          (fun acc ch => Unsubscribe acc clientOne ch) twoChannels).posted :=
  have ho : IsOrderOf twoChannels clientOne ["presence-room", "private-chat"] :=
    twoChannels_order _ (by decide) (by intro ch; simp)
  have hs : IsOrderOf twoChannels clientOne ["private-chat", "presence-room"] :=
    twoChannels_order _ (by decide) (by intro ch; simp [or_comm])
  have h := C9_remove_client twoChannels twoChannels_reachable clientOne _ _ ho hs
  ⟨twoChannels_reachable, ho, hs, h.1, h.2.2.2.1⟩

/-! ## C10: channel_occupied and channel_vacated -/

/-- C10 (counterexample). With the notifier of a configuration without
`webhook_url`, `Subscribe` to a channel that had no subscriber starts no
`channel_occupied` notification. -/
theorem C10_no_notification_without_url :
    Reachable (NewSubscriptionManager (some noHook)) ∧
      ((NewSubscriptionManager (some noHook)).channels "public-test").getD ∅ = ∅ ∧
      (Subscribe (NewSubscriptionManager (some noHook)) clientOne "public-test" "").posted = [] :=
  ⟨Reachable.new _, by decide, by decide⟩

theorem notified_of_url {sm : SubscriptionManager} {wm : WebhookManager}
    (hw : sm.webhook = some wm) (hu : wm.url ≠ "") (e ch : String) :
    notified sm e ch = [{ Name := e, Channel := ch }] := by
  unfold notified
  rw [hw]
  simp only [if_neg hu]

theorem vacates_iff {sm : SubscriptionManager} (h : WellFormed sm) (c : Client) (ch : String) :
    vacates sm c ch = true ↔
      c ∈ (sm.channels ch).getD ∅ ∧ ((Unsubscribe sm c ch).channels ch).getD ∅ = ∅ := by
  rw [Unsubscribe_channels, Function.update_same]
  unfold vacates channelWithout
  cases hs : sm.channels ch with
  | none => simp
  | some S =>
    have hne := h.nonempty ch S hs
    simp only [Option.some_bind, Option.getD_some, decide_eq_true_eq, Finset.card_eq_zero]
    constructor
    · intro he
      refine ⟨?_, by rw [if_pos he]; rfl⟩
      by_contra hc
      rw [Finset.erase_eq_of_not_mem hc] at he
      exact Finset.nonempty_iff_ne_empty.1 hne he
    · rintro ⟨_, he⟩
      by_contra hne2
      rw [if_neg hne2, Option.getD_some] at he
      exact hne2 he

/-- C10 (amended). In a reachable state of a manager whose webhook notifier
is set and has a URL, `Subscribe(c, ch, auth)` starts a `channel_occupied`
notification for `ch` if and only if `ch` had no subscriber before the call
(and starts no other notification), and `Unsubscribe(c, ch)` starts a
`channel_vacated` notification for `ch` if and only if `c` was a subscriber
of `ch` and `ch` has no subscriber after the call (and starts no other
notification). -/
theorem C10_occupied_vacated (sm : SubscriptionManager) (h : Reachable sm)
    (wm : WebhookManager) (hw : sm.webhook = some wm) (hu : wm.url ≠ "")
    (c : Client) (ch auth : String) :
    (Subscribe sm c ch auth).posted =
        sm.posted ++
          (if (sm.channels ch).getD ∅ = ∅ then [{ Name := "channel_occupied", Channel := ch }]
          else []) ∧
      (Unsubscribe sm c ch).posted =
        sm.posted ++
          (if c ∈ (sm.channels ch).getD ∅ ∧ ((Unsubscribe sm c ch).channels ch).getD ∅ = ∅ then
            [{ Name := "channel_vacated", Channel := ch }]
          else []) := by
  have hwf := h.wellFormed
  constructor
  · rw [Subscribe_posted, notified_of_url hw hu]
    by_cases he : (sm.channels ch).getD ∅ = ∅
    · have hn : sm.channels ch = none := (channels_eq_none_iff hwf ch).2 he
      rw [if_pos he, hn]
      rfl
    · have hn : ¬ sm.channels ch = none := fun hh => he ((channels_eq_none_iff hwf ch).1 hh)
      rw [if_neg he]
      cases hs : sm.channels ch with
      | none => exact absurd hs hn
      | some S => rfl
  · rw [Unsubscribe_posted, notified_of_url hw hu]
    by_cases hv : vacates sm c ch = true
    · rw [if_pos hv, if_pos ((vacates_iff hwf c ch).1 hv)]
    · rw [if_neg hv, if_neg (fun hh => hv ((vacates_iff hwf c ch).2 hh))]

theorem C10_occupied_vacated_witness :
    Reachable roomOfOne ∧ roomOfOne.webhook = some hook ∧ hook.url ≠ "" ∧
      (Subscribe roomOfOne clientTwo "private-chat" "").posted =
        roomOfOne.posted ++ [{ Name := "channel_occupied", Channel := "private-chat" }] ∧
      (Unsubscribe roomOfOne clientOne "presence-room").posted =
        roomOfOne.posted ++ [{ Name := "channel_vacated", Channel := "presence-room" }] :=
  have hw : roomOfOne.webhook = some hook := by decide
  have hu : hook.url ≠ "" := by decide
  have h1 := C10_occupied_vacated roomOfOne roomOfOne_reachable hook hw hu clientTwo
    "private-chat" ""
  have h2 := C10_occupied_vacated roomOfOne roomOfOne_reachable hook hw hu clientOne
    "presence-room" ""
  ⟨roomOfOne_reachable, hw, hu, h1.1.trans (by decide), h2.2.trans (by decide)⟩

/-! ## C11: `BroadcastToChannel` -/

/-- C11. `BroadcastToChannel(m)` hands to `Send` of every client of
`channels[m.Channel]` exactly one frame, carrying event `m.Event`, channel
`m.Channel` and `m.Data` as its data string, hands nothing to any other
client, and leaves the four indices unchanged (in every state, reachable or
not). -/
theorem C11_broadcast_to_channel (sm : SubscriptionManager) (m : BroadcastMessage) :
    (∀ d, (BroadcastToChannel sm m).sent d =
        sm.sent d ++
          (if d ∈ (sm.channels m.Channel).getD ∅ then
            [Payload.prepared
              { event := m.Event, channel := m.Channel, data := Data.text m.Data }]
          else [])) ∧
      (BroadcastToChannel sm m).channels = sm.channels ∧
      (BroadcastToChannel sm m).clients = sm.clients ∧
      (BroadcastToChannel sm m).presence = sm.presence ∧
      (BroadcastToChannel sm m).clientToUser = sm.clientToUser := by
  unfold BroadcastToChannel NewPreparedMessage GetClients broadcastFrame
  dsimp only
  by_cases h0 : ((sm.channels m.Channel).getD ∅).card = 0
  · rw [if_pos h0]
    refine ⟨fun d => ?_, rfl, rfl, rfl, rfl⟩
    rw [Finset.card_eq_zero] at h0
    rw [h0]
    simp
  · rw [if_neg h0]
    refine ⟨fun d => ?_, rfl, rfl, rfl, rfl⟩
    simp only [sendEach]
    split_ifs <;> simp

/-! ## C12: `BroadcastToOthers` -/

/-- C12. In every state of a manager built by `NewSubscriptionManager` and
driven by `Subscribe`, `Unsubscribe`, `RemoveClient`, `BroadcastToChannel` and
`BroadcastToOthers`, a call `BroadcastToOthers(sender, channel, event, data)`
hands nothing to `Send` of anyone unless the channel name starts with
`private-` or `presence-` and the sender is subscribed to the channel; when
both hold it hands exactly one frame (event, channel, data as a string) to
every subscriber of the channel other than the sender, and nothing to the
sender or to anyone else. -/
theorem C12_broadcast_to_others (sm : SubscriptionManager) (h : Reachable sm) (sender : Client)
    (channel event data : String) (d : Client) :
    (BroadcastToOthers sm sender channel event data).sent d =
      sm.sent d ++
        (if (hasPrefix channel ChannelPrefixPrivate = true ∨
              hasPrefix channel ChannelPrefixPresence = true) ∧
            sender ∈ (sm.channels channel).getD ∅ ∧
            d ∈ (sm.channels channel).getD ∅ ∧ d ≠ sender then
          [Payload.prepared { event := event, channel := channel, data := Data.text data }]
        else []) := by
  have hm := h.wellFormed.mirror sender channel
  unfold inChannel hasChannel at hm
  unfold BroadcastToOthers NewPreparedMessage broadcastFrame
  by_cases hp : hasPrefix channel ChannelPrefixPrivate = true ∨
      hasPrefix channel ChannelPrefixPresence = true
  · have hp1 : (!hasPrefix channel ChannelPrefixPrivate &&
        !hasPrefix channel ChannelPrefixPresence) = false := by
      rcases hp with hp | hp <;> simp [hp]
    simp only [hp1, Bool.false_eq_true, if_false, hp, true_and]
    cases hk : sm.clients sender with
    | none =>
      rw [hk] at hm
      have hs : sender ∉ (sm.channels channel).getD ∅ := fun hh => by simpa using hm.1 hh
      simp [hs]
    | some chans =>
      rw [hk, Option.getD_some] at hm
      dsimp only
      by_cases hc : channel ∈ chans
      · have hs : sender ∈ (sm.channels channel).getD ∅ := hm.2 hc
        simp only [hc, not_true_eq_false, if_false, hs, true_and, sendEach, Finset.mem_filter]
        split_ifs <;> simp
      · have hs : sender ∉ (sm.channels channel).getD ∅ := fun hh => hc (hm.1 hh)
        simp [hc, hs]
  · have hp1 : (!hasPrefix channel ChannelPrefixPrivate &&
        !hasPrefix channel ChannelPrefixPresence) = true := by
      push_neg at hp
      simp [hp.1, hp.2]
    simp [hp1, hp]

/-- A client may send a client event to the other member of its room, and
again after that event has been fanned out. -/
theorem C12_broadcast_to_others_witness :
    Reachable (BroadcastToOthers roomOfTwo clientOne "presence-room" "client-typing" "1") ∧
      (BroadcastToOthers
          (BroadcastToOthers roomOfTwo clientOne "presence-room" "client-typing" "1")
          clientOne "presence-room" "client-typing" "2").sent clientTwo =
        roomOfTwo.sent clientTwo ++
          [Payload.prepared
            { event := "client-typing", channel := "presence-room", data := Data.text "1" },
          Payload.prepared
            { event := "client-typing", channel := "presence-room", data := Data.text "2" }] ∧
      (BroadcastToOthers
          (BroadcastToOthers roomOfTwo clientOne "presence-room" "client-typing" "1")
          clientOne "presence-room" "client-typing" "2").sent clientOne =
        roomOfTwo.sent clientOne :=
  ⟨Reachable.broadcastToOthers _ _ _ _ roomOfTwo_reachable,
    (C12_broadcast_to_others _ (Reachable.broadcastToOthers _ _ _ _ roomOfTwo_reachable)
      clientOne "presence-room" "client-typing" "2" clientTwo).trans (by decide),
    (C12_broadcast_to_others _ (Reachable.broadcastToOthers _ _ _ _ roomOfTwo_reachable)
      clientOne "presence-room" "client-typing" "2" clientOne).trans (by decide)⟩

/-! ## C13: routing by FNV-1a -/

theorem Hub.forward_shards (h : Hub) (shard : Option HubShard) (m : ShardMessage) :
    (h.forward shard m).shards = h.shards ∧ (h.forward shard m).numShards = h.numShards ∧
      (h.forward shard m).clients = h.clients ∧ (h.forward shard m).conns = h.conns ∧
      (h.forward shard m).maxConnections = h.maxConnections ∧
      (h.forward shard m).shardMask = h.shardMask := by
  unfold Hub.forward
  cases shard <;> exact ⟨rfl, rfl, rfl, rfl, rfl, rfl⟩

theorem Hub.cleanupLoop_fields (c : Client) (l : List Nat) :
    ∀ h : Hub,
      let r := l.foldl
        (fun (acc : Hub) (i : Nat) =>
          if HasShard (acc.shardMask c) (i : Int) then
            acc.forward acc.shards[i]? (ShardMessage.cleanup c)
          else acc) h
      r.shards = h.shards ∧ r.numShards = h.numShards ∧ r.clients = h.clients ∧
        r.conns = h.conns ∧ r.maxConnections = h.maxConnections ∧ r.shardMask = h.shardMask := by
  induction l with
  | nil => intro h; exact ⟨rfl, rfl, rfl, rfl, rfl, rfl⟩
  | cons i rest ih =>
    intro h
    simp only [List.foldl_cons]
    by_cases hb : HasShard (h.shardMask c) (i : Int) = true
    · simp only [hb, if_true]
      obtain ⟨a1, a2, a3, a4, a5, a6⟩ := ih (h.forward h.shards[i]? (ShardMessage.cleanup c))
      obtain ⟨b1, b2, b3, b4, b5, b6⟩ := Hub.forward_shards h h.shards[i]? (ShardMessage.cleanup c)
      exact ⟨a1.trans b1, a2.trans b2, a3.trans b3, a4.trans b4, a5.trans b5, a6.trans b6⟩
    · simp only [hb, Bool.false_eq_true, if_false]
      exact ih h

theorem Hub.Register_shards (h : Hub) (c : Client) :
    (h.Register c).shards = h.shards ∧ (h.Register c).numShards = h.numShards ∧
      (h.Register c).maxConnections = h.maxConnections := by
  unfold Hub.Register
  split_ifs <;> exact ⟨rfl, rfl, rfl⟩

theorem Hub.Unregister_shards (h : Hub) (c : Client) :
    (h.Unregister c).shards = h.shards ∧ (h.Unregister c).numShards = h.numShards ∧
      (h.Unregister c).maxConnections = h.maxConnections := by
  unfold Hub.Unregister
  by_cases hc : c ∉ h.clients
  · rw [if_pos hc]
    exact ⟨rfl, rfl, rfl⟩
  · rw [if_neg hc]
    obtain ⟨a1, a2, _, _, a5, _⟩ := Hub.cleanupLoop_fields c
      (List.range ({ h with
        clients := h.clients.erase c
        conns := h.conns - 1
        connections := h.connections - 1 } : Hub).numShards.toNat)
      { h with
        clients := h.clients.erase c
        conns := h.conns - 1
        connections := h.connections - 1 }
    exact ⟨a1, a2, a5⟩

theorem Hub.Publish_shards (h : Hub) (broker : Broker) (channel event data : String) :
    (h.Publish broker channel event data).1.shards = h.shards ∧
      (h.Publish broker channel event data).1.numShards = h.numShards := by
  unfold Hub.Publish
  dsimp only
  split_ifs <;> exact ⟨rfl, rfl⟩

theorem Hub.runCase_shards (h : Hub) (ev : HubEvent) :
    (h.runCase ev).shards = h.shards ∧ (h.runCase ev).numShards = h.numShards := by
  cases ev with
  | broker msg =>
    cases msg with
    | none => exact ⟨rfl, rfl⟩
    | some m => exact ⟨(Hub.forward_shards h _ _).1, (Hub.forward_shards h _ _).2.1⟩
  | subscribe sub =>
    simp only [Hub.runCase]
    split_ifs
    · exact ⟨(Hub.forward_shards h _ _).1, (Hub.forward_shards h _ _).2.1⟩
    · exact ⟨rfl, rfl⟩
  | unsubscribe sub =>
    simp only [Hub.runCase]
    split_ifs
    · exact ⟨(Hub.forward_shards h _ _).1, (Hub.forward_shards h _ _).2.1⟩
    · exact ⟨rfl, rfl⟩
  | clientMessage cMsg => exact ⟨(Hub.forward_shards h _ _).1, (Hub.forward_shards h _ _).2.1⟩

theorem Hub.Sharded.of_eq {h h1 : Hub} (hs : h.Sharded) (e1 : h1.shards = h.shards)
    (e2 : h1.numShards = h.numShards) : h1.Sharded :=
  ⟨by rw [e2]; exact hs.pos, by rw [e2]; exact hs.le, by rw [e1, e2]; exact hs.length,
    by rw [e1]; exact hs.ids⟩

theorem NewHub_numShards (webhook : Option WebhookManager) (maxConn numShards pingPeriod : Int) :
    1 ≤ (NewHub webhook maxConn numShards pingPeriod).numShards ∧
      (NewHub webhook maxConn numShards pingPeriod).numShards ≤ 64 := by
  unfold NewHub
  dsimp only
  split_ifs <;> omega

theorem NewHub_sharded (webhook : Option WebhookManager) (maxConn numShards pingPeriod : Int) :
    (NewHub webhook maxConn numShards pingPeriod).Sharded := by
  obtain ⟨h1, h2⟩ := NewHub_numShards webhook maxConn numShards pingPeriod
  refine ⟨h1, h2, ?_, ?_⟩
  · unfold NewHub
    simp
  · intro i s hs
    unfold NewHub at hs
    simp only [List.getElem?_map, Option.map_eq_some'] at hs
    obtain ⟨j, hj, rfl⟩ := hs
    rw [List.getElem?_range] at hj
    · cases hj; rfl
    · by_contra hlt
      rw [List.getElem?_eq_none (by simpa using hlt)] at hj
      cases hj

theorem Hub.Built.sharded {h : Hub} (hb : h.Built) : h.Sharded := by
  induction hb with
  | new webhook maxConn numShards pingPeriod =>
    exact NewHub_sharded webhook maxConn numShards pingPeriod
  | register c _ ih => exact ih.of_eq (Hub.Register_shards _ c).1 (Hub.Register_shards _ c).2.1
  | unregister c _ ih =>
    exact ih.of_eq (Hub.Unregister_shards _ c).1 (Hub.Unregister_shards _ c).2.1
  | publish broker channel event data _ ih =>
    exact ih.of_eq (Hub.Publish_shards _ broker channel event data).1
      (Hub.Publish_shards _ broker channel event data).2
  | run ev _ ih => exact ih.of_eq (Hub.runCase_shards _ ev).1 (Hub.runCase_shards _ ev).2

theorem Hub.Sharded.getShard {h : Hub} (hs : h.Sharded) (key : String) :
    fnv1a32 key % h.numShards.toNat < h.shards.length ∧
      h.getShard key = h.shards[fnv1a32 key % h.numShards.toNat]? ∧
      ∃ shard, h.getShard key = some shard ∧
        shard.id = ((fnv1a32 key % h.numShards.toNat : Nat) : Int) := by
  have hpos := hs.pos
  have hle := hs.le
  have hu : uint32 h.numShards = h.numShards.toNat := by
    unfold uint32
    rw [Int.emod_eq_of_lt (by omega) (by omega)]
  have hn : 0 < h.numShards.toNat := by omega
  have hlt : fnv1a32 key % h.numShards.toNat < h.shards.length := by
    rw [hs.length]
    exact Nat.mod_lt _ hn
  have hg : h.getShard key = h.shards[fnv1a32 key % h.numShards.toNat]? := by
    unfold Hub.getShard
    rw [hu, if_neg (by omega)]
  refine ⟨hlt, hg, ?_⟩
  rw [hg, List.getElem?_eq_getElem hlt]
  exact ⟨_, rfl, hs.ids _ _ (List.getElem?_eq_getElem hlt)⟩

theorem Hub.Sharded.forward {h : Hub} (hs : h.Sharded) (key : String) (m : ShardMessage) :
    (h.forward (h.getShard key) m).mailbox =
      h.mailbox ++ [(((fnv1a32 key % h.numShards.toNat : Nat) : Int), m)] := by
  obtain ⟨_, _, shard, hg, hid⟩ := hs.getShard key
  rw [hg]
  unfold Hub.forward
  simp only [hid]

theorem goLen_replicate (n : Nat) : goLen (String.mk (List.replicate n 'a')) = n := by
  unfold goLen goBytes
  induction n with
  | zero => rfl
  | succ k ih =>
    rw [List.replicate_succ, List.flatMap_cons, List.length_append, ih]
    have : (utf8Bytes 'a').length = 1 := by decide
    omega

theorem goLen_longName : goLen longName = 257 := goLen_replicate 257

theorem IsValidChannelName_goLen {name : String} (h : IsValidChannelName name = true) :
    goLen name ≤ 256 := by
  unfold IsValidChannelName MaxChannelLength at h
  split_ifs at h with h1
  push_neg at h1
  exact h1.2

/-- Every subscribe and unsubscribe intent that `handleMessage` sends to the
hub names a channel that `IsValidChannelName` accepts. -/
theorem handleMessage_intents_valid (c : Client) (clientID : String) (auth : AuthProvider)
    (message : String) (sub : Subscription)
    (h : sub ∈ (c.handleMessage clientID auth message).subscribe ∨
      sub ∈ (c.handleMessage clientID auth message).unsubscribe) :
    IsValidChannelName sub.Channel = true := by
  unfold Client.handleMessage at h
  dsimp only at h
  repeat' split at h
  all_goals simp only [Handled.nothing, List.mem_singleton, List.not_mem_nil, or_false,
    false_or, or_self] at h
  all_goals subst h
  all_goals simp_all

/-- C13. For a hub built by `NewHub` (with `N` shards, `1 ≤ N ≤ 64`) and a
channel name `ch`, the index `fnv1a32(ch) mod N` is within the bounds of the
shard array and `getShard(ch)` returns the shard at that index, whose id is
that index; the operations of the hub do not change the shard that
`getShard(ch)` returns; the broker-broadcast and client-message paths of
`Hub.Run` forward to that shard, and so do the subscribe and unsubscribe paths
for every intent that reaches `Hub.Run`: the loop forwards an intent whose
name has at most 256 bytes (and drops a longer one), and every intent that
`handleMessage`, the only sender of intents, hands to the hub names a channel
that `IsValidChannelName` accepts, of at most 256 bytes. -/
theorem C13_routing (h : Hub) (hb : h.Built) (ch : String) :
    1 ≤ h.numShards ∧ h.numShards ≤ 64 ∧ h.shards.length = h.numShards.toNat ∧
      fnv1a32 ch % h.numShards.toNat < h.shards.length ∧
      h.getShard ch = h.shards[fnv1a32 ch % h.numShards.toNat]? ∧
      (∃ shard, h.getShard ch = some shard ∧
        shard.id = ((fnv1a32 ch % h.numShards.toNat : Nat) : Int)) ∧
      (∀ ev, (h.runCase ev).getShard ch = h.getShard ch) ∧
      (∀ msg : BroadcastMessage, msg.Channel = ch →
        (h.runCase (HubEvent.broker (some msg))).mailbox =
          h.mailbox ++
            [(((fnv1a32 ch % h.numShards.toNat : Nat) : Int), ShardMessage.broadcast msg)]) ∧
      (∀ cMsg : ClientMessageWrapper, cMsg.Channel = ch →
        (h.runCase (HubEvent.clientMessage cMsg)).mailbox =
          h.mailbox ++
            [(((fnv1a32 ch % h.numShards.toNat : Nat) : Int), ShardMessage.clientMsg cMsg)]) ∧
      (∀ sub : Subscription, sub.Channel = ch →
        (h.runCase (HubEvent.subscribe sub)).mailbox =
          h.mailbox ++
            (if goLen ch ≤ 256 then
              [(((fnv1a32 ch % h.numShards.toNat : Nat) : Int), ShardMessage.subscribe sub)]
            else [])) ∧
      (∀ sub : Subscription, sub.Channel = ch →
        (h.runCase (HubEvent.unsubscribe sub)).mailbox =
          h.mailbox ++
            (if goLen ch ≤ 256 then
              [(((fnv1a32 ch % h.numShards.toNat : Nat) : Int), ShardMessage.unsubscribe sub)]
            else [])) ∧
      (∀ (c : Client) (clientID : String) (auth : AuthProvider) (message : String)
          (sub : Subscription),
        sub ∈ (c.handleMessage clientID auth message).subscribe ∨
            sub ∈ (c.handleMessage clientID auth message).unsubscribe →
          sub.Channel = ch → IsValidChannelName ch = true ∧ goLen ch ≤ 256 ∧
            (h.runCase (HubEvent.subscribe sub)).mailbox =
              h.mailbox ++
                [(((fnv1a32 ch % h.numShards.toNat : Nat) : Int), ShardMessage.subscribe sub)] ∧
            (h.runCase (HubEvent.unsubscribe sub)).mailbox =
              h.mailbox ++
                [(((fnv1a32 ch % h.numShards.toNat : Nat) : Int),
                  ShardMessage.unsubscribe sub)]) := by
  have hs := hb.sharded
  obtain ⟨g1, g2, g3⟩ := hs.getShard ch
  refine ⟨hs.pos, hs.le, hs.length, g1, g2, g3, ?_, ?_, ?_, ?_, ?_, ?_⟩
  · intro ev
    obtain ⟨e1, e2⟩ := Hub.runCase_shards h ev
    unfold Hub.getShard
    rw [e1, e2]
  · intro msg hm
    subst hm
    exact hs.forward _ _
  · intro cMsg hm
    subst hm
    exact hs.forward _ _
  · intro sub hm
    subst hm
    simp only [Hub.runCase, MaxChannelLength]
    split_ifs
    · exact hs.forward _ _
    · simp
  · intro sub hm
    subst hm
    simp only [Hub.runCase, MaxChannelLength]
    split_ifs
    · exact hs.forward _ _
    · simp
  · intro c clientID auth message sub hmem hm
    subst hm
    have hv := handleMessage_intents_valid c clientID auth message sub hmem
    have hl := IsValidChannelName_goLen hv
    refine ⟨hv, hl, ?_, ?_⟩
    · simp only [Hub.runCase, MaxChannelLength, hl, if_true]
      exact hs.forward _ _
    · simp only [Hub.runCase, MaxChannelLength, hl, if_true]
      exact hs.forward _ _

theorem C13_routing_witness :
    smallHub.Built ∧ smallHub.numShards = 32 ∧
      (smallHub.runCase
        (HubEvent.subscribe
          { Client := clientOne, Channel := "private-user.1", AuthData := "" })).mailbox =
        [(((fnv1a32 "private-user.1" % 32 : Nat) : Int),
          ShardMessage.subscribe
            { Client := clientOne, Channel := "private-user.1", AuthData := "" })] :=
  ⟨Hub.Built.new _ _ _ _, by decide,
    ((C13_routing smallHub (Hub.Built.new _ _ _ _) "private-user.1").2.2.2.2.2.2.2.2.2.1
      { Client := clientOne, Channel := "private-user.1", AuthData := "" } rfl).trans (by decide)⟩

/-! ## C14: the shard bitmap -/

theorem and_two_pow_ne_zero (m j : Nat) : m &&& 2 ^ j ≠ 0 ↔ m.testBit j = true := by
  constructor
  · intro h
    obtain ⟨i, hi⟩ := Nat.ne_zero_implies_bit_true h
    rw [Nat.testBit_and, Bool.and_eq_true, Nat.testBit_two_pow, decide_eq_true_eq] at hi
    rw [hi.2]
    exact hi.1
  · intro h h0
    have : (m &&& 2 ^ j).testBit j = true := by
      rw [Nat.testBit_and, h, Nat.testBit_two_pow_self]
      rfl
    rw [h0, Nat.zero_testBit] at this
    cases this

theorem HasShard_iff (mask : Nat) (j : Int) :
    HasShard mask j = true ↔ 0 ≤ j ∧ j < 64 ∧ mask.testBit j.toNat = true := by
  unfold HasShard
  by_cases hr : j < 0 ∨ j ≥ 64
  · rw [if_pos hr]
    constructor
    · intro h; cases h
    · rintro ⟨h1, h2, _⟩; omega
  · rw [if_neg hr]
    have hj : j.toNat < 64 := by omega
    rw [Nat.one_shiftLeft, Nat.mod_eq_of_lt (Nat.pow_lt_pow_right (by decide) hj),
      decide_eq_true_eq, and_two_pow_ne_zero]
    constructor
    · intro h; exact ⟨by omega, by omega, h⟩
    · rintro ⟨_, _, h⟩; exact h

/-- C14. For every bitmap and all integers `id` and `j`, `HasShard(j)` is true
after `AddShard(id)` if and only if it was true before or `j = id` with
`0 ≤ id < 64`: `AddShard` of an id outside `0..63` changes nothing, `HasShard`
of such an id is false, and no bit is ever cleared. -/
theorem C14_shard_mask (mask : Nat) (id j : Int) :
    (HasShard (AddShard mask id) j = true ↔
        HasShard mask j = true ∨ (j = id ∧ 0 ≤ id ∧ id < 64)) ∧
      ((id < 0 ∨ id ≥ 64) → AddShard mask id = mask) ∧
      ((j < 0 ∨ j ≥ 64) → HasShard mask j = false) ∧
      (HasShard mask j = true → HasShard (AddShard mask id) j = true) := by
  have main : HasShard (AddShard mask id) j = true ↔
      HasShard mask j = true ∨ (j = id ∧ 0 ≤ id ∧ id < 64) := by
    rw [HasShard_iff, HasShard_iff]
    unfold AddShard
    by_cases hr : id < 0 ∨ id ≥ 64
    · rw [if_pos hr]
      constructor
      · intro h; exact Or.inl h
      · rintro (h | ⟨_, h1, h2⟩)
        · exact h
        · omega
    · rw [if_neg hr]
      have hid : id.toNat < 64 := by omega
      by_cases hj : 0 ≤ j ∧ j < 64
      · have hjn : j.toNat < 64 := by omega
        rw [Nat.one_shiftLeft, Nat.mod_eq_of_lt (Nat.pow_lt_pow_right (by decide) hid),
          Nat.testBit_mod_two_pow, Nat.testBit_or, Nat.testBit_two_pow]
        simp only [hjn, decide_True, Bool.true_and, Bool.or_eq_true, decide_eq_true_eq]
        constructor
        · rintro ⟨h1, h2, h3 | h3⟩
          · exact Or.inl ⟨h1, h2, h3⟩
          · right; omega
        · rintro (⟨h1, h2, h3⟩ | ⟨h1, h2, h3⟩)
          · exact ⟨h1, h2, Or.inl h3⟩
          · exact ⟨hj.1, hj.2, Or.inr (by omega)⟩
      · constructor
        · rintro ⟨h1, h2, _⟩; exact absurd ⟨h1, h2⟩ hj
        · rintro (⟨h1, h2, _⟩ | ⟨h1, h2, h3⟩)
          · exact absurd ⟨h1, h2⟩ hj
          · exact absurd ⟨by omega, by omega⟩ hj
  refine ⟨main, ?_, ?_, ?_⟩
  · intro hr
    unfold AddShard
    rw [if_pos hr]
  · intro hr
    unfold HasShard
    rw [if_pos hr]
  · intro h
    exact main.2 (Or.inl h)

/-! ## C15 and C16: admission and the connection counter -/

theorem Hub.Register_of_full {h : Hub} (c : Client) (hcap : h.conns ≥ h.maxConnections) :
    h.Register c =
      { h with
        conn :=
          Function.update h.conn c
            (h.conn c ++
              [ConnAction.writeClose ErrorOverCapacity "Over capacity", ConnAction.close]) } := by
  unfold Hub.Register
  rw [if_pos hcap]

theorem Hub.Register_of_room {h : Hub} (c : Client) (hcap : ¬ h.conns ≥ h.maxConnections) :
    h.Register c =
      { h with
        clients := insert c h.clients
        conns := h.conns + 1
        wg := h.wg + 1
        connections := h.connections + 1
        sent :=
          Function.update h.sent c
            (h.sent c ++ [{ client := c, activityTimeout := h.activityTimeout }]) } := by
  unfold Hub.Register
  rw [if_neg hcap]

theorem Hub.Unregister_of_not_mem {h : Hub} {c : Client} (hc : c ∉ h.clients) :
    h.Unregister c = h := by
  unfold Hub.Unregister
  rw [if_pos hc]

theorem Hub.Unregister_of_mem {h : Hub} {c : Client} (hc : c ∈ h.clients) :
    (h.Unregister c).clients = h.clients.erase c ∧ (h.Unregister c).conns = h.conns - 1 ∧
      (h.Unregister c).maxConnections = h.maxConnections := by
  unfold Hub.Unregister
  rw [if_neg (not_not.2 hc)]
  obtain ⟨_, _, a3, a4, a5, _⟩ := Hub.cleanupLoop_fields c
    (List.range ({ h with
      clients := h.clients.erase c
      conns := h.conns - 1
      connections := h.connections - 1 } : Hub).numShards.toNat)
    { h with
      clients := h.clients.erase c
      conns := h.conns - 1
      connections := h.connections - 1 }
  exact ⟨a3, a4, a5⟩

theorem Hub.step_clients_of_ne (h : Hub) (c : Client) (op : HubOp)
    (hop : op ≠ HubOp.register c) (hc : c ∉ h.clients) : c ∉ (h.step op).clients := by
  cases op with
  | register d =>
    have hne : c ≠ d := fun e => hop (by rw [e])
    show c ∉ (h.Register d).clients
    unfold Hub.Register
    split_ifs
    · exact hc
    · simp only [Finset.mem_insert, not_or]
      exact ⟨hne, hc⟩
  | unregister d =>
    show c ∉ (h.Unregister d).clients
    by_cases hd : d ∈ h.clients
    · rw [(Hub.Unregister_of_mem hd).1]
      exact fun hh => hc (Finset.mem_of_mem_erase hh)
    · rw [Hub.Unregister_of_not_mem hd]
      exact hc

theorem Hub.apply_clients_of_ne (c : Client) (ops : List HubOp)
    (hops : ∀ op ∈ ops, op ≠ HubOp.register c) :
    ∀ h : Hub, c ∉ h.clients → c ∉ (h.apply ops).clients := by
  induction ops with
  | nil => intro h hc; exact hc
  | cons op rest ih =>
    intro h hc
    unfold Hub.apply
    rw [List.foldl_cons]
    exact ih (fun o ho => hops o (List.mem_cons_of_mem _ ho)) (h.step op)
      (Hub.step_clients_of_ne h c op (hops op (List.mem_cons_self _ _)) hc)

/-- C15. In a hub whose connection counter is at least `max_connections`,
`Register(c)` for the client `c` of a new connection (`ServeHTTP` makes a
client for each connection and registers it once, so `c` is not in the client
set) writes a close frame with code 4100 to the connection of `c` and closes
it, leaves the counter and the client set unchanged and hands no frame to
`Send` of any client; and a later `Unregister(c)`, after any calls of
`Register` and `Unregister` for other clients, changes nothing. -/
theorem C15_over_capacity (h : Hub) (c : Client) (hcap : h.conns ≥ h.maxConnections)
    (hc : c ∉ h.clients) :
    (h.Register c).conn c =
        h.conn c ++ [ConnAction.writeClose 4100 "Over capacity", ConnAction.close] ∧
      (h.Register c).conns = h.conns ∧
      (h.Register c).clients = h.clients ∧
      (h.Register c).sent = h.sent ∧
      ∀ ops : List HubOp, (∀ op ∈ ops, op ≠ HubOp.register c) →
        (((h.Register c).apply ops).Unregister c) = (h.Register c).apply ops := by
  rw [Hub.Register_of_full c hcap]
  refine ⟨by simp [ErrorOverCapacity], rfl, rfl, rfl, ?_⟩
  intro ops hops
  exact Hub.Unregister_of_not_mem (Hub.apply_clients_of_ne c ops hops _ hc)

theorem C15_over_capacity_witness :
    fullHub.conns ≥ fullHub.maxConnections ∧ (⟨3⟩ : Client) ∉ fullHub.clients ∧
      (fullHub.Register ⟨3⟩).conn ⟨3⟩ =
        [ConnAction.writeClose 4100 "Over capacity", ConnAction.close] ∧
      (fullHub.Register ⟨3⟩).conns = 2 ∧
      ((fullHub.Register ⟨3⟩).Unregister ⟨3⟩).conns = 2 :=
  have hcap : fullHub.conns ≥ fullHub.maxConnections := by decide
  have hc : (⟨3⟩ : Client) ∉ fullHub.clients := by decide
  have h := C15_over_capacity fullHub ⟨3⟩ hcap hc
  ⟨hcap, hc, h.1.trans (by decide), h.2.1.trans (by decide),
    (congrArg Hub.conns (h.2.2.2.2 [] (by simp))).trans (h.2.1.trans (by decide))⟩

theorem Hub.Counted.step {h : Hub} (hk : h.Counted) (op : HubOp)
    (hnew : ∀ c, op = HubOp.register c → c ∉ h.clients) : (h.step op).Counted := by
  obtain ⟨h1, h2⟩ := hk
  cases op with
  | register c =>
    have hc := hnew c rfl
    show (h.Register c).Counted
    by_cases hcap : h.conns ≥ h.maxConnections
    · rw [Hub.Register_of_full c hcap]
      exact ⟨h1, h2⟩
    · rw [Hub.Register_of_room c hcap]
      refine ⟨?_, ?_⟩
      · show h.conns + 1 = ((insert c h.clients).card : Int)
        rw [Finset.card_insert_of_not_mem hc, h1]
        push_cast
        rfl
      · show h.conns + 1 ≤ h.maxConnections
        omega
  | unregister c =>
    show (h.Unregister c).Counted
    by_cases hc : c ∈ h.clients
    · obtain ⟨e1, e2, e3⟩ := Hub.Unregister_of_mem hc
      refine ⟨?_, ?_⟩
      · rw [e1, e2, Finset.card_erase_of_mem hc, h1]
        have : 1 ≤ h.clients.card := Finset.card_pos.2 ⟨c, hc⟩
        omega
      · rw [e2, e3]
        omega
    · rw [Hub.Unregister_of_not_mem hc]
      exact ⟨h1, h2⟩

theorem Hub.Counted.apply (ops : List HubOp) :
    ∀ {h : Hub}, h.Counted → h.RegistersNew ops → (h.apply ops).Counted := by
  induction ops with
  | nil => intro h hk _; exact hk
  | cons op rest ih =>
    intro h hk hnew
    unfold Hub.apply
    rw [List.foldl_cons]
    exact ih (hk.step op hnew.1) hnew.2

/-- C16 (counterexample). A hub built with `max_connections = -1` has its
counter, 0, above `max_connections`; and registering one client twice on a
new hub leaves the counter at 2 with one client in the client set. -/
theorem C16_counter_off :
    (NewHub none (-1) 32 54000000000).conns > (NewHub none (-1) 32 54000000000).maxConnections ∧
      ((smallHub.apply [HubOp.register clientOne, HubOp.register clientOne]).conns = 2 ∧
        (smallHub.apply [HubOp.register clientOne, HubOp.register clientOne]).clients.card = 1) := by
  decide

/-- C16 (amended). On a new hub with `max_connections ≥ 0`, after every
sequence of `Register` and `Unregister` calls executed one after the other in
which each `Register` is given a client that is not in the client set at that
point (`Unregister` of a client never registered or already unregistered and
`Register` beyond capacity included), the connection counter equals the number
of clients in the client set and does not exceed `max_connections`. -/
theorem C16_counter_invariant (webhook : Option WebhookManager)
    (maxConn numShards pingPeriod : Int) (hmax : 0 ≤ maxConn) (ops : List HubOp)
    (hnew : (NewHub webhook maxConn numShards pingPeriod).RegistersNew ops) :
    ((NewHub webhook maxConn numShards pingPeriod).apply ops).conns =
        (((NewHub webhook maxConn numShards pingPeriod).apply ops).clients.card : Int) ∧
      ((NewHub webhook maxConn numShards pingPeriod).apply ops).conns ≤
        ((NewHub webhook maxConn numShards pingPeriod).apply ops).maxConnections := by
  have h0 : (NewHub webhook maxConn numShards pingPeriod).Counted :=
    ⟨by unfold NewHub; rfl, by unfold NewHub; exact hmax⟩
  have h := Hub.Counted.apply ops h0 hnew
  exact ⟨h.count, h.bound⟩

set_option maxRecDepth 20000 in
theorem C16_counter_invariant_witness :
    (0 : Int) ≤ 2 ∧ (NewHub none 2 32 54000000000).RegistersNew fiveCalls ∧
      ((NewHub none 2 32 54000000000).apply fiveCalls).conns = 1 ∧
      ((NewHub none 2 32 54000000000).apply fiveCalls).clients = {clientTwo} :=
  have hmax : (0 : Int) ≤ 2 := by decide
  have hnew : (NewHub none 2 32 54000000000).RegistersNew fiveCalls := by
    simp only [fiveCalls, Hub.RegistersNew, HubOp.register.injEq, forall_eq', and_true,
      reduceCtorEq, false_implies, implies_true, true_and]
    decide
  have h := C16_counter_invariant none 2 32 54000000000 hmax fiveCalls hnew
  ⟨hmax, hnew, h.1.trans (by decide), by decide⟩

/-! ## C17: `Hub.Publish` -/

/-- C17. `Hub.Publish(channel, event, data)` returns false and hands nothing
to the broker when `len(data) > 262144`, `len(channel) > 256` or
`len(event) > 64`; in every other case it hands exactly one message (channel,
event, data) to the broker and returns true if and only if the broker reports
no error. -/
theorem C17_publish (h : Hub) (broker : Broker) (channel event data : String) :
    ((goLen data > 262144 ∨ goLen channel > 256 ∨ goLen event > 64) →
        (h.Publish broker channel event data).2 = ([], false)) ∧
      (¬(goLen data > 262144 ∨ goLen channel > 256 ∨ goLen event > 64) →
        (h.Publish broker channel event data).2.1 =
            [{ Channel := channel, Event := event, Data := data }] ∧
          ((h.Publish broker channel event data).2.2 = true ↔
            broker.publishOk { Channel := channel, Event := event, Data := data } = true)) := by
  unfold Hub.Publish MaxChannelLength MaxEventLength MaxDataSize
  constructor
  · intro hbig
    dsimp only
    split_ifs <;> first | rfl | omega
  · intro hok
    dsimp only
    rw [if_neg (by omega), if_neg (by omega), if_neg (by omega)]
    split_ifs with hb
    · exact ⟨rfl, by simp [hb]⟩
    · exact ⟨rfl, by simp [hb]⟩

/-! ## C18: `IsValidChannelName` -/

theorem matchClassPlus_iff (cls : Char → Bool) (l : List Char) :
    matchClassPlus cls l = true ↔ l ≠ [] ∧ ∀ c ∈ l, cls c = true := by
  induction l with
  | nil => simp [matchClassPlus]
  | cons a r ih =>
    cases r with
    | nil => simp [matchClassPlus]
    | cons b r2 =>
      have h : matchClassPlus cls (a :: b :: r2) = (cls a && matchClassPlus cls (b :: r2)) := rfl
      rw [h, Bool.and_eq_true, ih]
      simp

theorem goLen_eq_zero_iff (name : String) : goLen name = 0 ↔ name.data = [] := by
  unfold goLen goBytes
  cases hd : name.data with
  | nil => simp
  | cons c r =>
    have hpos : 0 < (utf8Bytes c).length := by
      unfold utf8Bytes
      dsimp only
      split_ifs <;> simp
    simp only [List.flatMap_cons, List.length_append, reduceCtorEq, iff_false]
    omega

/-- C18. `IsValidChannelName(name)` is true if and only if
`1 ≤ len(name) ≤ 256` and every character of `name` is an ASCII letter, a digit
or one of `_ - = @ , . ;`; the empty name, a name of 257 characters and a name
with a trailing newline are rejected. -/
theorem C18_valid_channel_name (name : String) :
    (IsValidChannelName name = true ↔
        1 ≤ goLen name ∧ goLen name ≤ 256 ∧
          ∀ c ∈ name.data,
            ('a'.toNat ≤ c.toNat ∧ c.toNat ≤ 'z'.toNat) ∨
              ('A'.toNat ≤ c.toNat ∧ c.toNat ≤ 'Z'.toNat) ∨
              ('0'.toNat ≤ c.toNat ∧ c.toNat ≤ '9'.toNat) ∨
              c ∈ ['_', '-', '=', '@', ',', '.', ';']) ∧
      IsValidChannelName "" = false ∧
      IsValidChannelName longName = false ∧
      IsValidChannelName "presence-room\n" = false := by
  refine ⟨?_, by decide, ?_, by decide⟩
  · unfold IsValidChannelName validChannelNameMatch MaxChannelLength
    have hcls : ∀ c : Char, channelChar c = true ↔
        (('a'.toNat ≤ c.toNat ∧ c.toNat ≤ 'z'.toNat) ∨
          ('A'.toNat ≤ c.toNat ∧ c.toNat ≤ 'Z'.toNat) ∨
          ('0'.toNat ≤ c.toNat ∧ c.toNat ≤ '9'.toNat) ∨
          c ∈ ['_', '-', '=', '@', ',', '.', ';']) := by
      intro c
      unfold channelChar
      simp only [Bool.or_eq_true, Bool.and_eq_true, decide_eq_true_eq, beq_iff_eq,
        List.mem_cons, List.mem_singleton, List.not_mem_nil, or_false, or_assoc]
    by_cases hlen : goLen name = 0 ∨ goLen name > 256
    · rw [if_pos hlen]
      constructor
      · intro h; cases h
      · rintro ⟨h1, h2, _⟩; omega
    · rw [if_neg hlen, matchClassPlus_iff]
      have hne : name.data ≠ [] := fun e => hlen (Or.inl ((goLen_eq_zero_iff name).2 e))
      constructor
      · rintro ⟨_, hall⟩
        exact ⟨by omega, by omega, fun c hc => (hcls c).1 (hall c hc)⟩
      · rintro ⟨_, _, hall⟩
        exact ⟨hne, fun c hc => (hcls c).2 (hall c hc)⟩
  · unfold IsValidChannelName MaxChannelLength
    rw [goLen_longName]
    rfl

/-! ## C19: `AuthenticateUser` -/

theorem splitChars_ne_nil (sep : Char) (l : List Char) : splitChars sep l ≠ [] := by
  induction l with
  | nil => simp [splitChars]
  | cons c r ih =>
    unfold splitChars
    split_ifs
    · simp
    · cases h : splitChars sep r <;> simp

theorem splitChars_of_not_mem (sep : Char) (l : List Char) (h : sep ∉ l) :
    splitChars sep l = [l] := by
  induction l with
  | nil => rfl
  | cons c r ih =>
    have hc : c ≠ sep := fun e => h (by simp [e])
    have hr : sep ∉ r := fun e => h (by simp [e])
    unfold splitChars
    rw [if_neg hc, ih hr]

theorem splitChars_append (sep : Char) (l r : List Char) :
    splitChars sep (l ++ sep :: r) = splitChars sep l ++ splitChars sep r := by
  induction l with
  | nil => simp [splitChars]
  | cons c t ih =>
    rw [List.cons_append, splitChars, splitChars, ih]
    by_cases hc : c = sep
    · rw [if_pos hc, if_pos hc]; rfl
    · rw [if_neg hc, if_neg hc]
      cases h : splitChars sep t with
      | nil => exact absurd h (splitChars_ne_nil sep t)
      | cons p ps => rfl

theorem hexDigit_ne_colon (n : Nat) (h : n < 16) : hexDigit n ≠ ':' := by
  interval_cases n <;> decide

theorem colon_not_mem_hex (src : List Nat) : ':' ∉ (hexEncodeToString src).data := by
  unfold hexEncodeToString
  induction src with
  | nil => simp
  | cons v r ih =>
    simp only [List.flatMap_cons, List.cons_append, List.nil_append, List.mem_cons, not_or]
    refine ⟨?_, ?_, ih⟩
    · exact fun e => hexDigit_ne_colon _ (by omega) e.symm
    · exact fun e => hexDigit_ne_colon _ (by omega) e.symm

theorem stringsSplit_signedAuth (secret clientID userData key : String) :
    stringsSplit (signedAuth secret clientID userData key) ':' =
      (splitChars ':' key.data).map String.mk ++
        [hexEncodeToString
          (hmacSha256 (goBytes secret) (goBytes (clientID ++ "::user::" ++ userData)))] := by
  unfold stringsSplit signedAuth
  have hd : (key ++ ":" ++ hexEncodeToString
      (hmacSha256 (goBytes secret) (goBytes (clientID ++ "::user::" ++ userData)))).data =
      key.data ++ ':' :: (hexEncodeToString
        (hmacSha256 (goBytes secret) (goBytes (clientID ++ "::user::" ++ userData)))).data := by
    simp [String.data_append]
  rw [hd, splitChars_append, splitChars_of_not_mem _ _ (colon_not_mem_hex _), List.map_append]
  rfl

/-- C19, as stated, fails for a key that contains a colon: with the secret
`"secret"`, the socket id `"1.1"`, the user data `"u"` and the key `"a:b"`,
`strings.Split` cuts `auth_sig` into three parts and `AuthenticateUser` returns
`Allowed = false` although the signature is the expected one. -/
theorem C19_key_with_colon_rejected :
    WorkerAuthProvider.AuthenticateUser { secret := "secret" } "1.1"
        (signedAuth "secret" "1.1" "u" "a:b") "u" =
      { Allowed := false, UserData := none } := by
  unfold WorkerAuthProvider.AuthenticateUser
  rw [stringsSplit_signedAuth]
  rfl

/-- C19 (amended). For every non-empty secret `s`, socket id, user data `U`
and key `k` without a colon, `AuthenticateUser` called with
`auth_sig = k + ":" + hex(HMAC-SHA256(s, socket_id + "::user::" + U))` returns
`Allowed = true` with `UserData` equal to `U`, and the result is the same for
every other such key. -/
theorem C19_authenticate_user (s clientID U k : String) (hs : s ≠ "") (hk : ':' ∉ k.data) :
    WorkerAuthProvider.AuthenticateUser { secret := s } clientID
        (signedAuth s clientID U k) U = { Allowed := true, UserData := some U } ∧
      ∀ k2 : String, ':' ∉ k2.data →
        WorkerAuthProvider.AuthenticateUser { secret := s } clientID
            (signedAuth s clientID U k2) U =
          WorkerAuthProvider.AuthenticateUser { secret := s } clientID
            (signedAuth s clientID U k) U := by
  have key : ∀ k1 : String, ':' ∉ k1.data →
      WorkerAuthProvider.AuthenticateUser { secret := s } clientID
        (signedAuth s clientID U k1) U = { Allowed := true, UserData := some U } := by
    intro k1 hk1
    unfold WorkerAuthProvider.AuthenticateUser
    rw [if_neg hs, stringsSplit_signedAuth, splitChars_of_not_mem _ _ hk1]
    simp
  exact ⟨key k hk, fun k2 hk2 => (key k2 hk2).trans (key k hk).symm⟩

theorem C19_authenticate_user_witness :
    "secret" ≠ "" ∧ ':' ∉ "app-key".data ∧
      WorkerAuthProvider.AuthenticateUser { secret := "secret" } "1.1"
        (signedAuth "secret" "1.1" "u" "app-key") "u" =
          { Allowed := true, UserData := some "u" } :=
  ⟨by decide, by decide,
    (C19_authenticate_user "secret" "1.1" "u" "app-key" (by decide) (by decide)).1⟩

/-! ## C20: `SerializeBroadcast` and `DeserializeBroadcast` -/

namespace Json

theorem skipSpace_cons_of_not (c : Char) (r : List Char) (h : isSpace c = false) :
    skipSpace (c :: r) = c :: r := by
  simp [skipSpace, List.dropWhile, h]

theorem consumed_append (p rest : List Char) : consumed (p ++ rest) rest = p := by
  simp [consumed]

theorem compactChar_self (c : Char) (h1 : c.toNat ≠ 60) (h2 : c.toNat ≠ 62) (h3 : c.toNat ≠ 38)
    (h4 : c.toNat ≠ 0x2028) (h5 : c.toNat ≠ 0x2029) : compactChar c = [c] := by
  unfold compactChar
  have e1 : c ≠ '<' := fun e => h1 (by rw [e]; rfl)
  have e2 : c ≠ '>' := fun e => h2 (by rw [e]; rfl)
  have e3 : c ≠ '&' := fun e => h3 (by rw [e]; rfl)
  simp [e1, e2, e3, h4, h5]

theorem scanString_quote (r : List Char) : scanString ('"' :: r) = some r := by
  simp [scanString]

theorem scanString_u (a b c d : Char) (r : List Char) :
    scanString ('\\' :: 'u' :: a :: b :: c :: d :: r) =
      if isHex a && isHex b && isHex c && isHex d then scanString r else none := by
  simp [scanString]

theorem scanString_plain (c : Char) (r : List Char) (h1 : c ≠ '"') (h2 : c ≠ '\\') :
    scanString (c :: r) = if c.toNat < 0x20 then none else scanString r := by
  rw [scanString]
  · simp [h2]
  all_goals intros; simp_all

theorem scanString_esc (e : Char) (r : List Char)
    (he : (e == '"' || e == '\\' || e == '/' || e == 'b' || e == 'f' || e == 'n' || e == 'r'
      || e == 't') = true) :
    scanString ('\\' :: e :: r) = scanString r := by
  have hu : e ≠ 'u' := by
    intro e1
    rw [e1] at he
    exact absurd he (by decide)
  rw [scanString]
  · rw [if_pos he]
  all_goals intros; simp_all

theorem compactChar_esc (e : Char)
    (he : (e == '"' || e == '\\' || e == '/' || e == 'b' || e == 'f' || e == 'n' || e == 'r'
      || e == 't') = true) : compactChar e = [e] := by
  simp only [Bool.or_eq_true, beq_iff_eq] at he
  rcases he with ((((((rfl | rfl) | rfl) | rfl) | rfl) | rfl) | rfl) | rfl <;> decide

theorem scanString_compactChar (c : Char) (r : List Char) (h1 : c ≠ '"') (h2 : c ≠ '\\')
    (h3 : ¬ c.toNat < 0x20) : scanString (compactChar c ++ r) = scanString r := by
  unfold compactChar
  by_cases e1 : c = '<' ∨ c = '>' ∨ c = '&'
  · rw [if_pos e1]
    rcases e1 with rfl | rfl | rfl <;>
      · simp only [List.cons_append, List.nil_append]
        rw [scanString_u, if_pos (by decide)]
  · rw [if_neg e1]
    by_cases e2 : c.toNat = 0x2028 ∨ c.toNat = 0x2029
    · rw [if_pos e2]
      simp only [List.cons_append, List.nil_append]
      rw [scanString_u, if_pos]
      rcases e2 with e | e <;> rw [e] <;> decide
    · rw [if_neg e2]
      simp only [List.cons_append, List.nil_append]
      rw [scanString_plain c r h1 h2, if_neg h3]

theorem isHex_compactChar (a : Char) (h : isHex a = true) : compactChar a = [a] := by
  apply compactChar_self <;>
    · intro e
      simp [isHex, isDigit, e] at h

theorem scanString_spec (r : List Char) : ∀ rest, scanString r = some rest →
    ∃ body, r = body ++ rest ∧ ∀ t, scanString (body.flatMap compactChar ++ t) = some t := by
  induction r using scanString.induct with
  | case1 => intro rest h; simp [scanString] at h
  | case2 r =>
    intro rest h
    rw [scanString_quote] at h
    cases h
    exact ⟨['"'], rfl, fun t => by simp [compactChar, scanString]⟩
  | case3 a b c d r hhex ih =>
    intro rest h
    rw [scanString_u, if_pos hhex] at h
    obtain ⟨body, rfl, hb⟩ := ih rest h
    refine ⟨'\\' :: 'u' :: a :: b :: c :: d :: body, rfl, fun t => ?_⟩
    simp only [Bool.and_eq_true] at hhex
    have hs : compactChar '\\' = ['\\'] := by decide
    have hu : compactChar 'u' = ['u'] := by decide
    simp only [List.flatMap_cons, hs, hu, isHex_compactChar _ hhex.1.1.1,
      isHex_compactChar _ hhex.1.1.2, isHex_compactChar _ hhex.1.2, isHex_compactChar _ hhex.2,
      List.cons_append, List.nil_append]
    rw [scanString_u, if_pos (by simp [hhex]), hb]
  | case4 a b c d r hhex =>
    intro rest h
    rw [scanString_u, if_neg hhex] at h
    cases h
  | case5 e r hne he ih =>
    intro rest h
    rw [scanString_esc e r he] at h
    obtain ⟨body, rfl, hb⟩ := ih rest h
    refine ⟨'\\' :: e :: body, rfl, fun t => ?_⟩
    have hs : compactChar '\\' = ['\\'] := by decide
    simp only [List.flatMap_cons, hs, compactChar_esc e he, List.cons_append, List.nil_append]
    rw [scanString_esc _ _ he, hb]
  | case6 e r hne he =>
    intro rest h
    rw [scanString] at h
    · rw [if_neg he] at h; cases h
    · intro a b c d r0 e1 e2
      exact hne a b c d r0 e1 e2
  | case7 c r h1 h2 h3 h4 =>
    intro rest h
    have hq : c ≠ '"' := h1
    by_cases hb : c = '\\'
    · subst hb
      cases r with
      | nil => simp [scanString] at h
      | cons e r1 => exact absurd rfl (fun e0 => h3 e r1 rfl e0)
    · rw [scanString_plain c r hq hb] at h
      simp only [Bool.or_eq_true, decide_eq_true_eq, beq_iff_eq, hb, or_false] at h4
      rw [if_pos h4] at h
      cases h
  | case8 c r h1 h2 h3 h4 ih =>
    intro rest h
    have hq : c ≠ '"' := h1
    simp only [Bool.or_eq_true, decide_eq_true_eq, beq_iff_eq, not_or] at h4
    rw [scanString_plain c r hq h4.2, if_neg h4.1] at h
    obtain ⟨body, rfl, hb⟩ := ih rest h
    refine ⟨c :: body, rfl, fun t => ?_⟩
    rw [List.flatMap_cons, List.append_assoc, scanString_compactChar c _ hq h4.2 h4.1, hb]

theorem numEnd.fracEnd {t : List Char} (h : numEnd t) : fracEnd t :=
  fun c r e => ⟨(h c r e).1, (h c r e).2.1⟩

theorem fracEnd.digEnd {t : List Char} (h : fracEnd t) : digEnd t :=
  fun c r e => (h c r e).1

theorem dropWhile_digits (ds t : List Char) (hds : ∀ c ∈ ds, isDigit c = true) (ht : digEnd t) :
    (ds ++ t).dropWhile isDigit = t := by
  induction ds with
  | nil =>
    cases t with
    | nil => rfl
    | cons c r => simp [List.dropWhile, ht c r rfl]
  | cons d ds ih =>
    simp only [List.cons_append, List.dropWhile, hds d (by simp)]
    exact ih (fun c hc => hds c (by simp [hc]))

theorem dropWhile_digits_spec (r : List Char) :
    ∃ ds, r = ds ++ r.dropWhile isDigit ∧ ∀ c ∈ ds, isDigit c = true :=
  ⟨r.takeWhile isDigit, (List.takeWhile_append_dropWhile _ _).symm,
    fun _ hc => List.mem_takeWhile_imp hc⟩

theorem scanDigits_spec (s rest : List Char) (h : scanDigits s = some rest) :
    ∃ d ds, s = d :: ds ++ rest ∧ isDigit d = true ∧
      ∀ t, digEnd t → scanDigits (d :: ds ++ t) = some t := by
  cases s with
  | nil => simp [scanDigits] at h
  | cons c r =>
    simp only [scanDigits] at h
    split_ifs at h with hc
    cases h
    obtain ⟨ds, hds, hall⟩ := dropWhile_digits_spec r
    refine ⟨c, ds, by rw [List.cons_append, ← hds], hc, fun t ht => ?_⟩
    simp only [List.cons_append, scanDigits, hc, if_true]
    rw [dropWhile_digits ds t hall ht]

theorem fracEnd_e (r : List Char) : fracEnd ('e' :: r) := by
  intro c r0 e; cases e; exact ⟨by decide, by decide⟩

theorem fracEnd_E (r : List Char) : fracEnd ('E' :: r) := by
  intro c r0 e; cases e; exact ⟨by decide, by decide⟩

theorem scanExp_spec (s rest : List Char) (h : scanExp s = some rest) :
    ∃ p, s = p ++ rest ∧ ∀ t, numEnd t → scanExp (p ++ t) = some t ∧ fracEnd (p ++ t) := by
  unfold scanExp at h
  split at h
  · obtain ⟨d, ds, rfl, hd, ht⟩ := scanDigits_spec _ _ h
    exact ⟨'e' :: '+' :: d :: ds, rfl, fun t hn =>
      ⟨by simpa [scanExp] using ht t hn.fracEnd.digEnd, fracEnd_e _⟩⟩
  · obtain ⟨d, ds, rfl, hd, ht⟩ := scanDigits_spec _ _ h
    exact ⟨'e' :: '-' :: d :: ds, rfl, fun t hn =>
      ⟨by simpa [scanExp] using ht t hn.fracEnd.digEnd, fracEnd_e _⟩⟩
  · obtain ⟨d, ds, rfl, hd, ht⟩ := scanDigits_spec _ _ h
    refine ⟨'e' :: d :: ds, rfl, fun t hn => ⟨?_, fracEnd_e _⟩⟩
    have h1 : d ≠ '+' := by intro e; rw [e] at hd; exact absurd hd (by decide)
    have h2 : d ≠ '-' := by intro e; rw [e] at hd; exact absurd hd (by decide)
    simpa [scanExp, h1, h2] using ht t hn.fracEnd.digEnd
  · obtain ⟨d, ds, rfl, hd, ht⟩ := scanDigits_spec _ _ h
    exact ⟨'E' :: '+' :: d :: ds, rfl, fun t hn =>
      ⟨by simpa [scanExp] using ht t hn.fracEnd.digEnd, fracEnd_E _⟩⟩
  · obtain ⟨d, ds, rfl, hd, ht⟩ := scanDigits_spec _ _ h
    exact ⟨'E' :: '-' :: d :: ds, rfl, fun t hn =>
      ⟨by simpa [scanExp] using ht t hn.fracEnd.digEnd, fracEnd_E _⟩⟩
  · obtain ⟨d, ds, rfl, hd, ht⟩ := scanDigits_spec _ _ h
    refine ⟨'E' :: d :: ds, rfl, fun t hn => ⟨?_, fracEnd_E _⟩⟩
    have h1 : d ≠ '+' := by intro e; rw [e] at hd; exact absurd hd (by decide)
    have h2 : d ≠ '-' := by intro e; rw [e] at hd; exact absurd hd (by decide)
    simpa [scanExp, h1, h2] using ht t hn.fracEnd.digEnd
  · cases h
    refine ⟨[], rfl, fun t hn => ⟨?_, hn.fracEnd⟩⟩
    cases t with
    | nil => simp [scanExp]
    | cons c r =>
      obtain ⟨_, _, he, hE⟩ := hn c r rfl
      simp only [List.nil_append]
      unfold scanExp
      split <;> simp_all

theorem scanFrac_spec (s rest : List Char) (h : scanFrac s = some rest) :
    ∃ p, s = p ++ rest ∧ ∀ t, numEnd t → scanFrac (p ++ t) = some t ∧ digEnd (p ++ t) := by
  unfold scanFrac at h
  split at h
  · rename_i r
    cases hd : scanDigits r with
    | none => rw [hd] at h; cases h
    | some r1 =>
      rw [hd] at h
      obtain ⟨d, ds, rfl, hdig, ht⟩ := scanDigits_spec _ _ hd
      obtain ⟨pe, rfl, hpe⟩ := scanExp_spec _ _ h
      refine ⟨'.' :: d :: ds ++ pe, by simp, fun t hn => ⟨?_, ?_⟩⟩
      · have h1 := ht (pe ++ t) (hpe t hn).2.digEnd
        simp only [List.cons_append, List.append_assoc] at h1 ⊢
        simp only [scanFrac, h1]
        exact (hpe t hn).1
      · intro c r0 e
        simp only [List.cons_append] at e
        cases e; decide
  · rename_i hne
    obtain ⟨pe, rfl, hpe⟩ := scanExp_spec _ _ h
    refine ⟨pe, rfl, fun t hn => ⟨?_, (hpe t hn).2.digEnd⟩⟩
    have hf := (hpe t hn).2
    unfold scanFrac
    split
    · rename_i r0 e
      exact absurd rfl (hf _ _ e).2
    · exact (hpe t hn).1

theorem scanInt_spec (s rest : List Char) (h : scanInt s = some rest) :
    ∃ d p, s = d :: p ++ rest ∧ isDigit d = true ∧
      ∀ t, numEnd t → scanInt (d :: p ++ t) = some t := by
  unfold scanInt at h
  split at h
  · obtain ⟨pf, rfl, hpf⟩ := scanFrac_spec _ _ h
    exact ⟨'0', pf, rfl, by decide, fun t hn => by simpa [scanInt] using (hpf t hn).1⟩
  · rename_i c r hne
    split_ifs at h with hc
    obtain ⟨ds, hds, hall⟩ := dropWhile_digits_spec r
    obtain ⟨pf, hpf0, hpf⟩ := scanFrac_spec _ _ h
    refine ⟨c, ds ++ pf, ?_, hc, fun t hn => ?_⟩
    · rw [List.cons_append, List.append_assoc, ← hpf0, ← hds]
    · have hc0 : c ≠ '0' := hne
      have : scanInt (c :: (ds ++ pf) ++ t) =
          scanFrac (((ds ++ pf) ++ t).dropWhile isDigit) := by
        simp only [List.cons_append]
        rw [scanInt]
        · rw [if_pos hc]
        · exact hc0
      rw [this, List.append_assoc, dropWhile_digits ds _ hall (hpf t hn).2]
      exact (hpf t hn).1
  · cases h

theorem scanNumber_spec (s rest : List Char) (h : scanNumber s = some rest) :
    ∃ d p, s = d :: p ++ rest ∧ (d = '-' ∨ isDigit d = true) ∧
      ∀ t, numEnd t → scanNumber (d :: p ++ t) = some t := by
  unfold scanNumber at h
  split at h
  · obtain ⟨d, p, rfl, hd, ht⟩ := scanInt_spec _ _ h
    exact ⟨'-', d :: p, rfl, Or.inl rfl, fun t hn => by simpa [scanNumber] using ht t hn⟩
  · rename_i hne
    obtain ⟨d, p, rfl, hd, ht⟩ := scanInt_spec _ _ h
    refine ⟨d, p, rfl, Or.inr hd, fun t hn => ?_⟩
    have hm : d ≠ '-' := by intro e; rw [e] at hd; exact absurd hd (by decide)
    simp only [List.cons_append]
    rw [scanNumber]
    · exact ht t hn
    · intro r0 e; injection e with e1 _; exact hm e1

theorem scanAfterAux_nil (limit n : Nat) (r : List Char) :
    scanAfterAux limit (n + 1) [] r = some r := by
  simp [scanAfterAux]

theorem scanAfterAux_arr (limit n : Nat) (up : List Open) (r : List Char) :
    scanAfterAux limit (n + 1) (Open.arr :: up) r =
      match skipSpace r with
      | ',' :: r1 => scanValueAux limit n (Open.arr :: up) (skipSpace r1)
      | ']' :: r1 => scanAfterAux limit n up r1
      | _ => none := by
  simp only [scanAfterAux]

theorem scanAfterAux_obj (limit n : Nat) (up : List Open) (r : List Char) :
    scanAfterAux limit (n + 1) (Open.obj :: up) r =
      match skipSpace r with
      | ',' :: r1 =>
        match skipSpace r1 with
        | '"' :: r2 =>
          match (scanString r2).map skipSpace with
          | some (':' :: r3) => scanValueAux limit n (Open.obj :: up) (skipSpace r3)
          | _ => none
        | _ => none
      | '}' :: r1 => scanAfterAux limit n up r1
      | _ => none := by
  simp only [scanAfterAux]

theorem scan_mono (limit n : Nat) :
    (∀ st s r, scanValueAux limit n st s = some r →
        ∀ m, n ≤ m → scanValueAux limit m st s = some r) ∧
      (∀ st s r, scanAfterAux limit n st s = some r →
        ∀ m, n ≤ m → scanAfterAux limit m st s = some r) := by
  induction n with
  | zero =>
    constructor
    · intro st s r h; simp [scanValueAux] at h
    · intro st s r h; simp [scanAfterAux] at h
  | succ n ih =>
    obtain ⟨ihV, ihA⟩ := ih
    have hbind : ∀ (o : Option (List Char)) st r m, n ≤ m →
        o.bind (scanAfterAux limit n st) = some r →
        o.bind (scanAfterAux limit m st) = some r := by
      intro o st r m hm h
      cases o with
      | none => cases h
      | some x => exact ihA _ _ _ h m hm
    constructor
    · intro st s r h m hm
      obtain ⟨m, rfl⟩ : ∃ m0, m = m0 + 1 := ⟨m - 1, by omega⟩
      have hm0 : n ≤ m := by omega
      unfold scanValueAux at h ⊢
      split at h
      · exact hbind _ _ _ _ hm0 h
      · exact ihA _ _ _ h m hm0
      · exact ihA _ _ _ h m hm0
      · exact ihA _ _ _ h m hm0
      · split_ifs at h with hd
        rw [if_neg hd]
        split at h
        · exact ihA _ _ _ h m hm0
        · exact ihV _ _ _ h m hm0
      · split_ifs at h with hd
        rw [if_neg hd]
        split at h
        · exact ihA _ _ _ h m hm0
        · split at h
          · exact ihV _ _ _ h m hm0
          · cases h
        · cases h
      · exact hbind _ _ _ _ hm0 h
    · intro st s r h m hm
      obtain ⟨m, rfl⟩ : ∃ m0, m = m0 + 1 := ⟨m - 1, by omega⟩
      have hm0 : n ≤ m := by omega
      cases st with
      | nil => rw [scanAfterAux_nil] at h ⊢; exact h
      | cons o up =>
        cases o with
        | arr =>
          rw [scanAfterAux_arr] at h ⊢
          split at h
          · exact ihV _ _ _ h m hm0
          · exact ihA _ _ _ h m hm0
          · cases h
        | obj =>
          rw [scanAfterAux_obj] at h ⊢
          split at h
          · split at h
            · split at h
              · exact ihV _ _ _ h m hm0
              · cases h
            · cases h
          · exact ihA _ _ _ h m hm0
          · cases h

theorem okTail.numEnd {t : List Char} (h : okTail t) : numEnd t := by
  intro c r e
  rcases h c r e with rfl | rfl | rfl <;> decide

theorem okTail_cons (c : Char) (r : List Char) (h : c = ',' ∨ c = ']' ∨ c = '}') :
    okTail (c :: r) := by
  intro c0 r0 e; cases e; exact h

theorem valueHead.append {out : List Char} (h : valueHead out) (t : List Char) :
    valueHead (out ++ t) := by
  obtain ⟨c, r, rfl, h1, h2⟩ := h
  exact ⟨c, r ++ t, rfl, h1, h2⟩

theorem valueHead.skipSpace {out : List Char} (h : valueHead out) : skipSpace out = out := by
  obtain ⟨c, r, rfl, h1, _⟩ := h
  exact skipSpace_cons_of_not c r h1

theorem scanValueAux_string (limit m : Nat) (st : List Open) (r : List Char) :
    scanValueAux limit (m + 1) st ('"' :: r) =
      (scanString r).bind (scanAfterAux limit m st) := by
  simp only [scanValueAux]

theorem scanValueAux_true (limit m : Nat) (st : List Open) (r : List Char) :
    scanValueAux limit (m + 1) st ('t' :: 'r' :: 'u' :: 'e' :: r) = scanAfterAux limit m st r := by
  simp only [scanValueAux]

theorem scanValueAux_false (limit m : Nat) (st : List Open) (r : List Char) :
    scanValueAux limit (m + 1) st ('f' :: 'a' :: 'l' :: 's' :: 'e' :: r) =
      scanAfterAux limit m st r := by
  simp only [scanValueAux]

theorem scanValueAux_null (limit m : Nat) (st : List Open) (r : List Char) :
    scanValueAux limit (m + 1) st ('n' :: 'u' :: 'l' :: 'l' :: r) = scanAfterAux limit m st r := by
  simp only [scanValueAux]

theorem scanValueAux_arr_full (limit m : Nat) (st : List Open) (r : List Char)
    (hd : st.length ≥ limit) : scanValueAux limit (m + 1) st ('[' :: r) = none := by
  simp only [scanValueAux, hd, if_true]

theorem scanValueAux_arr_close (limit m : Nat) (st : List Open) (r r1 : List Char)
    (hd : st.length < limit) (h : skipSpace r = ']' :: r1) :
    scanValueAux limit (m + 1) st ('[' :: r) = scanAfterAux limit m st r1 := by
  simp only [scanValueAux, h, if_neg (Nat.not_le.2 hd)]

theorem scanValueAux_arr_open (limit m : Nat) (st : List Open) (r : List Char)
    (hd : st.length < limit) (h : ∀ r1, skipSpace r ≠ ']' :: r1) :
    scanValueAux limit (m + 1) st ('[' :: r) =
      scanValueAux limit m (Open.arr :: st) (skipSpace r) := by
  simp only [scanValueAux, if_neg (Nat.not_le.2 hd)]

theorem scanValueAux_obj_close (limit m : Nat) (st : List Open) (r r1 : List Char)
    (hd : st.length < limit) (h : skipSpace r = '}' :: r1) :
    scanValueAux limit (m + 1) st ('{' :: r) = scanAfterAux limit m st r1 := by
  simp only [scanValueAux, h, if_neg (Nat.not_le.2 hd)]

theorem scanValueAux_obj_key (limit m : Nat) (st : List Open) (r r1 r2 r3 : List Char)
    (hd : st.length < limit) (h : skipSpace r = '"' :: r1) (hs : scanString r1 = some r2)
    (hc : skipSpace r2 = ':' :: r3) :
    scanValueAux limit (m + 1) st ('{' :: r) =
      scanValueAux limit m (Open.obj :: st) (skipSpace r3) := by
  simp only [scanValueAux, h, hs, Option.map_some', hc, if_neg (Nat.not_le.2 hd)]

theorem scanAfterAux_arr_comma (limit m : Nat) (up : List Open) (r r1 : List Char)
    (h : skipSpace r = ',' :: r1) :
    scanAfterAux limit (m + 1) (Open.arr :: up) r =
      scanValueAux limit m (Open.arr :: up) (skipSpace r1) := by
  simp only [scanAfterAux, h]

theorem scanAfterAux_arr_close (limit m : Nat) (up : List Open) (r r1 : List Char)
    (h : skipSpace r = ']' :: r1) :
    scanAfterAux limit (m + 1) (Open.arr :: up) r = scanAfterAux limit m up r1 := by
  simp only [scanAfterAux, h]

theorem scanAfterAux_obj_comma (limit m : Nat) (up : List Open) (r r1 r2 r3 r4 : List Char)
    (h : skipSpace r = ',' :: r1) (hk : skipSpace r1 = '"' :: r2) (hs : scanString r2 = some r3)
    (hc : skipSpace r3 = ':' :: r4) :
    scanAfterAux limit (m + 1) (Open.obj :: up) r =
      scanValueAux limit m (Open.obj :: up) (skipSpace r4) := by
  simp only [scanAfterAux, h, hk, hs, Option.map_some', hc]

theorem scanAfterAux_obj_close (limit m : Nat) (up : List Open) (r r1 : List Char)
    (h : skipSpace r = '}' :: r1) :
    scanAfterAux limit (m + 1) (Open.obj :: up) r = scanAfterAux limit m up r1 := by
  simp only [scanAfterAux, h]

theorem scanValueAux_number (limit m : Nat) (st : List Open) (d : Char) (r : List Char)
    (hd : d = '-' ∨ isDigit d = true) :
    scanValueAux limit (m + 1) st (d :: r) =
      (scanNumber (d :: r)).bind (scanAfterAux limit m st) := by
  have h1 : d ≠ '"' := by rintro rfl; revert hd; decide
  have h2 : d ≠ 't' := by rintro rfl; revert hd; decide
  have h3 : d ≠ 'f' := by rintro rfl; revert hd; decide
  have h4 : d ≠ 'n' := by rintro rfl; revert hd; decide
  have h5 : d ≠ '[' := by rintro rfl; revert hd; decide
  have h6 : d ≠ '{' := by rintro rfl; revert hd; decide
  unfold scanValueAux
  split <;> first | rfl | simp_all

theorem outV_of_after (depth : Nat) (st : List Open) (tok outA : List Char) (htok : tok ≠ [])
    (hstep : ∀ limit m up x, depth + up.length ≤ limit → okTail x →
      scanValueAux limit (m + 1) (st ++ up) (tok ++ x) = scanAfterAux limit m (st ++ up) x)
    (hok : ∀ t, okTail t → okTail (outA ++ t)) (hA : OutA depth st outA) :
    OutV depth st (tok ++ outA) := by
  intro limit up t k res hl ht hk
  have h1 := hA limit up t k res hl ht hk
  have hpos : 0 < tok.length := List.length_pos.2 htok
  obtain ⟨m, hm, hle⟩ : ∃ m, (tok ++ outA).length + k = m + 1 ∧ outA.length + k ≤ m :=
    ⟨tok.length - 1 + outA.length + k, by rw [List.length_append]; omega, by omega⟩
  rw [hm, List.append_assoc, hstep limit m up _ hl (hok t ht)]
  exact (scan_mono _ _).2 _ _ _ h1 m hle

theorem outV_arr (depth : Nat) (st : List Open) (out1 : List Char) (hd : st.length < depth)
    (hv : valueHead out1) (h1 : OutV depth (Open.arr :: st) out1) :
    OutV depth st ('[' :: out1) := by
  intro limit up t k res hl ht hk
  have h2 := h1 limit up t k res hl ht hk
  have hs := (hv.append t).skipSpace
  have hne : ∀ r1, skipSpace (out1 ++ t) ≠ ']' :: r1 := by
    intro r1 e
    obtain ⟨c, r, e1, _, h3⟩ := hv.append t
    rw [hs, e1] at e
    injection e with e2 _
    exact h3 e2
  have hlen : (st ++ up).length < limit := by rw [List.length_append]; omega
  rw [List.length_cons, Nat.add_right_comm, List.cons_append,
    scanValueAux_arr_open _ _ _ _ hlen hne, hs]
  exact h2

theorem outV_obj (depth : Nat) (st : List Open) (key out1 : List Char) (hd : st.length < depth)
    (hkey : ∀ t, scanString (key ++ t) = some t) (hv : valueHead out1)
    (h1 : OutV depth (Open.obj :: st) out1) :
    OutV depth st ('{' :: '"' :: key ++ ':' :: out1) := by
  intro limit up t k res hl ht hk
  have h2 := h1 limit up t k res hl ht hk
  have hs := (hv.append t).skipSpace
  obtain ⟨m, hm, hle⟩ : ∃ m, ('{' :: '"' :: key ++ ':' :: out1).length + k = m + 1 ∧
      out1.length + k ≤ m :=
    ⟨key.length + 2 + out1.length + k, by simp; omega, by omega⟩
  have e : '{' :: '"' :: key ++ ':' :: out1 ++ t = '{' :: ('"' :: (key ++ ':' :: (out1 ++ t))) := by
    simp
  have hlen : (st ++ up).length < limit := by rw [List.length_append]; omega
  rw [hm, e, scanValueAux_obj_key limit m _ _ _ _ _ hlen (skipSpace_cons_of_not _ _ (by decide))
    (hkey _) (skipSpace_cons_of_not _ _ (by decide)), hs]
  exact (scan_mono _ _).1 _ _ _ h2 m hle

theorem outA_nil (depth : Nat) : OutA depth [] [] := by
  intro limit up t k res _ _ hk
  simpa using hk

theorem outA_arr_comma (depth : Nat) (up0 : List Open) (out1 : List Char) (hv : valueHead out1)
    (h1 : OutV depth (Open.arr :: up0) out1) : OutA depth (Open.arr :: up0) (',' :: out1) := by
  intro limit up t k res hl ht hk
  have h2 := h1 limit up t k res hl ht hk
  have hs := (hv.append t).skipSpace
  rw [List.length_cons, Nat.add_right_comm, List.cons_append, List.cons_append,
    scanAfterAux_arr_comma _ _ _ _ _ (skipSpace_cons_of_not _ _ (by decide)), hs]
  exact h2

theorem outA_arr_close (depth : Nat) (up0 : List Open) (outA : List Char)
    (h1 : OutA depth up0 outA) : OutA depth (Open.arr :: up0) (']' :: outA) := by
  intro limit up t k res hl ht hk
  have h2 := h1 limit up t k res hl ht hk
  rw [List.length_cons, Nat.add_right_comm, List.cons_append, List.cons_append,
    scanAfterAux_arr_close _ _ _ _ _ (skipSpace_cons_of_not _ _ (by decide))]
  exact h2

theorem outA_obj_close (depth : Nat) (up0 : List Open) (outA : List Char)
    (h1 : OutA depth up0 outA) : OutA depth (Open.obj :: up0) ('}' :: outA) := by
  intro limit up t k res hl ht hk
  have h2 := h1 limit up t k res hl ht hk
  rw [List.length_cons, Nat.add_right_comm, List.cons_append, List.cons_append,
    scanAfterAux_obj_close _ _ _ _ _ (skipSpace_cons_of_not _ _ (by decide))]
  exact h2

theorem outA_obj_comma (depth : Nat) (up0 : List Open) (key out1 : List Char)
    (hkey : ∀ t, scanString (key ++ t) = some t) (hv : valueHead out1)
    (h1 : OutV depth (Open.obj :: up0) out1) :
    OutA depth (Open.obj :: up0) (',' :: '"' :: key ++ ':' :: out1) := by
  intro limit up t k res hl ht hk
  have h2 := h1 limit up t k res hl ht hk
  have hs := (hv.append t).skipSpace
  obtain ⟨m, hm, hle⟩ : ∃ m, (',' :: '"' :: key ++ ':' :: out1).length + k = m + 1 ∧
      out1.length + k ≤ m :=
    ⟨key.length + 2 + out1.length + k, by simp; omega, by omega⟩
  have e : ',' :: '"' :: key ++ ':' :: out1 ++ t = ',' :: ('"' :: (key ++ ':' :: (out1 ++ t))) := by
    simp
  rw [hm, e, List.cons_append, scanAfterAux_obj_comma limit m _ _ _ _ _ _
    (skipSpace_cons_of_not _ _ (by decide)) (skipSpace_cons_of_not _ _ (by decide))
    (hkey _) (skipSpace_cons_of_not _ _ (by decide)), hs]
  exact (scan_mono _ _).1 _ _ _ h2 m hle

theorem compactValueAux_number (limit m : Nat) (st : List Open) (d : Char) (r : List Char)
    (hd : d = '-' ∨ isDigit d = true) :
    compactValueAux limit (m + 1) st (d :: r) =
      (compactNumber (d :: r)).bind (fun p =>
        (compactAfterAux limit m st p.2).map (fun q => (p.1 ++ q.1, q.2))) := by
  have h1 : d ≠ '"' := by rintro rfl; revert hd; decide
  have h2 : d ≠ 't' := by rintro rfl; revert hd; decide
  have h3 : d ≠ 'f' := by rintro rfl; revert hd; decide
  have h4 : d ≠ 'n' := by rintro rfl; revert hd; decide
  have h5 : d ≠ '[' := by rintro rfl; revert hd; decide
  have h6 : d ≠ '{' := by rintro rfl; revert hd; decide
  unfold compactValueAux
  split <;> first | rfl | simp_all

theorem compactString_eq (body rest : List Char) (h : scanString (body ++ rest) = some rest) :
    compactString (body ++ rest) = some (body.flatMap compactChar, rest) := by
  simp only [compactString, h, Option.map_some', consumed_append]

theorem valueHead_number (d : Char) (r : List Char) (hd : d = '-' ∨ isDigit d = true) :
    valueHead (d :: r) := by
  refine ⟨d, r, rfl, ?_, ?_⟩
  · rcases hd with rfl | hd
    · decide
    · cases hsp : isSpace d with
      | false => rfl
      | true =>
        simp only [isSpace, Bool.or_eq_true, beq_iff_eq] at hsp
        rcases hsp with ((rfl | rfl) | rfl) | rfl <;> exact absurd hd (by decide)
  · rintro rfl
    rcases hd with hd | hd <;> exact absurd hd (by decide)

theorem compact_spec (limit n : Nat) :
    (∀ st s rest, scanValueAux limit n st s = some rest →
        ∃ out, (∀ lim, limit ≤ lim → compactValueAux lim n st s = some (out, rest)) ∧
          valueHead out ∧ OutV limit st out) ∧
      (∀ st s rest, scanAfterAux limit n st s = some rest →
        ∃ out, (∀ lim, limit ≤ lim → compactAfterAux lim n st s = some (out, rest)) ∧
          (∀ t, okTail t → okTail (out ++ t)) ∧ OutA limit st out) := by
  induction n with
  | zero =>
    constructor
    · intro st s r h; simp [scanValueAux] at h
    · intro st s r h; simp [scanAfterAux] at h
  | succ n ih =>
    obtain ⟨ihV, ihA⟩ := ih
    constructor
    · intro st s rest h
      unfold scanValueAux at h
      split at h
      · -- a string
        rename_i r
        cases hs : scanString r with
        | none => rw [hs] at h; cases h
        | some r1 =>
          rw [hs] at h
          obtain ⟨body, rfl, hb⟩ := scanString_spec r r1 hs
          obtain ⟨outA, hcA, hokA, hA⟩ := ihA st r1 rest h
          refine ⟨'"' :: body.flatMap compactChar ++ outA, ?_, ⟨'"', _, rfl, by decide, by decide⟩,
            ?_⟩
          · intro lim hl
            simp only [compactValueAux, compactString_eq _ _ hs, Option.some_bind, hcA lim hl,
              Option.map_some']
          · exact outV_of_after limit st ('"' :: body.flatMap compactChar) outA (by simp)
              (fun lim m up x _ _ => by rw [List.cons_append, scanValueAux_string, hb]; rfl)
              hokA hA
      · -- true
        obtain ⟨outA, hcA, hokA, hA⟩ := ihA _ _ rest h
        refine ⟨'t' :: 'r' :: 'u' :: 'e' :: outA, ?_, ⟨'t', _, rfl, by decide, by decide⟩, ?_⟩
        · intro lim hl
          simp only [compactValueAux, hcA lim hl, Option.map_some']
        · exact outV_of_after limit st ['t', 'r', 'u', 'e'] outA (by simp)
            (fun lim m up x _ _ => scanValueAux_true lim m _ x) hokA hA
      · -- false
        obtain ⟨outA, hcA, hokA, hA⟩ := ihA _ _ rest h
        refine ⟨'f' :: 'a' :: 'l' :: 's' :: 'e' :: outA, ?_,
          ⟨'f', _, rfl, by decide, by decide⟩, ?_⟩
        · intro lim hl
          simp only [compactValueAux, hcA lim hl, Option.map_some']
        · exact outV_of_after limit st ['f', 'a', 'l', 's', 'e'] outA (by simp)
            (fun lim m up x _ _ => scanValueAux_false lim m _ x) hokA hA
      · -- null
        obtain ⟨outA, hcA, hokA, hA⟩ := ihA _ _ rest h
        refine ⟨'n' :: 'u' :: 'l' :: 'l' :: outA, ?_, ⟨'n', _, rfl, by decide, by decide⟩, ?_⟩
        · intro lim hl
          simp only [compactValueAux, hcA lim hl, Option.map_some']
        · exact outV_of_after limit st ['n', 'u', 'l', 'l'] outA (by simp)
            (fun lim m up x _ _ => scanValueAux_null lim m _ x) hokA hA
      · -- an array
        split_ifs at h with hd
        have hlt : st.length < limit := Nat.not_le.1 hd
        split at h
        · rename_i heq
          obtain ⟨outA, hcA, hokA, hA⟩ := ihA _ _ rest h
          refine ⟨'[' :: ']' :: outA, ?_, ⟨'[', _, rfl, by decide, by decide⟩, ?_⟩
          · intro lim hl
            have hd1 : ¬ st.length ≥ lim := by omega
            simp only [compactValueAux, if_neg hd1, heq, hcA lim hl, Option.map_some']
          · exact outV_of_after limit st ['[', ']'] outA (by simp)
              (fun lim m up x hl _ => scanValueAux_arr_close lim m _ _ x
                (by rw [List.length_append]; omega)
                (skipSpace_cons_of_not _ _ (by decide))) hokA hA
        · rename_i hne
          obtain ⟨out1, hc1, hv1, h1⟩ := ihV _ _ rest h
          refine ⟨'[' :: out1, ?_, ⟨'[', _, rfl, by decide, by decide⟩,
            outV_arr limit st out1 hlt hv1 h1⟩
          intro lim hl
          have hd1 : ¬ st.length ≥ lim := by omega
          simp only [compactValueAux, if_neg hd1, hc1 lim hl, Option.map_some']
      · -- an object
        split_ifs at h with hd
        have hlt : st.length < limit := Nat.not_le.1 hd
        split at h
        · rename_i heq
          obtain ⟨outA, hcA, hokA, hA⟩ := ihA _ _ rest h
          refine ⟨'{' :: '}' :: outA, ?_, ⟨'{', _, rfl, by decide, by decide⟩, ?_⟩
          · intro lim hl
            have hd1 : ¬ st.length ≥ lim := by omega
            simp only [compactValueAux, if_neg hd1, heq, hcA lim hl, Option.map_some']
          · exact outV_of_after limit st ['{', '}'] outA (by simp)
              (fun lim m up x hl _ => scanValueAux_obj_close lim m _ _ x
                (by rw [List.length_append]; omega)
                (skipSpace_cons_of_not _ _ (by decide))) hokA hA
        · rename_i r1 heq
          split at h
          · rename_i r2 heq2
            cases hs : scanString r1 with
            | none => rw [hs] at heq2; cases heq2
            | some r3 =>
              rw [hs, Option.map_some', Option.some.injEq] at heq2
              obtain ⟨body, rfl, hb⟩ := scanString_spec r1 r3 hs
              obtain ⟨out1, hc1, hv1, h1⟩ := ihV _ _ rest h
              refine ⟨'{' :: '"' :: body.flatMap compactChar ++ ':' :: out1, ?_,
                ⟨'{', _, rfl, by decide, by decide⟩, outV_obj limit st _ out1 hlt hb hv1 h1⟩
              intro lim hl
              have hd1 : ¬ st.length ≥ lim := by omega
              simp only [compactValueAux, if_neg hd1, heq, compactString_eq _ _ hs,
                Option.map_some', heq2, hc1 lim hl]
          · cases h
        · cases h
      · -- a number
        cases hn : scanNumber s with
        | none => rw [hn] at h; cases h
        | some r1 =>
          rw [hn] at h
          obtain ⟨d, p, rfl, hd, ht⟩ := scanNumber_spec s r1 hn
          obtain ⟨outA, hcA, hokA, hA⟩ := ihA st r1 rest h
          refine ⟨d :: p ++ outA, ?_, valueHead_number d _ hd, ?_⟩
          · intro lim hl
            rw [List.cons_append, compactValueAux_number _ _ _ _ _ hd]
            have e : compactNumber (d :: (p ++ r1)) = some (d :: p, r1) := by
              have := hn
              rw [List.cons_append] at this
              simp only [compactNumber, this, Option.map_some']
              rw [← List.cons_append, consumed_append]
            simp only [e, Option.some_bind, hcA lim hl, Option.map_some']
          · exact outV_of_after limit st (d :: p) outA (by simp)
              (fun lim m up x _ hx => by
                rw [List.cons_append, scanValueAux_number _ _ _ _ _ hd, ← List.cons_append,
                  ht x hx.numEnd]; rfl) hokA hA
    · intro st s rest h
      cases st with
      | nil =>
        rw [scanAfterAux_nil] at h
        cases h
        exact ⟨[], fun lim _ => by simp [compactAfterAux], fun t ht => ht, outA_nil limit⟩
      | cons o up =>
        cases o with
        | arr =>
          rw [scanAfterAux_arr] at h
          split at h
          · rename_i r1 heq
            obtain ⟨out1, hc1, hv1, h1⟩ := ihV _ _ rest h
            refine ⟨',' :: out1, ?_, fun t _ => okTail_cons _ _ (Or.inl rfl),
              outA_arr_comma limit up out1 hv1 h1⟩
            intro lim hl
            simp only [compactAfterAux, heq, hc1 lim hl, Option.map_some']
          · rename_i r1 heq
            obtain ⟨outA, hcA, hokA, hA⟩ := ihA _ _ rest h
            refine ⟨']' :: outA, ?_, fun t _ => okTail_cons _ _ (Or.inr (Or.inl rfl)),
              outA_arr_close limit up outA hA⟩
            intro lim hl
            simp only [compactAfterAux, heq, hcA lim hl, Option.map_some']
          · cases h
        | obj =>
          rw [scanAfterAux_obj] at h
          split at h
          · rename_i r1 heq
            split at h
            · rename_i r2 heqk
              split at h
              · rename_i r4 heq2
                cases hs : scanString r2 with
                | none => rw [hs] at heq2; cases heq2
                | some r3 =>
                  rw [hs, Option.map_some', Option.some.injEq] at heq2
                  obtain ⟨body, rfl, hb⟩ := scanString_spec r2 r3 hs
                  obtain ⟨out1, hc1, hv1, h1⟩ := ihV _ _ rest h
                  refine ⟨',' :: '"' :: body.flatMap compactChar ++ ':' :: out1, ?_,
                    fun t _ => okTail_cons _ _ (Or.inl rfl),
                    outA_obj_comma limit up _ out1 hb hv1 h1⟩
                  intro lim hl
                  simp only [compactAfterAux, heq, heqk, compactString_eq _ _ hs,
                    Option.map_some', heq2, hc1 lim hl]
              · cases h
            · cases h
          · rename_i r1 heq
            obtain ⟨outA, hcA, hokA, hA⟩ := ihA _ _ rest h
            refine ⟨'}' :: outA, ?_, fun t _ => okTail_cons _ _ (Or.inr (Or.inr rfl)),
              outA_obj_close limit up outA hA⟩
            intro lim hl
            simp only [compactAfterAux, heq, hcA lim hl, Option.map_some']
          · cases h


theorem unquote_u (a b c d : Char) (rest : List Char) (h : hex4 a b c d < 0xD800) :
    unquote ('\\' :: 'u' :: a :: b :: c :: d :: rest) = Char.ofNat (hex4 a b c d) :: unquote rest := by
  conv_lhs => unfold unquote
  split
  · rename_i heq; cases heq
  · rename_i heq; cases heq
  · rename_i a1 b1 c1 d1 e f g h1 r heq
    injection heq with _ heq
    injection heq with _ heq
    injection heq with ea heq
    injection heq with eb heq
    injection heq with ec heq
    injection heq with ed heq
    subst ea eb ec ed heq
    have h2 : ¬ (0xD800 ≤ hex4 a b c d ∧ hex4 a b c d < 0xDC00) := by omega
    have h3 : ¬ (0xDC00 ≤ hex4 a b c d ∧ hex4 a b c d < 0xE000) := by omega
    simp only [h2, h3, if_false]
  · rename_i a1 b1 c1 d1 r hne heq
    injection heq with _ heq
    injection heq with _ heq
    injection heq with ea heq
    injection heq with eb heq
    injection heq with ec heq
    injection heq with ed heq
    subst ea eb ec ed heq
    have h2 : ¬ (0xD800 ≤ hex4 a b c d ∧ hex4 a b c d < 0xE000) := by omega
    simp only [h2, if_false]
  · rename_i e r hne1 hne2 heq
    injection heq with _ heq
    injection heq with ee heq
    exact (hne2 a b c d rest ee.symm heq.symm).elim
  · rename_i c0 r h1 h2 h3 h4 heq
    injection heq with e0 heq
    exact (h4 'u' _ e0.symm heq.symm).elim

theorem unquote_esc (e : Char) (rest : List Char) (he : e ≠ 'u') :
    unquote ('\\' :: e :: rest) = escapeChar e :: unquote rest := by
  conv_lhs => unfold unquote
  split
  · rename_i heq; cases heq
  · rename_i heq; cases heq
  · rename_i heq
    injection heq with _ heq
    injection heq with ee _
    exact absurd ee he
  · rename_i heq
    injection heq with _ heq
    injection heq with ee _
    exact absurd ee he
  · rename_i heq
    injection heq with _ heq
    injection heq with ee heq
    subst ee heq
    rfl
  · rename_i c0 r h1 h2 h3 h4 heq
    injection heq with e0 heq
    exact (h4 e _ e0.symm heq.symm).elim

theorem unquote_plain (c : Char) (rest : List Char) (h1 : c ≠ '"') (h2 : c ≠ '\\') :
    unquote (c :: rest) = c :: unquote rest := by
  conv_lhs => unfold unquote
  split
  · rename_i heq; cases heq
  · rename_i heq
    injection heq with ee _
    exact absurd ee h1
  · rename_i heq
    injection heq with ee _
    exact absurd ee h2
  · rename_i heq
    injection heq with ee _
    exact absurd ee h2
  · rename_i heq
    injection heq with ee _
    exact absurd ee h2
  · rename_i heq
    injection heq with ee heq
    subst ee heq
    rfl

theorem unquote_quote (rest : List Char) : unquote ('"' :: rest) = [] := by
  simp [unquote]

theorem isHex_hexDigit (n : Nat) (h : n < 16) : isHex (hexDigit n) = true := by
  interval_cases n <;> decide

theorem hexVal_hexDigit (n : Nat) (h : n < 16) : hexVal (hexDigit n) = n := by
  interval_cases n <;> decide

theorem hex4_byte (v : Nat) (h : v < 256) :
    hex4 '0' '0' (hexDigit (v / 16)) (hexDigit (v % 16)) = v := by
  have h0 : hexVal '0' = 0 := by decide
  unfold hex4
  rw [h0, hexVal_hexDigit _ (by omega), hexVal_hexDigit _ (by omega)]
  omega

/-- One character of an encoded string is read back by `scanString` and
decoded to itself by `unquote`. -/
theorem appendStringChar_spec (c : Char) (rest : List Char) :
    scanString (appendStringChar c ++ rest) = scanString rest ∧
      unquote (appendStringChar c ++ rest) = c :: unquote rest := by
  have hofNat : ∀ n, c.toNat = n → c = Char.ofNat n := by
    intro n e; rw [← e, Char.ofNat_toNat]
  have hbyte : c.toNat < 256 →
      scanString (['\\', 'u', '0', '0', hexDigit (c.toNat / 16), hexDigit (c.toNat % 16)] ++ rest)
          = scanString rest ∧
        unquote (['\\', 'u', '0', '0', hexDigit (c.toNat / 16), hexDigit (c.toNat % 16)] ++ rest)
          = c :: unquote rest := by
    intro hlt
    simp only [List.cons_append, List.nil_append]
    constructor
    · rw [scanString_u, if_pos]
      simp [isHex_hexDigit _ (show c.toNat / 16 < 16 by omega),
        isHex_hexDigit _ (show c.toNat % 16 < 16 by omega)]
      decide
    · rw [unquote_u _ _ _ _ _ (by rw [hex4_byte _ hlt]; omega), hex4_byte _ hlt,
        Char.ofNat_toNat]
  unfold appendStringChar
  split_ifs with h1 h2 h3 h4 h5 h6 h7 h8
  · rcases h1 with rfl | rfl
    · exact ⟨scanString_esc _ _ (by decide), unquote_esc _ _ (by decide)⟩
    · exact ⟨scanString_esc _ _ (by decide), unquote_esc _ _ (by decide)⟩
  · rw [hofNat 8 h2]
    exact ⟨scanString_esc _ _ (by decide), unquote_esc _ _ (by decide)⟩
  · rw [hofNat 12 h3]
    exact ⟨scanString_esc _ _ (by decide), unquote_esc _ _ (by decide)⟩
  · subst h4
    exact ⟨scanString_esc _ _ (by decide), unquote_esc _ _ (by decide)⟩
  · subst h5
    exact ⟨scanString_esc _ _ (by decide), unquote_esc _ _ (by decide)⟩
  · subst h6
    exact ⟨scanString_esc _ _ (by decide), unquote_esc _ _ (by decide)⟩
  · apply hbyte
    rcases h7 with h | rfl | rfl | rfl
    · omega
    · decide
    · decide
    · decide
  · have hv : c = Char.ofNat 0x2028 ∨ c = Char.ofNat 0x2029 := by
      rcases h8 with h | h
      · exact Or.inl (hofNat _ h)
      · exact Or.inr (hofNat _ h)
    rcases hv with rfl | rfl
    · exact ⟨by
        simp only [List.cons_append, List.nil_append]
        rw [scanString_u, if_pos (by decide)], by
        simp only [List.cons_append, List.nil_append]
        rw [unquote_u _ _ _ _ _ (by decide)]
        congr 1⟩
    · exact ⟨by
        simp only [List.cons_append, List.nil_append]
        rw [scanString_u, if_pos (by decide)], by
        simp only [List.cons_append, List.nil_append]
        rw [unquote_u _ _ _ _ _ (by decide)]
        congr 1⟩
  · simp only [not_or] at h1 h7
    simp only [List.cons_append, List.nil_append]
    exact ⟨by rw [scanString_plain c rest h1.2 h1.1, if_neg h7.1],
      unquote_plain c rest h1.2 h1.1⟩

theorem appendString_spec (l rest : List Char) :
    scanString (l.flatMap appendStringChar ++ '"' :: rest) = some rest ∧
      unquote (l.flatMap appendStringChar ++ '"' :: rest) = l := by
  induction l with
  | nil => exact ⟨scanString_quote rest, unquote_quote rest⟩
  | cons c l ih =>
    rw [List.flatMap_cons, List.append_assoc]
    obtain ⟨h1, h2⟩ := appendStringChar_spec c (l.flatMap appendStringChar ++ '"' :: rest)
    rw [h1, h2, ih.1, ih.2]
    exact ⟨rfl, rfl⟩


theorem outV_append (d1 d2 depth : Nat) (st1 st2 : List Open) (out outA : List Char)
    (h1 : OutV d1 st1 out) (hok : ∀ t, okTail t → okTail (outA ++ t)) (h2 : OutA d2 st2 outA)
    (hd1 : d1 + st2.length ≤ depth) (hd2 : d2 ≤ depth) :
    OutV depth (st1 ++ st2) (out ++ outA) := by
  intro limit up t k res hl ht hk
  have h3 := h1 limit (st2 ++ up) (outA ++ t) (outA.length + k) res
    (by rw [List.length_append]; omega) (hok t ht)
    (h2 limit up t k res (by omega) ht hk)
  rw [List.length_append, Nat.add_assoc, List.append_assoc, List.append_assoc]
  exact h3

theorem okTail_nil : okTail [] := by
  intro c r e; cases e

theorem scanValue_of_outV (depth : Nat) (out t : List Char) (h : OutV depth [] out)
    (hd : depth ≤ maxNestingDepth) (ht : okTail t) : scanValue (out ++ t) = some t := by
  have h1 := h maxNestingDepth [] t 1 t (by simpa using hd) ht (scanAfterAux_nil _ 0 t)
  exact (scan_mono _ _).1 _ _ _ h1 _ (by rw [List.length_append]; omega)

/-- An encoded string is one value. -/
theorem outV_appendString (depth : Nat) (st : List Open) (s : String) (outA : List Char)
    (hok : ∀ t, okTail t → okTail (outA ++ t)) (hA : OutA depth st outA) :
    OutV depth st (appendString s ++ outA) :=
  outV_of_after depth st (appendString s) outA (by simp [appendString])
    (fun lim m up x _ _ => by
      simp only [appendString, List.cons_append, List.append_assoc, List.nil_append]
      rw [scanValueAux_string, (appendString_spec s.data x).1]; rfl) hok hA

theorem valueHead_appendString (s : String) (x : List Char) : valueHead (appendString s ++ x) :=
  ⟨'"', _, rfl, by decide, by decide⟩

theorem scanMembers_more (n : Nat) (r r1 rest r2 : List Char)
    (hs : scanString r = some (':' :: r1)) (hv : skipSpace r1 = r1)
    (hval : scanValue r1 = some rest) (hsp : skipSpace rest = ',' :: r2) :
    scanMembers (n + 1) ('"' :: r) =
      (scanMembers n (skipSpace r2)).map (fun p =>
        ((String.mk (unquote r), String.mk (consumed r1 rest)) :: p.1, p.2)) := by
  simp only [scanMembers, hs, Option.map_some', skipSpace_cons_of_not ':' r1 (by decide), hv,
    hval, hsp, consumed]

theorem scanMembers_last (n : Nat) (r r1 rest r2 : List Char)
    (hs : scanString r = some (':' :: r1)) (hv : skipSpace r1 = r1)
    (hval : scanValue r1 = some rest) (hsp : skipSpace rest = '}' :: r2) :
    scanMembers (n + 1) ('"' :: r) =
      some ([(String.mk (unquote r), String.mk (consumed r1 rest))], r2) := by
  simp only [scanMembers, hs, Option.map_some', skipSpace_cons_of_not ':' r1 (by decide), hv,
    hval, hsp, consumed]

theorem objectMembers_of (input : String) (r : List Char) (h0 : input.data = '{' :: '"' :: r)
    (hscan : scanValue input.data = some []) :
    objectMembers input = (scanMembers (input.data.length + 1) ('"' :: r)).map Prod.fst := by
  have hsp : skipSpace input.data = input.data := by
    rw [h0]; exact skipSpace_cons_of_not _ _ (by decide)
  unfold objectMembers
  simp only [hsp, hscan]
  rw [h0]
  have hnil : skipSpace [] = [] := rfl
  simp [skipSpace_cons_of_not '"' r (by decide), hnil]

theorem keyChannel (x : List Char) :
    scanString ("channel\"".data ++ x) = some x ∧ unquote ("channel\"".data ++ x) = "channel".data := by
  constructor
  · simp [scanString]
  · simp [unquote]

theorem keyEvent (x : List Char) :
    scanString ("event\"".data ++ x) = some x ∧ unquote ("event\"".data ++ x) = "event".data := by
  constructor
  · simp [scanString]
  · simp [unquote]

theorem keyData (x : List Char) :
    scanString ("data\"".data ++ x) = some x ∧ unquote ("data\"".data ++ x) = "data".data := by
  constructor
  · simp [scanString]
  · simp [unquote]

end Json

theorem marshalBroadcast_eq (channel event : String) (data : List Char) :
    marshalBroadcast channel event data =
      '\x7b' :: '"' :: ("channel\"".data ++ ':' :: (Json.appendString channel ++
        ',' :: '"' :: ("event\"".data ++ ':' :: (Json.appendString event ++
          ',' :: '"' :: ("data\"".data ++ ':' :: (data ++ ['\x7d'])))))) := by
  simp [marshalBroadcast]

theorem Json.outV_appendString_nil (s : String) : Json.OutV 0 [] (Json.appendString s) := by
  have h := Json.outV_appendString 0 [] s [] (fun t ht => ht) (Json.outA_nil 0)
  rwa [List.append_nil] at h

theorem Json.stringField_appendString (tag key : String) (s : String)
    (rest : List (String × String)) (cur : String) (hk : Json.keyMatches tag key = true) :
    Json.stringField tag ((key, String.mk (Json.appendString s)) :: rest) cur =
      Json.stringField tag rest s := by
  have h := (Json.appendString_spec s.data []).2
  simp only [Json.stringField, hk, if_true, Json.appendString, List.cons_append, h]

theorem Json.stringField_skip (tag key raw : String)
    (rest : List (String × String)) (cur : String) (hk : Json.keyMatches tag key = false) :
    Json.stringField tag ((key, raw) :: rest) cur = Json.stringField tag rest cur := by
  simp [Json.stringField, hk]

theorem objectMembers_marshal (channel event : String) (depth : Nat) (out : List Char)
    (hv : Json.valueHead out) (hOut : Json.OutV depth [] out)
    (hd : depth + 1 ≤ Json.maxNestingDepth) :
    Json.objectMembers (String.mk (marshalBroadcast channel event out)) =
      some [("channel", String.mk (Json.appendString channel)),
        ("event", String.mk (Json.appendString event)), ("data", String.mk out)] := by
  have hcomma : ∀ x t, Json.okTail t → Json.okTail ((',' :: x) ++ t) :=
    fun x t _ => Json.okTail_cons _ _ (Or.inl rfl)
  have hclose : ∀ t, Json.okTail t → Json.okTail (['\x7d'] ++ t) :=
    fun t _ => Json.okTail_cons _ _ (Or.inr (Or.inr rfl))
  have A3 : Json.OutA 0 [Json.Open.obj] ['\x7d'] :=
    Json.outA_obj_close 0 [] [] (Json.outA_nil 0)
  have V3 : Json.OutV (depth + 1) [Json.Open.obj] (out ++ ['\x7d']) :=
    Json.outV_append depth 0 (depth + 1) [] [Json.Open.obj] out ['\x7d'] hOut hclose A3
      (Nat.le_refl _) (Nat.zero_le _)
  have A2 : Json.OutA (depth + 1) [Json.Open.obj]
      (',' :: '"' :: ("data\"".data ++ ':' :: (out ++ ['\x7d']))) :=
    Json.outA_obj_comma (depth + 1) [] "data\"".data (out ++ ['\x7d'])
      (fun t => (Json.keyData t).1) (hv.append _) V3
  have V2 := Json.outV_appendString (depth + 1) [Json.Open.obj] event _ (hcomma _) A2
  have A1 : Json.OutA (depth + 1) [Json.Open.obj] (',' :: '"' :: ("event\"".data ++ ':' ::
      (Json.appendString event ++ ',' :: '"' :: ("data\"".data ++ ':' :: (out ++ ['\x7d']))))) :=
    Json.outA_obj_comma (depth + 1) [] "event\"".data _ (fun t => (Json.keyEvent t).1)
      (Json.valueHead_appendString _ _) V2
  have V1 := Json.outV_appendString (depth + 1) [Json.Open.obj] channel _ (hcomma _) A1
  have V0 : Json.OutV (depth + 1) [] (marshalBroadcast channel event out) := by
    rw [marshalBroadcast_eq]
    exact Json.outV_obj (depth + 1) [] "channel\"".data _ (Nat.succ_pos _)
      (fun t => (Json.keyChannel t).1) (Json.valueHead_appendString _ _) V1
  have hscan : Json.scanValue (marshalBroadcast channel event out) = some [] := by
    have h := Json.scanValue_of_outV _ _ [] V0 hd Json.okTail_nil
    rwa [List.append_nil] at h
  rw [Json.objectMembers_of (String.mk (marshalBroadcast channel event out)) _
    (marshalBroadcast_eq channel event out) hscan]
  obtain ⟨n, hn⟩ : ∃ n, (String.mk (marshalBroadcast channel event out)).data.length + 1 = n + 3 :=
    ⟨(marshalBroadcast channel event out).length - 2, by
      show (marshalBroadcast channel event out).length + 1 = _
      rw [marshalBroadcast_eq]; simp⟩
  rw [hn]
  rw [Json.scanMembers_more (n + 2) _ _ _ _ (Json.keyChannel _).1
    (Json.valueHead_appendString _ _).skipSpace
    (Json.scanValue_of_outV _ _ _ (Json.outV_appendString_nil channel) (Nat.zero_le _)
      (Json.okTail_cons _ _ (Or.inl rfl)))
    (Json.skipSpace_cons_of_not _ _ (by decide))]
  rw [Json.skipSpace_cons_of_not _ _ (by decide)]
  rw [Json.scanMembers_more (n + 1) _ _ _ _ (Json.keyEvent _).1
    (Json.valueHead_appendString _ _).skipSpace
    (Json.scanValue_of_outV _ _ _ (Json.outV_appendString_nil event) (Nat.zero_le _)
      (Json.okTail_cons _ _ (Or.inl rfl)))
    (Json.skipSpace_cons_of_not _ _ (by decide))]
  rw [Json.skipSpace_cons_of_not _ _ (by decide)]
  rw [Json.scanMembers_last n _ _ _ _ (Json.keyData _).1
    (hv.append _).skipSpace
    (Json.scanValue_of_outV _ _ _ hOut (by omega) (Json.okTail_cons _ _ (Or.inr (Or.inr rfl))))
    (Json.skipSpace_cons_of_not _ _ (by decide))]
  simp only [Option.map_some', Json.consumed_append, (Json.keyChannel _).2, (Json.keyEvent _).2,
    (Json.keyData _).2]

theorem deserialize_marshal (channel event : String) (depth : Nat) (out : List Char)
    (hv : Json.valueHead out) (hOut : Json.OutV depth [] out)
    (hd : depth + 1 ≤ Json.maxNestingDepth) :
    DeserializeBroadcast (String.mk (marshalBroadcast channel event out)) =
      some { Channel := channel, Event := event, Data := String.mk out } := by
  unfold DeserializeBroadcast
  rw [objectMembers_marshal channel event depth out hv hOut hd]
  have k1 : Json.keyMatches "channel" "channel" = true := by decide
  have k2 : Json.keyMatches "channel" "event" = false := by decide
  have k3 : Json.keyMatches "channel" "data" = false := by decide
  have k4 : Json.keyMatches "event" "channel" = false := by decide
  have k5 : Json.keyMatches "event" "event" = true := by decide
  have k6 : Json.keyMatches "event" "data" = false := by decide
  have k7 : Json.keyMatches "data" "channel" = false := by decide
  have k8 : Json.keyMatches "data" "event" = false := by decide
  have k9 : Json.keyMatches "data" "data" = true := by decide
  have e1 : Json.stringField "channel" [("channel", String.mk (Json.appendString channel)),
      ("event", String.mk (Json.appendString event)), ("data", String.mk out)] "" =
      some channel := by
    rw [Json.stringField_appendString _ _ _ _ _ k1, Json.stringField_skip _ _ _ _ _ k2,
      Json.stringField_skip _ _ _ _ _ k3]
    rfl
  have e2 : Json.stringField "event" [("channel", String.mk (Json.appendString channel)),
      ("event", String.mk (Json.appendString event)), ("data", String.mk out)] "" =
      some event := by
    rw [Json.stringField_skip _ _ _ _ _ k4, Json.stringField_appendString _ _ _ _ _ k5,
      Json.stringField_skip _ _ _ _ _ k6]
    rfl
  have e3 : Json.rawField "data" [("channel", String.mk (Json.appendString channel)),
      ("event", String.mk (Json.appendString event)), ("data", String.mk out)] "" =
      String.mk out := by
    simp [Json.rawField, k7, k8, k9]
  simp only [e1, e2, e3]

/-! ### Arrays nested to the limit of the scanner -/

theorem replicate_append_cons {α : Type} (n : Nat) (a : α) (l : List α) :
    List.replicate n a ++ a :: l = List.replicate (n + 1) a ++ l := by
  rw [List.replicate_succ', List.append_assoc]
  rfl

theorem skipSpace_bracket (r : List Char) : Json.skipSpace ('[' :: r) = '[' :: r :=
  Json.skipSpace_cons_of_not _ _ (by decide)

/-- Reading `n + 1` opening brackets and the first closing bracket. -/
theorem Json.scan_open (limit : Nat) (n f : Nat) :
    ∀ (st : List Json.Open) (r : List Char), st.length + (n + 1) ≤ limit →
      Json.scanValueAux limit (n + 1 + f) st (List.replicate (n + 1) '[' ++ ']' :: r) =
        Json.scanAfterAux limit f (List.replicate n Json.Open.arr ++ st) r := by
  induction n with
  | zero =>
    intro st r hl
    have e : 0 + 1 + f = f + 1 := by omega
    rw [e]
    exact Json.scanValueAux_arr_close limit f st _ r (by omega)
      (Json.skipSpace_cons_of_not _ _ (by decide))
  | succ n ih =>
    intro st r hl
    have e : n + 1 + 1 + f = (n + 1 + f) + 1 := by omega
    rw [e, List.replicate_succ, List.cons_append,
      Json.scanValueAux_arr_open limit _ st _ (by omega) (by
        intro r1 h1
        rw [List.replicate_succ, List.cons_append, skipSpace_bracket] at h1
        cases h1),
      List.replicate_succ, List.cons_append, skipSpace_bracket, ← List.cons_append,
      ← List.replicate_succ, ih (Json.Open.arr :: st) r (by simp; omega),
      replicate_append_cons]

/-- Reading `n` closing brackets. -/
theorem Json.scan_close (limit : Nat) (n f : Nat) :
    ∀ (st : List Json.Open) (r : List Char),
      Json.scanAfterAux limit (n + f) (List.replicate n Json.Open.arr ++ st)
          (List.replicate n ']' ++ r) =
        Json.scanAfterAux limit f st r := by
  induction n with
  | zero => intro st r; simp
  | succ n ih =>
    intro st r
    have e : n + 1 + f = (n + f) + 1 := by omega
    rw [e, List.replicate_succ, List.replicate_succ, List.cons_append, List.cons_append,
      Json.scanAfterAux_arr_close limit _ _ _ _ (Json.skipSpace_cons_of_not _ _ (by decide)), ih]

theorem nestedArrays_succ (n : Nat) (r : List Char) :
    nestedArrays (n + 1) ++ r =
      List.replicate (n + 1) '[' ++ ']' :: (List.replicate n ']' ++ r) := by
  unfold nestedArrays
  rw [List.append_assoc, List.replicate_succ (n := n) (a := ']'), List.cons_append]

/-- Arrays nested within the limit are one value. -/
theorem Json.scan_nestedArrays (limit n f : Nat) (r : List Char) (hl : n + 1 ≤ limit) :
    Json.scanValueAux limit (n + 1 + (n + (f + 1))) [] (nestedArrays (n + 1) ++ r) = some r := by
  rw [nestedArrays_succ, Json.scan_open limit n _ [] _ (by simpa using hl),
    Json.scan_close limit n (f + 1) [] r, Json.scanAfterAux_nil]

/-- An opening bracket beyond the limit is an error, whatever follows. -/
theorem Json.scan_too_deep (limit : Nat) (n : Nat) :
    ∀ (f : Nat) (st : List Json.Open) (r : List Char), st.length + (n + 1) > limit →
      Json.scanValueAux limit f st (List.replicate (n + 1) '[' ++ r) = none := by
  induction n with
  | zero =>
    intro f st r hl
    cases f with
    | zero => simp [Json.scanValueAux]
    | succ f => exact Json.scanValueAux_arr_full limit f st _ (by omega)
  | succ n ih =>
    intro f st r hl
    cases f with
    | zero => simp [Json.scanValueAux]
    | succ f =>
      by_cases hd : st.length ≥ limit
      · rw [List.replicate_succ, List.cons_append]
        exact Json.scanValueAux_arr_full limit f st _ hd
      · rw [List.replicate_succ, List.cons_append,
          Json.scanValueAux_arr_open limit _ st _ (by omega) (by
            intro r1 h1
            rw [List.replicate_succ, List.cons_append, skipSpace_bracket] at h1
            cases h1),
          List.replicate_succ, List.cons_append, skipSpace_bracket, ← List.cons_append,
          ← List.replicate_succ]
        exact ih f (Json.Open.arr :: st) r (by simp; omega)

theorem Json.compactValueAux_arr_close (limit m : Nat) (st : List Json.Open) (r r1 : List Char)
    (hd : st.length < limit) (h : Json.skipSpace r = ']' :: r1) :
    Json.compactValueAux limit (m + 1) st ('[' :: r) =
      (Json.compactAfterAux limit m st r1).map (fun q => ('[' :: ']' :: q.1, q.2)) := by
  simp only [Json.compactValueAux, h, if_neg (Nat.not_le.2 hd)]

theorem Json.compactValueAux_arr_open (limit m : Nat) (st : List Json.Open) (r : List Char)
    (hd : st.length < limit) (h : ∀ r1, Json.skipSpace r ≠ ']' :: r1) :
    Json.compactValueAux limit (m + 1) st ('[' :: r) =
      (Json.compactValueAux limit m (Json.Open.arr :: st) (Json.skipSpace r)).map
        (fun q => ('[' :: q.1, q.2)) := by
  simp only [Json.compactValueAux, if_neg (Nat.not_le.2 hd)]

theorem Json.compactAfterAux_arr_close (limit m : Nat) (up : List Json.Open) (r r1 : List Char)
    (h : Json.skipSpace r = ']' :: r1) :
    Json.compactAfterAux limit (m + 1) (Json.Open.arr :: up) r =
      (Json.compactAfterAux limit m up r1).map (fun q => (']' :: q.1, q.2)) := by
  simp only [Json.compactAfterAux, h]

theorem Json.compact_open (limit : Nat) (n f : Nat) :
    ∀ (st : List Json.Open) (r : List Char), st.length + (n + 1) ≤ limit →
      Json.compactValueAux limit (n + 1 + f) st (List.replicate (n + 1) '[' ++ ']' :: r) =
        (Json.compactAfterAux limit f (List.replicate n Json.Open.arr ++ st) r).map
          (fun q => (List.replicate (n + 1) '[' ++ ']' :: q.1, q.2)) := by
  induction n with
  | zero =>
    intro st r hl
    have e : 0 + 1 + f = f + 1 := by omega
    rw [e]
    exact Json.compactValueAux_arr_close limit f st _ r (by omega)
      (Json.skipSpace_cons_of_not _ _ (by decide))
  | succ n ih =>
    intro st r hl
    have e : n + 1 + 1 + f = (n + 1 + f) + 1 := by omega
    rw [e, List.replicate_succ, List.cons_append,
      Json.compactValueAux_arr_open limit _ st _ (by omega) (by
        intro r1 h1
        rw [List.replicate_succ, List.cons_append, skipSpace_bracket] at h1
        cases h1),
      List.replicate_succ, List.cons_append, skipSpace_bracket, ← List.cons_append,
      ← List.replicate_succ, ih (Json.Open.arr :: st) r (by simp; omega),
      replicate_append_cons, Option.map_map]
    rfl

theorem Json.compact_close (limit : Nat) (n f : Nat) :
    ∀ (st : List Json.Open) (r : List Char),
      Json.compactAfterAux limit (n + f) (List.replicate n Json.Open.arr ++ st)
          (List.replicate n ']' ++ r) =
        (Json.compactAfterAux limit f st r).map (fun q => (List.replicate n ']' ++ q.1, q.2)) := by
  induction n with
  | zero =>
    intro st r
    simp
  | succ n ih =>
    intro st r
    have e : n + 1 + f = (n + f) + 1 := by omega
    rw [e, List.replicate_succ, List.replicate_succ, List.cons_append, List.cons_append,
      Json.compactAfterAux_arr_close limit _ _ _ _ (Json.skipSpace_cons_of_not _ _ (by decide)),
      ih, Option.map_map]
    rfl

/-- Compacting arrays nested within the limit writes them as they are. -/
theorem Json.compact_nestedArrays (n : Nat) (hl : n + 1 ≤ Json.maxNestingDepth) :
    Json.compact (nestedArrays (n + 1)) = some (nestedArrays (n + 1)) := by
  have hs : Json.skipSpace (nestedArrays (n + 1)) = nestedArrays (n + 1) := by
    unfold nestedArrays
    rw [List.replicate_succ, List.cons_append, skipSpace_bracket]
  have hlen : 2 * (nestedArrays (n + 1)).length + 2 = n + 1 + (n + (2 * n + 4 + 1)) := by
    unfold nestedArrays
    simp
    omega
  have h := nestedArrays_succ n []
  rw [List.append_nil] at h
  unfold Json.compact
  simp only [hs, hlen]
  rw [h, Json.compact_open Json.maxNestingDepth n _ [] _ (by simpa using hl),
    Json.compact_close Json.maxNestingDepth n _ [] []]
  simp [Json.compactAfterAux, Json.skipSpace]

theorem validJSON_nestedArrays (n : Nat) (hl : n + 1 ≤ Json.maxNestingDepth) :
    validJSON (String.mk (nestedArrays (n + 1))) = true := by
  have hs : Json.skipSpace (nestedArrays (n + 1)) = nestedArrays (n + 1) := by
    unfold nestedArrays
    rw [List.replicate_succ, List.cons_append, skipSpace_bracket]
  have hlen : 2 * (nestedArrays (n + 1)).length + 2 = n + 1 + (n + (2 * n + 4 + 1)) := by
    unfold nestedArrays
    simp
    omega
  have h := Json.scan_nestedArrays Json.maxNestingDepth n (2 * n + 4) [] hl
  rw [List.append_nil] at h
  unfold validJSON validJSONWithin Json.scanValueWithin
  simp only [hs, hlen, h]
  rfl

theorem Json.appendString_append (s : String) (x : List Char) :
    Json.appendString s ++ x = '"' :: (s.data.flatMap Json.appendStringChar ++ '"' :: x) := by
  simp [Json.appendString]

/-- The scanner rejects the object that `Marshal` writes around arrays nested
to its limit: the innermost array is one level too deep. -/
theorem Json.scan_marshal_too_deep (channel event : String) (n : Nat) (r : List Char)
    (hl : n + 2 > Json.maxNestingDepth) (f : Nat) :
    Json.scanValueAux Json.maxNestingDepth f []
      (marshalBroadcast channel event (List.replicate (n + 1) '[' ++ r)) = none := by
  have hpos : ([] : List Json.Open).length < Json.maxNestingDepth := by
    unfold Json.maxNestingDepth
    simp
  rw [marshalBroadcast_eq]
  rcases f with _ | f
  · simp [Json.scanValueAux]
  rw [Json.scanValueAux_obj_key _ f [] _ _ _ _ hpos (Json.skipSpace_cons_of_not _ _ (by decide))
    (Json.keyChannel _).1 (Json.skipSpace_cons_of_not _ _ (by decide)),
    (Json.valueHead_appendString _ _).skipSpace]
  rcases f with _ | f
  · simp [Json.scanValueAux]
  rw [Json.appendString_append, Json.scanValueAux_string,
    (Json.appendString_spec channel.data _).1, Option.some_bind]
  rcases f with _ | f
  · simp [Json.scanAfterAux]
  rw [Json.scanAfterAux_obj_comma _ f [] _ _ _ _ _ (Json.skipSpace_cons_of_not _ _ (by decide))
    (Json.skipSpace_cons_of_not _ _ (by decide)) (Json.keyEvent _).1
    (Json.skipSpace_cons_of_not _ _ (by decide)),
    (Json.valueHead_appendString _ _).skipSpace]
  rcases f with _ | f
  · simp [Json.scanValueAux]
  rw [Json.appendString_append, Json.scanValueAux_string,
    (Json.appendString_spec event.data _).1, Option.some_bind]
  rcases f with _ | f
  · simp [Json.scanAfterAux]
  rw [Json.scanAfterAux_obj_comma _ f [] _ _ _ _ _ (Json.skipSpace_cons_of_not _ _ (by decide))
    (Json.skipSpace_cons_of_not _ _ (by decide)) (Json.keyData _).1
    (Json.skipSpace_cons_of_not _ _ (by decide)),
    List.append_assoc, List.replicate_succ, List.cons_append, skipSpace_bracket,
    ← List.cons_append, ← List.replicate_succ]
  exact Json.scan_too_deep _ n f [Json.Open.obj] _ (by
    show 1 + (n + 1) > Json.maxNestingDepth
    omega)

theorem deserialize_marshal_too_deep (channel event : String) (n : Nat)
    (hl : n + 2 > Json.maxNestingDepth) :
    DeserializeBroadcast (String.mk (marshalBroadcast channel event (nestedArrays (n + 1)))) =
      none := by
  have hs : Json.skipSpace (marshalBroadcast channel event (nestedArrays (n + 1))) =
      marshalBroadcast channel event (nestedArrays (n + 1)) := by
    rw [marshalBroadcast_eq]
    exact Json.skipSpace_cons_of_not _ _ (by decide)
  unfold DeserializeBroadcast Json.objectMembers
  simp only [hs]
  unfold Json.scanValue Json.scanValueWithin nestedArrays
  rw [Json.scan_marshal_too_deep channel event n _ hl]

theorem SerializeBroadcast_of_compact (msg : BroadcastMessage) (data : List Char)
    (h : Json.compact msg.Data.data = some data) :
    SerializeBroadcast msg = some (String.mk (marshalBroadcast msg.Channel msg.Event data)) := by
  unfold SerializeBroadcast
  rw [h]

/-- C20, as stated, fails in two ways.  For the message with channel `news`,
event `tick` and data `{"a": 1}`, which is valid JSON, the round trip
succeeds and returns the data `{"a":1}`, not the data of the message.  For
the message whose data is arrays nested 10000 deep, which is valid JSON,
`SerializeBroadcast` succeeds and `DeserializeBroadcast` of its result is an
error: in the object that `Marshal` writes the innermost array is the 10001st
open value. -/
theorem C20_not_identity :
    (validJSON spacedMessage.Data = true ∧
      (SerializeBroadcast spacedMessage).bind DeserializeBroadcast =
        some { Channel := "news", Event := "tick", Data := "\x7b\"a\":1\x7d" } ∧
      (SerializeBroadcast spacedMessage).bind DeserializeBroadcast ≠ some spacedMessage) ∧
    (validJSON deepMessage.Data = true ∧
      SerializeBroadcast deepMessage =
        some (String.mk (marshalBroadcast "news" "tick" (nestedArrays 10000))) ∧
      (SerializeBroadcast deepMessage).bind DeserializeBroadcast = none) := by
  have h1 : 9999 + 1 ≤ Json.maxNestingDepth := by unfold Json.maxNestingDepth; omega
  have h2 : 9999 + 2 > Json.maxNestingDepth := by unfold Json.maxNestingDepth; omega
  have hser : SerializeBroadcast deepMessage =
      some (String.mk (marshalBroadcast "news" "tick" (nestedArrays 10000))) := by
    have hc : Json.compact (nestedArrays 10000) = some (nestedArrays 10000) :=
      Json.compact_nestedArrays 9999 h1
    exact SerializeBroadcast_of_compact deepMessage (nestedArrays 10000) hc
  refine ⟨by decide, validJSON_nestedArrays 9999 h1, hser, ?_⟩
  rw [hser, Option.some_bind]
  exact deserialize_marshal_too_deep "news" "tick" 9999 h2

/-- C20 (amended). For every `BroadcastMessage` `m` whose data is valid JSON
text in which at most 9999 arrays and objects are open at a time (one fewer
than `maxNestingDepth`, the data standing inside the object that `Marshal`
writes), `DeserializeBroadcast(SerializeBroadcast(m))` succeeds and returns a
message with the same channel, the same event and, as data, the compact form
of the data of `m`; the message returned is `m` itself when the data of `m` is
its own compact form. -/
theorem C20_round_trip (m : BroadcastMessage)
    (h : validJSONWithin (Json.maxNestingDepth - 1) m.Data = true) :
    ∃ data, Json.compact m.Data.data = some data ∧
      (SerializeBroadcast m).bind DeserializeBroadcast =
        some { Channel := m.Channel, Event := m.Event, Data := String.mk data } ∧
      (data = m.Data.data → (SerializeBroadcast m).bind DeserializeBroadcast = some m) := by
  unfold validJSONWithin Json.scanValueWithin at h
  cases hs : Json.scanValueAux (Json.maxNestingDepth - 1)
      (2 * (Json.skipSpace m.Data.data).length + 2) [] (Json.skipSpace m.Data.data) with
  | none => rw [hs] at h; cases h
  | some rest =>
    rw [hs] at h
    have hrest : Json.skipSpace rest = [] := by simpa using h
    obtain ⟨out, hc, hv, hOut⟩ := (Json.compact_spec _ _).1 [] _ rest hs
    have hcompact : Json.compact m.Data.data = some out := by
      unfold Json.compact
      simp only [hc Json.maxNestingDepth (Nat.sub_le _ _), hrest, ne_eq, not_true_eq_false,
        if_false]
    have hround : (SerializeBroadcast m).bind DeserializeBroadcast =
        some { Channel := m.Channel, Event := m.Event, Data := String.mk out } := by
      unfold SerializeBroadcast
      simp only [hcompact, Option.some_bind]
      exact deserialize_marshal m.Channel m.Event _ out hv hOut (by
        unfold Json.maxNestingDepth; omega)
    refine ⟨out, hcompact, hround, fun e => ?_⟩
    rw [hround, e]

theorem C20_round_trip_witness :
    validJSONWithin (Json.maxNestingDepth - 1) compactMessage.Data = true ∧
      ∃ data, Json.compact compactMessage.Data.data = some data ∧
        (SerializeBroadcast compactMessage).bind DeserializeBroadcast =
          some { Channel := "orders", Event := "created", Data := String.mk data } ∧
        (data = compactMessage.Data.data →
          (SerializeBroadcast compactMessage).bind DeserializeBroadcast = some compactMessage) :=
  ⟨by decide, C20_round_trip compactMessage (by decide)⟩

/-! ## C30: `responseCapturer.Write` -/

theorem goLen_append (a b : String) : goLen (a ++ b) = goLen a + goLen b := by
  simp [goLen, goBytes, String.data_append]

theorem responseCapturer.writeAll_of_overflow (r : responseCapturer) (h : r.overflow = true)
    (ws : List String) : r.writeAll ws = r := by
  induction ws with
  | nil => rfl
  | cons b rest ih =>
    unfold responseCapturer.writeAll at ih ⊢
    rw [List.foldl_cons]
    have : (r.Write b).1 = r := by simp [responseCapturer.Write, h]
    rw [this, ih]

theorem responseCapturer.writeAll_spec (ws : List String) :
    ∀ r : responseCapturer, r.overflow = false → (goLen r.body : Int) ≤ r.maxSize →
      (r.writeAll ws).body = r.body ++ concatWrites (keptWrites r.maxSize (goLen r.body) ws) ∧
        (goLen (r.writeAll ws).body : Int) ≤ r.maxSize ∧
        (r.writeAll ws).maxSize = r.maxSize ∧
        ((r.writeAll ws).overflow = true ↔ keptWrites r.maxSize (goLen r.body) ws ≠ ws) := by
  induction ws with
  | nil =>
    intro r ho hb
    simp [responseCapturer.writeAll, keptWrites, concatWrites, hb, ho]
  | cons b rest ih =>
    intro r ho hb
    unfold responseCapturer.writeAll
    rw [List.foldl_cons]
    by_cases hbig : (goLen r.body : Int) + (goLen b : Int) > r.maxSize
    · have hw : (r.Write b).1 = { r with overflow := true } := by
        simp [responseCapturer.Write, ho, hbig]
      rw [hw]
      have h2 := responseCapturer.writeAll_of_overflow { r with overflow := true } rfl rest
      unfold responseCapturer.writeAll at h2
      rw [h2]
      simp [keptWrites, hbig, concatWrites, hb]
    · have hw : (r.Write b).1 = { r with body := r.body ++ b } := by
        simp [responseCapturer.Write, ho, hbig]
      rw [hw]
      have hlen : goLen (r.body ++ b) = goLen r.body + goLen b := goLen_append _ _
      obtain ⟨h1, h2, h3, h4⟩ := ih { r with body := r.body ++ b } ho (by
        show (goLen (r.body ++ b) : Int) ≤ r.maxSize
        rw [hlen]; push_cast; omega)
      unfold responseCapturer.writeAll at h1 h2 h3 h4
      simp only [hlen] at h1 h4
      refine ⟨?_, h2, h3, ?_⟩
      · rw [h1]
        simp only [keptWrites, hbig, if_false]
        simp only [concatWrites, String.append_assoc]
      · rw [h4]
        simp only [keptWrites, hbig, if_false]
        simp

/-- C30. For a capturer that starts with an empty body and `maxSize ≥ 0`, after
every sequence of `Write` calls the length of the captured body does not
exceed `maxSize` and the body is the concatenation of exactly the writes that
precede the first write that would have exceeded `maxSize` (the flag
`overflow` being set if and only if there is such a write); every `Write`
returns `len(b)` and no error, and leaves the flag set once it is set. -/
theorem C30_capturer (maxSize : Int) (h : 0 ≤ maxSize) (ws : List String) :
    (goLen ((newCapturer maxSize).writeAll ws).body : Int) ≤ maxSize ∧
      ((newCapturer maxSize).writeAll ws).body = concatWrites (keptWrites maxSize 0 ws) ∧
      (((newCapturer maxSize).writeAll ws).overflow = true ↔ keptWrites maxSize 0 ws ≠ ws) ∧
      (∀ (r : responseCapturer) (b : String), (r.Write b).2 = (goLen b, none)) ∧
      (∀ (r : responseCapturer) (b : String), r.overflow = true →
        (r.Write b).1.overflow = true) ∧
      (∀ more : List String, ((newCapturer maxSize).writeAll ws).overflow = true →
        ((newCapturer maxSize).writeAll (ws ++ more)).overflow = true) := by
  have h0 : goLen (newCapturer maxSize).body = 0 := rfl
  obtain ⟨h1, h2, _, h4⟩ := responseCapturer.writeAll_spec ws (newCapturer maxSize) rfl (by
    rw [h0]; exact h)
  rw [h0] at h1 h4
  refine ⟨h2, ?_, h4, ?_, ?_, ?_⟩
  · rw [h1]
    show "" ++ concatWrites (keptWrites maxSize 0 ws) = _
    simp
  · intro r b
    unfold responseCapturer.Write
    split_ifs <;> rfl
  · intro r b hr
    simp [responseCapturer.Write, hr]
  · intro more ho
    have e : (newCapturer maxSize).writeAll (ws ++ more) =
        ((newCapturer maxSize).writeAll ws).writeAll more := by
      simp [responseCapturer.writeAll, List.foldl_append]
    rw [e, responseCapturer.writeAll_of_overflow _ ho]
    exact ho

theorem C30_capturer_witness :
    (0 : Int) ≤ 5 ∧
      ((newCapturer 5).writeAll ["ab", "cd", "ef", "g"]).body = "abcd" ∧
      ((newCapturer 5).writeAll ["ab", "cd", "ef", "g"]).overflow = true :=
  have h := C30_capturer 5 (by decide) ["ab", "cd", "ef", "g"]
  ⟨by decide, h.2.1.trans (by decide), h.2.2.1.2 (by decide)⟩

/-! ## C21: `doAuthorize` -/

/-- C21, as stated, fails for a response of status 500 or more whose body
overflowed: the provider `tinyProvider` captures at most 16 bytes, the worker
answers 503 with a body of 20 bytes, and `doAuthorize` denies without an
error. -/
theorem C21_overflow_before_status :
    ((bigError.SendRequest { channelName := "private-a", socketID := "1.1" }).calls.foldl
        responseCapturer.call (newCapturer tinyProvider.maxAuthBody)).status = 503 ∧
      ((bigError.SendRequest { channelName := "private-a", socketID := "1.1" }).calls.foldl
        responseCapturer.call (newCapturer tinyProvider.maxAuthBody)).overflow = true ∧
      (tinyProvider.doAuthorize (some bigError) "1.1" "private-a").result = denied ∧
      (tinyProvider.doAuthorize (some bigError) "1.1" "private-a").err = none := by
  decide

/-- C21 (amended). For a response captured from the dispatcher (the request
could be built and `SendRequest` returned no error), with `rr` the capturer
after the call: `doAuthorize` denies without an error when the body
overflowed; it denies with the error `worker 500` when the body did not
overflow and the status is 500 or more; it denies without an error when the
body did not overflow and the status is below 500 and not 200; and it returns
`Allowed = true`, with the captured body as `UserData` and no error, exactly
when the status is 200 and the body did not overflow. -/
theorem C21_do_authorize (ap : WorkerAuthProvider) (w : RequestDispatcher)
    (clientID channel : String) (rr : responseCapturer) (hp : ap.authPathValid = true)
    (he : (w.SendRequest { channelName := channel, socketID := clientID }).err = false)
    (hrr : rr = (w.SendRequest { channelName := channel, socketID := clientID }).calls.foldl
      responseCapturer.call (newCapturer ap.maxAuthBody)) :
    (rr.overflow = true →
        (ap.doAuthorize (some w) clientID channel).result = denied ∧
          (ap.doAuthorize (some w) clientID channel).err = none) ∧
      (rr.overflow = false → rr.status ≥ 500 →
        (ap.doAuthorize (some w) clientID channel).result = denied ∧
          (ap.doAuthorize (some w) clientID channel).err = some AuthError.worker500) ∧
      (rr.overflow = false → rr.status < 500 → rr.status ≠ 200 →
        (ap.doAuthorize (some w) clientID channel).result = denied ∧
          (ap.doAuthorize (some w) clientID channel).err = none) ∧
      ((ap.doAuthorize (some w) clientID channel).result.Allowed = true ↔
        rr.status = 200 ∧ rr.overflow = false) ∧
      (rr.status = 200 → rr.overflow = false →
        (ap.doAuthorize (some w) clientID channel).result =
            { Allowed := true, UserData := some rr.body } ∧
          (ap.doAuthorize (some w) clientID channel).err = none) ∧
      (ap.doAuthorize (some w) clientID channel).requests =
        [{ channelName := channel, socketID := clientID }] := by
  subst hrr
  unfold WorkerAuthProvider.doAuthorize
  simp only [hp, Bool.not_true, Bool.false_eq_true, if_false, he]
  refine ⟨?_, ?_, ?_, ?_, ?_, ?_⟩
  · intro ho
    simp [ho]
  · intro ho hs
    simp [ho, hs]
  · intro ho hs hn
    have : ¬ ((w.SendRequest { channelName := channel, socketID := clientID }).calls.foldl
      responseCapturer.call (newCapturer ap.maxAuthBody)).status ≥ 500 := by omega
    simp [ho, this, hn]
  · split_ifs with h1 h2 h3
    · simp [denied, h1]
    · simp only [Bool.not_eq_true] at h1
      simp [denied]
      intro e; omega
    · simp [denied, h3]
    · simp only [Bool.not_eq_true] at h1
      push_neg at h3
      simp [h1, h3]
  · intro hs ho
    simp [ho, hs]
  · split_ifs <;> rfl

theorem C21_do_authorize_witness :
    tinyProvider.authPathValid = true ∧
      (okWorker.SendRequest { channelName := "private-a", socketID := "1.1" }).err = false ∧
      (tinyProvider.doAuthorize (some okWorker) "1.1" "private-a").result =
        { Allowed := true, UserData := some "{}" } :=
  have hp : tinyProvider.authPathValid = true := by decide
  have he : (okWorker.SendRequest { channelName := "private-a", socketID := "1.1" }).err = false :=
    by decide
  ⟨hp, he, ((C21_do_authorize tinyProvider okWorker "1.1" "private-a" _ hp he rfl).2.2.2.2.1
    (by decide) (by decide)).1.trans (by decide)⟩

/-! ## C22: the circuit breaker around `doAuthorize` -/

theorem doAuthorize_of_failing (ap : WorkerAuthProvider) (w : RequestDispatcher)
    (hp : ap.authPathValid = true) (hfail : ∀ req, (w.SendRequest req).err = true)
    (clientID channel : String) :
    ap.doAuthorize (some w) clientID channel =
      { result := denied, err := some AuthError.dispatch, failure := some "dispatch_error",
        requests := [{ channelName := channel, socketID := clientID }] } := by
  unfold WorkerAuthProvider.doAuthorize
  simp [hp, hfail]

theorem ClosedAfter_new (maxAuthBody maxConcurrent : Int) (secret : String) (now : Nat) :
    ClosedAfter 0 (NewWorkerAuthProvider maxAuthBody maxConcurrent secret now).2 := by
  unfold ClosedAfter NewWorkerAuthProvider NewCircuitBreaker CircuitBreaker.toNewGeneration
  simp [Counts.clear, CBResetTimeout]

theorem Authorize_of_closed (ap : WorkerAuthProvider) (w : RequestDispatcher)
    (hp : ap.authPathValid = true) (hcap : 1 ≤ ap.semCap)
    (hfail : ∀ req, (w.SendRequest req).err = true) (k : Nat) (st : AuthState)
    (hst : ClosedAfter k st) (clientID channel : String) (t0 t1 : Nat) :
    (ap.Authorize st (some w) clientID channel t0 t1).result = denied ∧
      (ap.Authorize st (some w) clientID channel t0 t1).requests =
        [{ channelName := channel, socketID := clientID }] ∧
      (k + 1 < 5 → ClosedAfter (k + 1) (ap.Authorize st (some w) clientID channel t0 t1).state) ∧
      (k + 1 = 5 →
        OpenUntil (t1 + CBResetTimeout) (ap.Authorize st (some w) clientID channel t0 t1).state) := by
  obtain ⟨⟨mr, iv, tmo, rt, s, g, c, e⟩, fl, tr⟩ := st
  obtain ⟨h1, h2, h3, h4, h5, h6, h7⟩ := hst
  simp only at h1 h2 h3 h4 h5 h6 h7
  subst h1 h2 h4 h5 h6 h7 h3
  have hcap2 : ¬ ap.semCap ≤ 0 := by omega
  have hcap3 : 0 < ap.semCap := by omega
  by_cases hk : c.ConsecutiveFailures + 1 ≥ 5
  · have key : ap.Authorize
        { breaker :=
            { maxRequests := mr, interval := 0, timeout := CBResetTimeout,
              readyToTrip := fun counts => decide (counts.ConsecutiveFailures ≥ CBThreshold),
              state := BreakerState.stateClosed, generation := g, counts := c, expiry := none },
          inFlight := 0, breakerTripped := tr } (some w) clientID channel t0 t1 =
        { state :=
            { breaker :=
                { maxRequests := mr, interval := 0, timeout := CBResetTimeout,
                  readyToTrip := fun counts => decide (counts.ConsecutiveFailures ≥ CBThreshold),
                  state := BreakerState.stateOpen, generation := g + 1, counts := Counts.clear,
                  expiry := some (t1 + CBResetTimeout) },
              inFlight := 0, breakerTripped := tr },
          result := denied,
          requests := [{ channelName := channel, socketID := clientID }] } := by
      simp [WorkerAuthProvider.Authorize, hcap2, hcap3, CircuitBreaker.Execute,
        CircuitBreaker.beforeRequest, CircuitBreaker.currentState,
        doAuthorize_of_failing ap w hp hfail, CircuitBreaker.afterRequest,
        CircuitBreaker.setState, CircuitBreaker.toNewGeneration, Counts.onFailure, CBThreshold, hk]
    rw [key]
    refine ⟨rfl, rfl, fun h => by omega, fun _ => ⟨rfl, rfl, rfl⟩⟩
  · have key : ap.Authorize
        { breaker :=
            { maxRequests := mr, interval := 0, timeout := CBResetTimeout,
              readyToTrip := fun counts => decide (counts.ConsecutiveFailures ≥ CBThreshold),
              state := BreakerState.stateClosed, generation := g, counts := c, expiry := none },
          inFlight := 0, breakerTripped := tr } (some w) clientID channel t0 t1 =
        { state :=
            { breaker :=
                { maxRequests := mr, interval := 0, timeout := CBResetTimeout,
                  readyToTrip := fun counts => decide (counts.ConsecutiveFailures ≥ CBThreshold),
                  state := BreakerState.stateClosed, generation := g,
                  counts :=
                    { Requests := c.Requests + 1, TotalSuccesses := c.TotalSuccesses,
                      TotalFailures := c.TotalFailures + 1, ConsecutiveSuccesses := 0,
                      ConsecutiveFailures := c.ConsecutiveFailures + 1 },
                  expiry := none },
              inFlight := 0, breakerTripped := tr },
          result := denied,
          requests := [{ channelName := channel, socketID := clientID }] } := by
      simp [WorkerAuthProvider.Authorize, hcap2, hcap3, CircuitBreaker.Execute,
        CircuitBreaker.beforeRequest, CircuitBreaker.currentState,
        doAuthorize_of_failing ap w hp hfail, CircuitBreaker.afterRequest,
        CircuitBreaker.setState, CircuitBreaker.toNewGeneration, Counts.onFailure, CBThreshold, hk]
    rw [key]
    refine ⟨rfl, rfl, fun _ => ⟨rfl, rfl, rfl, rfl, rfl, rfl, rfl⟩, fun h => by omega⟩

theorem Authorize_of_open (ap : WorkerAuthProvider) (w : Option RequestDispatcher)
    (hcap : 1 ≤ ap.semCap) (e : Nat) (st : AuthState) (hst : OpenUntil e st)
    (clientID channel : String) (t0 t1 : Nat) (ht : t0 ≤ e) :
    (ap.Authorize st w clientID channel t0 t1).result = denied ∧
      (ap.Authorize st w clientID channel t0 t1).requests = [] ∧
      OpenUntil e (ap.Authorize st w clientID channel t0 t1).state := by
  obtain ⟨⟨mr, iv, tmo, rt, s, g, c, e0⟩, fl, tr⟩ := st
  obtain ⟨h1, h2, h3⟩ := hst
  simp only at h1 h2 h3
  subst h1 h2 h3
  have hcap2 : ¬ ap.semCap ≤ 0 := by omega
  have hcap3 : 0 < ap.semCap := by omega
  have hlt : ¬ e < t0 := by omega
  simp [WorkerAuthProvider.Authorize, hcap2, hcap3, CircuitBreaker.Execute,
    CircuitBreaker.beforeRequest, CircuitBreaker.currentState, hlt, OpenUntil]

theorem authorizeAll_of_closed (ap : WorkerAuthProvider) (w : RequestDispatcher)
    (hp : ap.authPathValid = true) (hcap : 1 ≤ ap.semCap)
    (hfail : ∀ req, (w.SendRequest req).err = true) (calls : List AuthCall) :
    ∀ (k : Nat) (st : AuthState), ClosedAfter k st → k + calls.length ≤ 5 →
      ((ap.authorizeAll (some w) st calls).2.map (fun o => (o.result, o.requests)) =
          calls.map (fun c => (denied, [{ channelName := c.channel, socketID := c.clientID }]))) ∧
        (k + calls.length < 5 →
          ClosedAfter (k + calls.length) (ap.authorizeAll (some w) st calls).1) ∧
        (k + calls.length = 5 → ∀ last, calls.getLast? = some last →
          OpenUntil (last.t1 + CBResetTimeout) (ap.authorizeAll (some w) st calls).1) := by
  induction calls with
  | nil =>
    intro k st hst _
    refine ⟨rfl, fun _ => hst, fun _ last hl => ?_⟩
    simp at hl
  | cons call rest ih =>
    intro k st hst hlen
    rw [List.length_cons] at hlen
    obtain ⟨h1, h2, h3, h4⟩ :=
      Authorize_of_closed ap w hp hcap hfail k st hst call.clientID call.channel call.t0 call.t1
    unfold WorkerAuthProvider.authorizeAll
    simp only [List.map_cons, List.length_cons, h1, h2]
    cases rest with
    | nil =>
      refine ⟨rfl, fun hk => h3 (by simpa using hk), fun hk last hl => ?_⟩
      simp only [List.getLast?_singleton, Option.some.injEq] at hl
      subst hl
      exact h4 (by simpa using hk)
    | cons c2 rest2 =>
      have hk1 : k + 1 < 5 := by simp only [List.length_cons] at hlen; omega
      obtain ⟨i1, i2, i3⟩ := ih (k + 1) _ (h3 hk1) (by simp only [List.length_cons] at hlen ⊢; omega)
      refine ⟨by rw [i1], fun hk => ?_, fun hk last hl => ?_⟩
      · have := i2 (by simp only [List.length_cons] at hk ⊢; omega)
        simpa [Nat.add_assoc, Nat.add_comm, Nat.add_left_comm] using this
      · rw [List.getLast?_cons_cons] at hl
        exact i3 (by simp only [List.length_cons] at hk ⊢; omega) last hl

/-- C22. For a provider built by `NewWorkerAuthProvider` whose dispatcher
returns an error on every call: each of the first five `Authorize` calls hands
its request to the dispatcher and returns `Allowed = false`; after five such
calls, an `Authorize` call entered no later than 10 s after the fifth failure
returns `Allowed = false` and hands nothing to the dispatcher; after four or
fewer, the next call still hands its request to the dispatcher. -/
theorem C22_breaker (maxAuthBody maxConcurrent : Int) (secret : String) (now : Nat)
    (w : RequestDispatcher) (hfail : ∀ req, (w.SendRequest req).err = true)
    (calls : List AuthCall) (next : AuthCall) :
    (calls.length ≤ 5 →
        ((NewWorkerAuthProvider maxAuthBody maxConcurrent secret now).1.authorizeAll (some w)
            (NewWorkerAuthProvider maxAuthBody maxConcurrent secret now).2 calls).2.map
          (fun o => (o.result, o.requests)) =
        calls.map (fun c =>
          (({ Allowed := false, UserData := none } : AuthResult),
            [({ channelName := c.channel, socketID := c.clientID } : AuthRequest)]))) ∧
      (calls.length ≤ 4 →
        ((NewWorkerAuthProvider maxAuthBody maxConcurrent secret now).1.Authorize
            ((NewWorkerAuthProvider maxAuthBody maxConcurrent secret now).1.authorizeAll (some w)
              (NewWorkerAuthProvider maxAuthBody maxConcurrent secret now).2 calls).1
            (some w) next.clientID next.channel next.t0 next.t1).requests =
          [{ channelName := next.channel, socketID := next.clientID }]) ∧
      (calls.length = 5 → ∀ last, calls.getLast? = some last →
        next.t0 ≤ last.t1 + CBResetTimeout →
        ((NewWorkerAuthProvider maxAuthBody maxConcurrent secret now).1.Authorize
            ((NewWorkerAuthProvider maxAuthBody maxConcurrent secret now).1.authorizeAll (some w)
              (NewWorkerAuthProvider maxAuthBody maxConcurrent secret now).2 calls).1
            (some w) next.clientID next.channel next.t0 next.t1).result.Allowed = false ∧
          ((NewWorkerAuthProvider maxAuthBody maxConcurrent secret now).1.Authorize
            ((NewWorkerAuthProvider maxAuthBody maxConcurrent secret now).1.authorizeAll (some w)
              (NewWorkerAuthProvider maxAuthBody maxConcurrent secret now).2 calls).1
            (some w) next.clientID next.channel next.t0 next.t1).requests = []) := by
  have hp : (NewWorkerAuthProvider maxAuthBody maxConcurrent secret now).1.authPathValid = true :=
    rfl
  have hcap : 1 ≤ (NewWorkerAuthProvider maxAuthBody maxConcurrent secret now).1.semCap := by
    show 1 ≤ (if maxConcurrent ≤ 0 then (100 : Int) else maxConcurrent)
    split_ifs <;> omega
  have h0 := ClosedAfter_new maxAuthBody maxConcurrent secret now
  have hall := fun hlen => authorizeAll_of_closed _ w hp hcap hfail calls 0 _ h0 hlen
  refine ⟨fun hlen => (hall (by omega)).1, fun hlen => ?_, fun hlen last hl ht => ?_⟩
  · have hc := (hall (by omega)).2.1 (by omega)
    exact (Authorize_of_closed _ w hp hcap hfail _ _ hc next.clientID next.channel next.t0
      next.t1).2.1
  · have ho := (hall (by omega)).2.2 (by omega) last hl
    obtain ⟨r1, r2, _⟩ := Authorize_of_open _ (some w) hcap _ _ ho next.clientID next.channel
      next.t0 next.t1 ht
    exact ⟨by rw [r1]; rfl, r2⟩

theorem C22_breaker_witness :
    (∀ req, (failingWorker.SendRequest req).err = true) ∧
      ((NewWorkerAuthProvider 1024 100 "secret" 0).1.Authorize
          ((NewWorkerAuthProvider 1024 100 "secret" 0).1.authorizeAll (some failingWorker)
            (NewWorkerAuthProvider 1024 100 "secret" 0).2 fiveFailures).1
          (some failingWorker) "1.1" "private-a" 6000000000 6100000000).requests = [] :=
  ⟨fun _ => rfl,
    ((C22_breaker 1024 100 "secret" 0 failingWorker (fun _ => rfl) fiveFailures
      { clientID := "1.1", channel := "private-a", t0 := 6000000000, t1 := 6100000000 }).2.2
      (by decide)
      { clientID := "1.1", channel := "private-a", t0 := 5000000000, t1 := 5100000000 }
      (by decide) (by decide)).2⟩

/-! ## C23 and C24: defaults of the configuration -/

theorem validateAndDefaults_fields (numCPU : Int) (parseDuration : String → Option Int)
    (m m1 : WebsocketModule)
    (h : m.validateAndDefaults numCPU parseDuration = Except.ok m1) :
    m1.NumShards = (m.withDefaults numCPU).NumShards ∧
      m1.MaxConnections = (m.withDefaults numCPU).MaxConnections ∧
      m1.WebhookURL = m.WebhookURL ∧ m1.WebhookSecret = m.WebhookSecret ∧
      (m.PingPeriod = "" → m1.pingPeriodDuration = DefaultPingPeriod) := by
  unfold WebsocketModule.validateAndDefaults at h
  split_ifs at h with a1 a2 a3
  dsimp only at h
  split at h
  · cases h
  · rename_i pingPeriod hping
    split at h
    · cases h
    · split at h
      · cases h
      · injection h with h
        subst h
        refine ⟨rfl, rfl, rfl, rfl, fun hp => ?_⟩
        have e : (m.withDefaults numCPU).PingPeriod = "" := hp
        rw [e] at hping
        simp only [durationOr, if_true, Option.some.injEq] at hping
        exact hping.symm

theorem Hub.forward_activityTimeout (h : Hub) (shard : Option HubShard) (m : ShardMessage) :
    (h.forward shard m).activityTimeout = h.activityTimeout ∧
      (h.forward shard m).sent = h.sent := by
  unfold Hub.forward
  cases shard <;> exact ⟨rfl, rfl⟩

theorem Hub.cleanupLoop_activityTimeout (c : Client) (l : List Nat) :
    ∀ h : Hub,
      (l.foldl
        (fun (acc : Hub) (i : Nat) =>
          if HasShard (acc.shardMask c) (i : Int) then
            acc.forward acc.shards[i]? (ShardMessage.cleanup c)
          else acc) h).activityTimeout = h.activityTimeout := by
  induction l with
  | nil => intro h; rfl
  | cons i rest ih =>
    intro h
    simp only [List.foldl_cons]
    by_cases hb : HasShard (h.shardMask c) (i : Int) = true
    · simp only [hb, if_true]
      rw [ih, (Hub.forward_activityTimeout _ _ _).1]
    · simp only [hb, Bool.false_eq_true, if_false]
      exact ih h

theorem Hub.step_activityTimeout (h : Hub) (op : HubOp) :
    (h.step op).activityTimeout = h.activityTimeout := by
  cases op with
  | register c =>
    show (h.Register c).activityTimeout = _
    unfold Hub.Register
    split_ifs <;> rfl
  | unregister c =>
    show (h.Unregister c).activityTimeout = _
    by_cases hc : c ∉ h.clients
    · rw [Hub.Unregister_of_not_mem hc]
    · unfold Hub.Unregister
      rw [if_neg hc]
      dsimp only
      rw [Hub.cleanupLoop_activityTimeout]

theorem Hub.apply_activityTimeout (ops : List HubOp) :
    ∀ h : Hub, (h.apply ops).activityTimeout = h.activityTimeout := by
  induction ops with
  | nil => intro h; rfl
  | cons op rest ih =>
    intro h
    unfold Hub.apply at ih ⊢
    rw [List.foldl_cons, ih, Hub.step_activityTimeout]

/-- C23, as stated, fails: with the required directives only (no `ping_period`
and no `pong_wait`), the hub is built with a ping period of 54 s and the
`pusher:connection_established` frame that `Register` sends carries the
`activity_timeout` 54, not 108. -/
theorem C23_default_is_54 :
    bareModule.validateAndDefaults 8 noDuration = Except.ok bareValidated ∧
      (bareValidated.newHub.Register clientOne).sent clientOne =
        [{ client := clientOne, activityTimeout := 54 }] ∧
      (bareValidated.newHub.Register clientOne).sent clientOne ≠
        [{ client := clientOne, activityTimeout := 108 }] :=
  ⟨rfl, by decide, by decide⟩

/-- C23 (amended). With no `ping_period` directive, in a module that
`validateAndDefaults` accepts, the hub that `NewHub` builds has the activity
timeout 54 (the default ping period is nine tenths of the default pong wait of
60 s), and after any calls of `Register` and `Unregister` every
`pusher:connection_established` frame that `Register` sends carries the
`activity_timeout` 54. -/
theorem C23_activity_timeout (numCPU : Int) (parseDuration : String → Option Int)
    (m m1 : WebsocketModule) (hp : m.PingPeriod = "")
    (h : m.validateAndDefaults numCPU parseDuration = Except.ok m1) (ops : List HubOp)
    (c : Client) :
    m1.pingPeriodDuration = 54 * 1000000000 ∧ m1.newHub.activityTimeout = 54 ∧
      ((m1.newHub.apply ops).Register c).sent c =
        (m1.newHub.apply ops).sent c ++
          (if (m1.newHub.apply ops).conns ≥ (m1.newHub.apply ops).maxConnections then []
          else [{ client := c, activityTimeout := 54 }]) := by
  have hd := (validateAndDefaults_fields numCPU parseDuration m m1 h).2.2.2.2 hp
  have hd2 : m1.pingPeriodDuration = 54 * 1000000000 := hd.trans (by decide)
  have ht : m1.newHub.activityTimeout = 54 := by
    unfold WebsocketModule.newHub NewHub
    rw [hd2]
    rfl
  refine ⟨hd2, ht, ?_⟩
  have ha := Hub.apply_activityTimeout ops m1.newHub
  by_cases hcap : (m1.newHub.apply ops).conns ≥ (m1.newHub.apply ops).maxConnections
  · rw [Hub.Register_of_full c hcap, if_pos hcap]
    simp
  · rw [Hub.Register_of_room c hcap, if_neg hcap]
    simp [ha, ht]

theorem C23_activity_timeout_witness :
    bareModule.PingPeriod = "" ∧
      bareModule.validateAndDefaults 8 noDuration = Except.ok bareValidated ∧
      (bareValidated.newHub.Register clientOne).sent clientOne =
        [{ client := clientOne, activityTimeout := 54 }] :=
  ⟨rfl, rfl,
    ((C23_activity_timeout 8 noDuration bareModule bareValidated rfl rfl [] clientOne).2.2).trans
      (by decide)⟩

/-- C24, as stated, fails for the directive `num_shards 1`:
`validateAndDefaults` leaves the value as it is and `NewHub` creates one
shard. -/
theorem C24_one_shard :
    oneShard.NumShards = 1 ∧
      oneShard.validateAndDefaults 8 noDuration = Except.ok oneShardValidated ∧
      oneShardValidated.newHub.shards.length = 1 :=
  ⟨rfl, rfl, by decide⟩

/-- C24 (amended). For every value `v` of the `num_shards` directive, in a
module that `validateAndDefaults` accepts, the number of shards that `NewHub`
creates lies in the range [1, 64]; it lies in [4, 64] when `v` is not 1, 2 or
3, and it is `v` itself when `v` is 1, 2 or 3. -/
theorem C24_shard_count (numCPU : Int) (parseDuration : String → Option Int)
    (m m1 : WebsocketModule)
    (h : m.validateAndDefaults numCPU parseDuration = Except.ok m1) :
    (m1.newHub.shards.length : Int) = m1.newHub.numShards ∧
      1 ≤ m1.newHub.numShards ∧ m1.newHub.numShards ≤ 64 ∧
      (m.NumShards ≤ 0 ∨ 4 ≤ m.NumShards → 4 ≤ m1.newHub.numShards) ∧
      (1 ≤ m.NumShards → m.NumShards ≤ 3 → m1.newHub.numShards = m.NumShards) := by
  have hn := (validateAndDefaults_fields numCPU parseDuration m m1 h).1
  have hs := NewHub_sharded (some { url := m1.WebhookURL, secret := m1.WebhookSecret })
    m1.MaxConnections m1.NumShards m1.pingPeriodDuration
  have hv : m1.newHub.numShards =
      (if (if m1.NumShards ≤ 0 then 32 else m1.NumShards) > 64 then 64
        else (if m1.NumShards ≤ 0 then 32 else m1.NumShards)) := rfl
  have hd : (m.withDefaults numCPU).NumShards =
      (if m.NumShards = 0 then
        (if (if numCPU * 2 > 64 then 64 else numCPU * 2) < 4 then 4
          else (if numCPU * 2 > 64 then 64 else numCPU * 2))
      else m.NumShards) := rfl
  rw [hd] at hn
  refine ⟨?_, hs.pos, hs.le, ?_, ?_⟩
  · have hl := hs.length
    have hp := hs.pos
    show ((NewHub _ _ _ _).shards.length : Int) = (NewHub _ _ _ _).numShards
    rw [hl]
    omega
  · intro hm
    rw [hv, hn]
    split_ifs <;> omega
  · intro h1 h3
    rw [hv, hn]
    split_ifs <;> omega

theorem C24_shard_count_witness :
    bareModule.validateAndDefaults 8 noDuration = Except.ok bareValidated ∧
      4 ≤ bareValidated.newHub.numShards ∧ bareValidated.newHub.numShards ≤ 64 :=
  have h := C24_shard_count 8 noDuration bareModule bareValidated rfl
  ⟨rfl, h.2.2.2.1 (Or.inl (by decide)), h.2.2.1⟩
/-! ## C25: the backoff of the reconnect loop -/

/-- C25. After `n ≤ 33` failed attempts the reconnect loop sleeps
`min(2^n, 30)` seconds.  After 34 failed attempts the product
`2^34 * time.Second` has wrapped around to a negative duration, which is not
above 30 s and is slept as it is (that is, not at all); after 55 to 62 failed
attempts the product has wrapped around to zero. -/
theorem C25_backoff_overflow (overflowed : Nat → Int) :
    (∀ n, n ≤ 33 → sleepDuration overflowed n = min (2 ^ n) 30 * 1000000000) ∧
      sleepDuration overflowed 34 = -1266874889709551616 ∧
      (∀ n, 55 ≤ n → n ≤ 62 → sleepDuration overflowed n = 0) := by
  refine ⟨fun n hn => ?_, rfl, fun n h1 h2 => ?_⟩
  · interval_cases n <;> rfl
  · interval_cases n <;> rfl

/-! ## C26: the protocol check -/

/-- C26. The check compares the text of the parameter with the text `5`:
`protocol=10` is answered with 400 although 10 is not below 5 (and so is every
number whose first digit is below 5, such as 40); `protocol=4` is answered
with 400, `protocol=5`, `7` and `50` are not, and neither is a request without
the parameter. -/
theorem C26_protocol_ten_rejected :
    ServeHTTP (decimal 10) true false true = Served.error 400 "Unsupported protocol version" ∧
      ServeHTTP (decimal 40) true false true = Served.error 400 "Unsupported protocol version" ∧
      ServeHTTP (decimal 4) true false true = Served.error 400 "Unsupported protocol version" ∧
      ServeHTTP (decimal 5) true false true = Served.served ∧
      ServeHTTP (decimal 7) true false true = Served.served ∧
      ServeHTTP (decimal 50) true false true = Served.served ∧
      ServeHTTP "" true false true = Served.served := by
  decide
/-! ## C27 and C28: `handleMessage` -/

theorem objectMembers_of_invalid (message : String) (h : validJSON message = false) :
    Json.objectMembers message = none := by
  unfold validJSON validJSONWithin at h
  unfold Json.objectMembers
  dsimp only
  cases hs : Json.scanValue (Json.skipSpace message.data) with
  | none => rfl
  | some rest =>
    have hs1 : Json.scanValueWithin Json.maxNestingDepth (Json.skipSpace message.data) =
        some rest := hs
    rw [hs1] at h
    have hr : Json.skipSpace rest ≠ [] := by simpa using h
    simp only [hr, ne_eq, not_false_eq_true, if_true]

theorem handleMessage_of_invalid (c : Client) (clientID : String) (auth : AuthProvider)
    (message : String) (h : validJSON message = false) :
    c.handleMessage clientID auth message =
      { Handled.nothing with sent := [pusherError ErrorGenericReconnect "Invalid JSON format"] } := by
  unfold Client.handleMessage unmarshalClientMessage
  rw [objectMembers_of_invalid message h]

/-- C28. For a text frame that is not valid JSON, `handleMessage` hands to
`Send` exactly one frame, `pusher:error` with code 4200 and message
`Invalid JSON format`, and sends nothing to the hub; the read loop goes on, and
a frame `{"event":"pusher:ping"}` that follows is answered with exactly
`{"event":"pusher:pong"}`. -/
theorem C28_invalid_json (c : Client) (clientID : String) (auth : AuthProvider)
    (message : String) (h : validJSON message = false) :
    c.handleMessage clientID auth message =
        { sent := [pusherError 4200 "Invalid JSON format"], clientMessage := [], subscribe := [],
          unsubscribe := [], authorized := [] } ∧
      pusherError 4200 "Invalid JSON format" =
        "\x7b\"data\":\x7b\"code\":4200,\"message\":\"Invalid JSON format\"\x7d,\"event\":\"pusher:error\"\x7d" ∧
      c.readPump clientID auth
          [Incoming.text message, Incoming.text "\x7b\"event\":\"pusher:ping\"\x7d"] =
        { handled :=
            { sent := [pusherError 4200 "Invalid JSON format", "\x7b\"event\":\"pusher:pong\"\x7d"],
              clientMessage := [], subscribe := [], unsubscribe := [], authorized := [] },
          conn := [], ended := false } := by
  have h1 := handleMessage_of_invalid c clientID auth message h
  have h2 : c.handleMessage clientID auth "\x7b\"event\":\"pusher:ping\"\x7d" =
      { Handled.nothing with sent := ["\x7b\"event\":\"pusher:pong\"\x7d"] } := by
    have hm : unmarshalClientMessage "\x7b\"event\":\"pusher:ping\"\x7d" =
        some { Event := "pusher:ping", Channel := "", Data := "" } := by decide
    unfold Client.handleMessage
    rw [hm]
    rfl
  refine ⟨h1, by decide, ?_⟩
  simp only [Client.readPump, h1, h2]
  rfl

theorem C28_invalid_json_witness :
    validJSON "\x7bINVALID_JSON" = false ∧
      (clientOne.handleMessage "1.1" denyAll "\x7bINVALID_JSON").sent =
        ["\x7b\"data\":\x7b\"code\":4200,\"message\":\"Invalid JSON format\"\x7d,\"event\":\"pusher:error\"\x7d"] :=
  have h := C28_invalid_json clientOne "1.1" denyAll "\x7bINVALID_JSON" (by decide)
  ⟨by decide, (congrArg Handled.sent h.1).trans (congrArg (fun x => [x]) h.2.1)⟩

theorem handleMessage_of_subscribe (c : Client) (clientID : String) (auth : AuthProvider)
    (message : String) (msg : ClientMessage) (ch : String)
    (hmsg : unmarshalClientMessage message = some msg) (hev : msg.Event = "pusher:subscribe")
    (hdata : unmarshalSubscribeData msg.Data = some { Channel := ch }) :
    c.handleMessage clientID auth message =
      if !IsValidChannelName ch then Handled.nothing
      else if hasPrefix ch ChannelPrefixPrivate || hasPrefix ch ChannelPrefixPresence then
        if !(Hub.Authorize auth c ch).Allowed then
          { Handled.nothing with
            sent := [pusherError ErrorSubscriptionDenied ("Subscription to " ++ ch ++ " rejected")]
            authorized := [ch] }
        else
          { Handled.nothing with
            subscribe :=
              [{ Client := c, Channel := ch, AuthData := (Hub.Authorize auth c ch).UserData.getD "" }]
            authorized := [ch] }
      else { Handled.nothing with subscribe := [{ Client := c, Channel := ch, AuthData := "" }] } := by
  unfold Client.handleMessage
  rw [hmsg]
  dsimp only
  rw [hev, hdata]
  have e1 : ¬ goLen "pusher:subscribe" > MaxEventLength := by decide
  have e2 : hasPrefix "pusher:subscribe" ChannelPrefixClient = false := by decide
  have e3 : ¬ ("pusher:subscribe" = EventPing) := by decide
  have e4 : "pusher:subscribe" = EventSubscribe := rfl
  rw [if_neg e1, e2, if_neg Bool.false_ne_true, if_neg e3, if_pos e4]

/-- C27. For a `pusher:subscribe` message that names the channel `ch`: when
`ch` is valid, starts with `private-` or `presence-` and `Hub.Authorize`
denies, `handleMessage` hands to `Send` exactly one frame, `pusher:error` with
code 4009 and message `Subscription to <ch> rejected`, and sends nothing to the
hub; when `ch` is valid and has neither prefix, `Hub.Authorize` is not called
and one subscribe intent without auth payload is sent to the hub; when `ch` is
not valid, nothing is sent at all. -/
theorem C27_subscribe (c : Client) (clientID : String) (auth : AuthProvider)
    (message : String) (msg : ClientMessage) (ch : String)
    (hmsg : unmarshalClientMessage message = some msg) (hev : msg.Event = "pusher:subscribe")
    (hdata : unmarshalSubscribeData msg.Data = some { Channel := ch }) :
    (IsValidChannelName ch = true →
        hasPrefix ch "private-" = true ∨ hasPrefix ch "presence-" = true →
        (Hub.Authorize auth c ch).Allowed = false →
        c.handleMessage clientID auth message =
          { sent := [pusherError 4009 ("Subscription to " ++ ch ++ " rejected")],
            clientMessage := [], subscribe := [], unsubscribe := [], authorized := [ch] }) ∧
      (IsValidChannelName ch = true →
        hasPrefix ch "private-" = false → hasPrefix ch "presence-" = false →
        c.handleMessage clientID auth message =
          { sent := [], clientMessage := [],
            subscribe := [{ Client := c, Channel := ch, AuthData := "" }], unsubscribe := [],
            authorized := [] }) ∧
      (IsValidChannelName ch = false →
        c.handleMessage clientID auth message =
          { sent := [], clientMessage := [], subscribe := [], unsubscribe := [],
            authorized := [] }) := by
  rw [handleMessage_of_subscribe c clientID auth message msg ch hmsg hev hdata]
  refine ⟨fun hv hp hd => ?_, fun hv h1 h2 => ?_, fun hv => ?_⟩
  · have hp2 : (hasPrefix ch ChannelPrefixPrivate || hasPrefix ch ChannelPrefixPresence) = true := by
      rcases hp with hp | hp
      · simp [ChannelPrefixPrivate, hp]
      · simp [ChannelPrefixPresence, hp]
    simp only [hv, hp2, hd, Bool.not_true, Bool.not_false, Bool.false_eq_true, if_false, if_true]
    rfl
  · have hp2 : (hasPrefix ch ChannelPrefixPrivate || hasPrefix ch ChannelPrefixPresence) = false := by
      simp [ChannelPrefixPrivate, ChannelPrefixPresence, h1, h2]
    simp only [hv, hp2, Bool.not_true, Bool.false_eq_true, if_false]
    rfl
  · simp only [hv, Bool.not_false, if_true]
    rfl

theorem C27_subscribe_witness :
    unmarshalClientMessage
        "\x7b\"event\":\"pusher:subscribe\",\"data\":\x7b\"channel\":\"private-a\"\x7d\x7d" =
        some (ClientMessage.mk "pusher:subscribe" "" "\x7b\"channel\":\"private-a\"\x7d") ∧
      unmarshalSubscribeData "\x7b\"channel\":\"private-a\"\x7d" = some { Channel := "private-a" } ∧
      (clientOne.handleMessage "1.1" denyAll
        "\x7b\"event\":\"pusher:subscribe\",\"data\":\x7b\"channel\":\"private-a\"\x7d\x7d").sent =
        ["\x7b\"data\":\x7b\"code\":4009,\"message\":\"Subscription to private-a rejected\"\x7d,\"event\":\"pusher:error\"\x7d"] :=
  have h1 : unmarshalClientMessage
      "\x7b\"event\":\"pusher:subscribe\",\"data\":\x7b\"channel\":\"private-a\"\x7d\x7d" =
      some (ClientMessage.mk "pusher:subscribe" "" "\x7b\"channel\":\"private-a\"\x7d") := by
    decide
  have h2 : unmarshalSubscribeData "\x7b\"channel\":\"private-a\"\x7d" =
      some { Channel := "private-a" } := by decide
  ⟨h1, h2,
    (congrArg Handled.sent
      ((C27_subscribe clientOne "1.1" denyAll _ _ "private-a" h1 rfl h2).1 (by decide)
        (Or.inl (by decide)) (by decide))).trans (by decide)⟩

/-! ## C29: the shard bitmap covers the state of every shard -/

theorem HasShard_AddShard (mask : Nat) (id j : Int) :
    HasShard (AddShard mask id) j = true ↔
      HasShard mask j = true ∨ (j = id ∧ 0 ≤ id ∧ id < 64) := by
  rw [HasShard_iff, HasShard_iff]
  unfold AddShard
  by_cases hr : id < 0 ∨ id ≥ 64
  · rw [if_pos hr]
    constructor
    · intro h; exact Or.inl h
    · rintro (h | ⟨_, h1, h2⟩)
      · exact h
      · omega
  · rw [if_neg hr]
    have hid : id.toNat < 64 := by omega
    by_cases hj : 0 ≤ j ∧ j < 64
    · have hjn : j.toNat < 64 := by omega
      rw [Nat.one_shiftLeft, Nat.mod_eq_of_lt (Nat.pow_lt_pow_right (by decide) hid),
        Nat.testBit_mod_two_pow, Nat.testBit_or, Nat.testBit_two_pow]
      simp only [hjn, decide_True, Bool.true_and, Bool.or_eq_true, decide_eq_true_eq]
      constructor
      · rintro ⟨h1, h2, h3 | h3⟩
        · exact Or.inl ⟨h1, h2, h3⟩
        · right; omega
      · rintro (⟨h1, h2, h3⟩ | ⟨h1, h2, h3⟩)
        · exact ⟨h1, h2, Or.inl h3⟩
        · exact ⟨hj.1, hj.2, Or.inr (by omega)⟩
    · constructor
      · rintro ⟨h1, h2, _⟩; exact absurd ⟨h1, h2⟩ hj
      · rintro (⟨h1, h2, _⟩ | ⟨h1, h2, h3⟩)
        · exact absurd ⟨h1, h2⟩ hj
        · exact absurd ⟨by omega, by omega⟩ hj

theorem HoldsState_Subscribe (sm : SubscriptionManager) (c : Client) (ch userData : String)
    (d : Client) (h : HoldsState (Subscribe sm c ch userData) d) : d = c ∨ HoldsState sm d := by
  by_cases hd : d = c
  · exact Or.inl hd
  right
  rcases h with ⟨ch1, h1⟩ | h2 | ⟨ch1, m, h3, h4⟩
  · rw [inChannel_Subscribe] at h1
    rcases h1 with ⟨_, e⟩ | h1
    · exact absurd e hd
    · exact Or.inl ⟨ch1, h1⟩
  · rw [Subscribe_clients, Function.update_noteq hd] at h2
    exact Or.inr (Or.inl h2)
  · rw [Subscribe_clientToUser] at h3
    by_cases hp : hasPrefix ch ChannelPrefixPresence = true
    · rw [if_pos hp] at h3
      cases hm : presenceMember userData with
      | none =>
        rw [hm] at h3
        exact Or.inr (Or.inr ⟨ch1, m, h3, h4⟩)
      | some member =>
        rw [hm] at h3
        dsimp only at h3
        by_cases hc : ch1 = ch
        · subst hc
          rw [Function.update_same] at h3
          cases h3
          rw [Finmap.mem_insert] at h4
          rcases h4 with e | h4
          · exact absurd e hd
          · by_cases hn : (sm.presence ch1).isNone = true
            · rw [if_pos hn] at h4
              exact (Finmap.not_mem_empty h4).elim
            · rw [if_neg hn] at h4
              cases hq : sm.clientToUser ch1 with
              | none =>
                rw [hq] at h4
                exact (Finmap.not_mem_empty h4).elim
              | some m0 =>
                rw [hq] at h4
                exact Or.inr (Or.inr ⟨ch1, m0, hq, h4⟩)
        · rw [Function.update_noteq hc] at h3
          exact Or.inr (Or.inr ⟨ch1, m, h3, h4⟩)
    · rw [if_neg hp] at h3
      exact Or.inr (Or.inr ⟨ch1, m, h3, h4⟩)

theorem HoldsState_Unsubscribe (sm : SubscriptionManager) (c : Client) (ch : String)
    (d : Client) (h : HoldsState (Unsubscribe sm c ch) d) : HoldsState sm d := by
  rcases h with ⟨ch1, h1⟩ | h2 | ⟨ch1, m, h3, h4⟩
  · rw [inChannel_Unsubscribe] at h1
    exact Or.inl ⟨ch1, h1.1⟩
  · rw [Unsubscribe_clients] at h2
    by_cases hd : d = c
    · subst hd
      rw [Function.update_same, Option.isSome_map'] at h2
      exact Or.inr (Or.inl h2)
    · rw [Function.update_noteq hd] at h2
      exact Or.inr (Or.inl h2)
  · rw [Unsubscribe_clientToUser] at h3
    by_cases hp : hasPrefix ch ChannelPrefixPresence = true
    · rw [if_pos hp] at h3
      by_cases hc : ch1 = ch
      · subst hc
        rw [Function.update_same] at h3
        cases hq : sm.clientToUser ch1 with
        | none =>
          rw [hq] at h3
          cases h3
        | some m0 =>
          rw [hq] at h3
          cases h3
          rw [Finmap.mem_erase] at h4
          exact Or.inr (Or.inr ⟨ch1, m0, hq, h4.2⟩)
      · rw [Function.update_noteq hc] at h3
        exact Or.inr (Or.inr ⟨ch1, m, h3, h4⟩)
    · rw [if_neg hp] at h3
      exact Or.inr (Or.inr ⟨ch1, m, h3, h4⟩)

theorem HoldsState_unsubscribeAll (c : Client) (order : List String) (d : Client) :
    ∀ sm : SubscriptionManager, HoldsState (unsubscribeAll sm c order) d → HoldsState sm d := by
  induction order with
  | nil => intro sm h; exact h
  | cons ch rest ih =>
    intro sm h
    rw [unsubscribeAll_cons] at h
    exact HoldsState_Unsubscribe sm c ch d (ih _ h)

theorem HoldsState_RemoveClient (sm : SubscriptionManager) (c : Client) (order : List String)
    (d : Client) (h : HoldsState (RemoveClient sm c order) d) : HoldsState sm d := by
  cases hc : sm.clients c with
  | none =>
    rw [RemoveClient_of_none hc] at h
    exact h
  | some chans =>
    rw [RemoveClient_of_some hc] at h
    apply HoldsState_unsubscribeAll c order d sm
    rcases h with ⟨ch1, h1⟩ | h2 | ⟨ch1, m, h3, h4⟩
    · exact Or.inl ⟨ch1, h1⟩
    · dsimp only at h2
      by_cases hd : d = c
      · subst hd
        rw [Function.update_same] at h2
        cases h2
      · rw [Function.update_noteq hd] at h2
        exact Or.inr (Or.inl h2)
    · exact Or.inr (Or.inr ⟨ch1, m, h3, h4⟩)

theorem HoldsState_of_fields {sm sm1 : SubscriptionManager} (e1 : sm1.channels = sm.channels)
    (e2 : sm1.clients = sm.clients) (e3 : sm1.clientToUser = sm.clientToUser) (d : Client) :
    HoldsState sm1 d ↔ HoldsState sm d := by
  unfold HoldsState inChannel
  rw [e1, e2, e3]

theorem HoldsState_BroadcastToChannel (sm : SubscriptionManager) (msg : BroadcastMessage)
    (d : Client) : HoldsState (BroadcastToChannel sm msg) d ↔ HoldsState sm d := by
  apply HoldsState_of_fields <;>
  · unfold BroadcastToChannel
    dsimp only
    split_ifs
    · rfl
    · split <;> simp

theorem HoldsState_BroadcastToOthers (sm : SubscriptionManager) (sender : Client)
    (channel event data : String) (d : Client) :
    HoldsState (BroadcastToOthers sm sender channel event data) d ↔ HoldsState sm d := by
  apply HoldsState_of_fields <;>
  · unfold BroadcastToOthers
    split_ifs
    · rfl
    · split
      · rfl
      · split_ifs
        all_goals rfl

theorem HubShard.runCase_id (s : HubShard) (mask : Client → Nat) (order : List String)
    (message : ShardMessage) : (s.runCase mask order message).1.id = s.id := by
  cases message <;> rfl

/-- A shard step adds the bit of the shard for every client that newly holds
state on it, and clears no bit. -/
theorem HubShard.runCase_masked (s : HubShard) (mask : Client → Nat) (order : List String)
    (message : ShardMessage) (hid0 : 0 ≤ s.id) (hid : s.id < 64) :
    (∀ d, HoldsState (s.runCase mask order message).1.subs d →
        HoldsState s.subs d ∨ HasShard ((s.runCase mask order message).2 d) s.id = true) ∧
      ∀ d (j : Int), HasShard (mask d) j = true →
        HasShard ((s.runCase mask order message).2 d) j = true := by
  cases message with
  | cleanup c =>
    exact ⟨fun d hd => Or.inl (HoldsState_RemoveClient _ _ _ _ hd), fun d j h => h⟩
  | subscribe sub =>
    refine ⟨fun d hd => ?_, fun d j h => ?_⟩
    · rcases HoldsState_Subscribe _ _ _ _ _ hd with e | h1
      · subst e
        right
        simp only [HubShard.runCase, Function.update_same]
        exact (HasShard_AddShard _ _ _).2 (Or.inr ⟨rfl, hid0, hid⟩)
      · exact Or.inl h1
    · simp only [HubShard.runCase]
      by_cases e : d = sub.Client
      · subst e
        rw [Function.update_same]
        exact (HasShard_AddShard _ _ _).2 (Or.inl h)
      · rw [Function.update_noteq e]
        exact h
  | unsubscribe sub =>
    exact ⟨fun d hd => Or.inl (HoldsState_Unsubscribe _ _ _ _ hd), fun d j h => h⟩
  | broadcast msg =>
    exact ⟨fun d hd => Or.inl ((HoldsState_BroadcastToChannel _ _ _).1 hd), fun d j h => h⟩
  | clientMsg cMsg =>
    exact ⟨fun d hd => Or.inl ((HoldsState_BroadcastToOthers _ _ _ _ _ _).1 hd), fun d j h => h⟩

theorem Hub.shardStep_numShards (h : Hub) (i : Nat) (message : ShardMessage)
    (order : List String) : (h.shardStep i message order).numShards = h.numShards := by
  unfold Hub.shardStep
  split <;> rfl

theorem Hub.Sharded.sharded_shardStep {h : Hub} (hs : h.Sharded) (i : Nat) (message : ShardMessage)
    (order : List String) : (h.shardStep i message order).Sharded := by
  have hn := Hub.shardStep_numShards h i message order
  unfold Hub.shardStep at hn ⊢
  cases hi : h.shards[i]? with
  | none => exact hs
  | some s =>
    refine ⟨hs.pos, hs.le, ?_, ?_⟩
    · simp only [List.length_set]
      exact hs.length
    · intro k t hk
      simp only [List.getElem?_set] at hk
      by_cases e : i = k
      · subst e
        rw [if_pos rfl] at hk
        split_ifs at hk
        cases hk
        rw [HubShard.runCase_id]
        exact hs.ids _ _ hi
      · rw [if_neg e] at hk
        exact hs.ids _ _ hk

theorem Hub.Running.sharded_of_running {h : Hub} (hr : h.Running) : h.Sharded := by
  induction hr with
  | new webhook maxConn numShards pingPeriod =>
    exact NewHub_sharded webhook maxConn numShards pingPeriod
  | register c _ ih => exact ih.of_eq (Hub.Register_shards _ c).1 (Hub.Register_shards _ c).2.1
  | unregister c _ ih =>
    exact ih.of_eq (Hub.Unregister_shards _ c).1 (Hub.Unregister_shards _ c).2.1
  | run ev _ ih => exact ih.of_eq (Hub.runCase_shards _ ev).1 (Hub.runCase_shards _ ev).2
  | shard i message order _ _ ih => exact ih.sharded_shardStep i message order

theorem Hub.Sharded.index_lt {h : Hub} (hs : h.Sharded) {i : Nat} {s : HubShard}
    (hi : h.shards[i]? = some s) : i < h.numShards.toNat ∧ (i : Int) < 64 := by
  have hlt : i < h.shards.length := by
    by_contra hge
    rw [List.getElem?_eq_none (by omega)] at hi
    cases hi
  rw [hs.length] at hlt
  have := hs.le
  exact ⟨hlt, by omega⟩

theorem Hub.Masked.of_same_shards {h h1 : Hub} (hm : h.Masked) (e1 : h1.shards = h.shards)
    (e2 : h1.shardMask = h.shardMask) : h1.Masked := by
  unfold Hub.Masked at hm ⊢
  rw [e1, e2]
  exact hm

theorem Hub.Register_shardMask (h : Hub) (c : Client) :
    (h.Register c).shardMask = h.shardMask := by
  unfold Hub.Register
  split_ifs <;> rfl

theorem Hub.Unregister_shardMask (h : Hub) (c : Client) :
    (h.Unregister c).shardMask = h.shardMask := by
  unfold Hub.Unregister
  by_cases hc : c ∉ h.clients
  · rw [if_pos hc]
  · rw [if_neg hc]
    exact (Hub.cleanupLoop_fields c _ _).2.2.2.2.2

theorem Hub.runCase_shardMask (h : Hub) (ev : HubEvent) :
    (h.runCase ev).shardMask = h.shardMask := by
  cases ev with
  | broker msg =>
    cases msg with
    | none => rfl
    | some m => exact (Hub.forward_shards h _ _).2.2.2.2.2
  | subscribe sub =>
    simp only [Hub.runCase]
    split_ifs
    · exact (Hub.forward_shards h _ _).2.2.2.2.2
    · rfl
  | unsubscribe sub =>
    simp only [Hub.runCase]
    split_ifs
    · exact (Hub.forward_shards h _ _).2.2.2.2.2
    · rfl
  | clientMessage cMsg => exact (Hub.forward_shards h _ _).2.2.2.2.2

theorem Hub.Masked.masked_shardStep {h : Hub} (hs : h.Sharded) (hm : h.Masked) (i : Nat)
    (message : ShardMessage) (order : List String) : (h.shardStep i message order).Masked := by
  unfold Hub.shardStep
  cases hi : h.shards[i]? with
  | none => exact hm
  | some s =>
    have hid := hs.ids i s hi
    obtain ⟨_, h64⟩ := hs.index_lt hi
    obtain ⟨a1, a2⟩ := HubShard.runCase_masked s h.shardMask order message (by omega) (by omega)
    intro k t hk d hd
    simp only [List.getElem?_set] at hk
    dsimp only
    by_cases e : i = k
    · subst e
      rw [if_pos rfl] at hk
      split_ifs at hk
      cases hk
      rcases a1 d hd with h1 | h1
      · exact a2 d _ (hm i s hi d h1)
      · rw [hid] at h1
        exact h1
    · rw [if_neg e] at hk
      exact a2 d _ (hm k t hk d hd)

theorem NewHub_masked (webhook : Option WebhookManager) (maxConn numShards pingPeriod : Int) :
    (NewHub webhook maxConn numShards pingPeriod).Masked := by
  intro i s hs c hc
  unfold NewHub at hs
  simp only [List.getElem?_map, Option.map_eq_some'] at hs
  obtain ⟨j, _, rfl⟩ := hs
  rcases hc with ⟨ch, h1⟩ | h2 | ⟨ch, m, h3, _⟩
  · exact absurd h1 (Finset.not_mem_empty _)
  · cases h2
  · cases h3

theorem Hub.Running.masked {h : Hub} (hr : h.Running) : h.Masked := by
  induction hr with
  | new webhook maxConn numShards pingPeriod =>
    exact NewHub_masked webhook maxConn numShards pingPeriod
  | register c _ ih =>
    exact ih.of_same_shards (Hub.Register_shards _ c).1 (Hub.Register_shardMask _ c)
  | unregister c _ ih =>
    exact ih.of_same_shards (Hub.Unregister_shards _ c).1 (Hub.Unregister_shardMask _ c)
  | run ev _ ih =>
    exact ih.of_same_shards (Hub.runCase_shards _ ev).1 (Hub.runCase_shardMask _ ev)
  | shard i message order hr _ ih =>
    exact ih.masked_shardStep hr.sharded_of_running i message order

theorem Hub.cleanupLoop_mailbox (c : Client) (l : List Nat) :
    ∀ h : Hub,
      let r := l.foldl
        (fun (acc : Hub) (i : Nat) =>
          if HasShard (acc.shardMask c) (i : Int) then
            acc.forward acc.shards[i]? (ShardMessage.cleanup c)
          else acc) h
      (∀ x, x ∈ h.mailbox → x ∈ r.mailbox) ∧
        ∀ i, i ∈ l → ∀ s, h.shards[i]? = some s → HasShard (h.shardMask c) (i : Int) = true →
          (s.id, ShardMessage.cleanup c) ∈ r.mailbox := by
  induction l with
  | nil =>
    intro h
    exact ⟨fun x hx => hx, fun i hi => absurd hi (List.not_mem_nil i)⟩
  | cons k rest ih =>
    intro h
    simp only [List.foldl_cons]
    by_cases hb : HasShard (h.shardMask c) (k : Int) = true
    · simp only [hb, if_true]
      obtain ⟨a1, a2⟩ := ih (h.forward h.shards[k]? (ShardMessage.cleanup c))
      obtain ⟨b1, _, _, _, _, b6⟩ := Hub.forward_shards h h.shards[k]? (ShardMessage.cleanup c)
      have hsub : ∀ x, x ∈ h.mailbox →
          x ∈ (h.forward h.shards[k]? (ShardMessage.cleanup c)).mailbox := by
        intro x hx
        unfold Hub.forward
        split
        · exact List.mem_append_left _ hx
        · exact hx
      refine ⟨fun x hx => a1 x (hsub x hx), ?_⟩
      intro i hi s hs hm
      rcases List.mem_cons.1 hi with e | hi1
      · subst e
        apply a1
        rw [hs]
        unfold Hub.forward
        exact List.mem_append_right _ (List.mem_singleton_self _)
      · exact a2 i hi1 s (by rw [b1]; exact hs) (by rw [b6]; exact hm)
    · simp only [hb, Bool.false_eq_true, if_false]
      obtain ⟨a1, a2⟩ := ih h
      refine ⟨a1, ?_⟩
      intro i hi s hs hm
      rcases List.mem_cons.1 hi with e | hi1
      · subst e
        exact absurd hm hb
      · exact a2 i hi1 s hs hm

theorem Hub.Unregister_mailbox {h : Hub} {c : Client} (hc : c ∈ h.clients) (i : Nat)
    (s : HubShard) (hi : i < h.numShards.toNat) (hs : h.shards[i]? = some s)
    (hm : HasShard (h.shardMask c) (i : Int) = true) :
    (s.id, ShardMessage.cleanup c) ∈ (h.Unregister c).mailbox := by
  unfold Hub.Unregister
  rw [if_neg (not_not.2 hc)]
  exact (Hub.cleanupLoop_mailbox c (List.range h.numShards.toNat)
    { h with
      clients := h.clients.erase c
      conns := h.conns - 1
      connections := h.connections - 1 }).2 i (List.mem_range.2 hi) s hs hm

theorem subscribedHub_running : subscribedHub.Running :=
  Hub.Running.shard _ _ _
    (Hub.Running.run _ (Hub.Running.register _ (Hub.Running.new none 2 32 54000000000)))
    (fun _ _ _ e => by cases e)

/-- C29. In every state of a hub built by `NewHub` and driven by `Register`,
`Unregister`, the loop of `Run` and the loops of its shards (subscribe,
unsubscribe, cleanup and the two broadcasts, in any interleaving), a shard at
index `i` has id `i` below 64, and if client `c` appears in an index of its
subscription manager (a subscriber set, the key set of `clients`, a presence
mapping) then bit `i` is set in the mask of `c`; so the call `Unregister(c)`
that `readPump` makes when the connection of a registered client `c` ends
posts a cleanup to every shard that holds state for `c`. -/
theorem C29_shard_mask (h : Hub) (hr : h.Running) (i : Nat) (s : HubShard)
    (hs : h.shards[i]? = some s) (c : Client) (hc : HoldsState s.subs c) :
    s.id = (i : Int) ∧ s.id < 64 ∧ HasShard (h.shardMask c) s.id = true ∧
      (c ∈ h.clients → (s.id, ShardMessage.cleanup c) ∈ (h.Unregister c).mailbox) := by
  have hsh := hr.sharded_of_running
  have hid := hsh.ids i s hs
  obtain ⟨hlt, h64⟩ := hsh.index_lt hs
  have hm := hr.masked i s hs c hc
  rw [hid]
  refine ⟨rfl, h64, hm, fun hmem => ?_⟩
  rw [← hid]
  exact Hub.Unregister_mailbox hmem i s hlt hs hm

set_option maxRecDepth 20000 in
theorem C29_shard_mask_witness :
    subscribedHub.Running ∧ clientOne ∈ subscribedHub.clients ∧
      HasShard (subscribedHub.shardMask clientOne) (newsIndex : Int) = true ∧
      ((newsIndex : Int), ShardMessage.cleanup clientOne) ∈
        (subscribedHub.Unregister clientOne).mailbox :=
  have hs : subscribedHub.shards[newsIndex]? =
      some (((NewHubShard (newsIndex : Int) none).runCase
        (fun _ => 0) [] (ShardMessage.subscribe newsSubscription)).1) := rfl
  have h := C29_shard_mask subscribedHub subscribedHub_running newsIndex _ hs clientOne
    (Or.inr (Or.inl (by decide)))
  ⟨subscribedHub_running, by decide, h.2.2.1, h.2.2.2 (by decide)⟩

end Websocket
